import Mathlib

/-!
IQL (htmlq): column type inference, the HTML source adapter and the aggregate
built-ins.

A shallow embedding of

* `ColumnSelector.ResolveType` (`data/source.go`), together with the two
  `strconv` parsers it calls,
* `NewReference`, `Reference.String`, `ColumnSelector.IsPublic` and the
  accessors, counts and sizes of the three column types (`data/source.go`),
* `openInput` (`data/source.go`) over an environment that stands for the
  network, the file system and the format resolver,
* `NewHTML` / `processHTML` (`data/format_html.go`) over an abstract `goquery`,
* the aggregate built-ins `AVG`, `COUNT`, `MAX`, `MIN`, `SUM`, the built-ins
  `NULLIF` and `LEFT`, and the table `builtIns` with its lookup `builtIn`
  (`query/functions.go`),

and the properties of these functions.

The strings of cells, names and selectors are modelled by Lean strings.  Every
grammar below only ever accepts ASCII characters, so reading such a string by
code points instead of by bytes makes no difference to what is accepted.  The
strings inside the values of the query language are sequences of bytes.
-/

namespace Htmlq

/-! ## Go standard library: `strconv` -/

/-- The test `'0' <= c && c <= '9'`. -/
def isDigit (c : Char) : Bool :=
  decide (48 ≤ c.toNat) && decide (c.toNat ≤ 57)

/-- The value `c - '0'` of a decimal digit. -/
def digitVal (c : Char) : Nat := c.toNat - 48

/-- The largest `uint64`. -/
def maxUint64 : Nat := 2 ^ 64 - 1

/-- The digit loop of `strconv.ParseUint(s, 10, 64)`: every byte has to be a
decimal digit (anything else is a syntax error), and the loop stops with a
range error as soon as `n*10` or `n*10 + d` leaves `uint64`.  Here `none` stands
for either error. -/
def parseUintLoop : List Char → Nat → Option Nat
  | [], n => some n
  | c :: cs, n =>
    if isDigit c then
      if n ≥ maxUint64 / 10 + 1 then none
      else if n * 10 + digitVal c > maxUint64 then none
      else parseUintLoop cs (n * 10 + digitVal c)
    else none

/-- Go `strconv.ParseUint(s, 10, 64)`; the empty string is a syntax error. -/
def ParseUint (s : List Char) : Option Nat :=
  match s with
  | [] => none
  | _ :: _ => parseUintLoop s 0

/-- Go `strconv.ParseInt(s, 10, 64)`: an optional sign, then `ParseUint`, then
the range check against `cutoff = 1 << 63`.  The result is the parsed `int64`,
`none` when Go returns an error. -/
def ParseInt (s : String) : Option Int :=
  match s.toList with
  | [] => none
  | c :: cs =>
    let neg : Bool := c == '-'
    let rest := if c == '+' || c == '-' then cs else c :: cs
    match ParseUint rest with
    | none => none
    | some un =>
      if !neg && decide (un ≥ 2 ^ 63) then none
      else if neg && decide (un > 2 ^ 63) then none
      else some (if neg then -(un : Int) else (un : Int))

/-- The code of `c` with an ASCII capital folded to lower case, as in
`commonPrefixLenIgnoreCase`.  Go's `lower(c) = c | 0x20` is only ever compared
with lower-case letters, and such a comparison holds for the same bytes. -/
def lowerCode (c : Char) : Nat :=
  if 65 ≤ c.toNat ∧ c.toNat ≤ 90 then c.toNat + 32 else c.toNat

/-- Go `commonPrefixLenIgnoreCase(s, prefix)`, for a lower-case second argument. -/
def commonPrefixLenIgnoreCase : List Char → List Char → Nat
  | c :: s, p :: ps => if lowerCode c = p.toNat then commonPrefixLenIgnoreCase s ps + 1 else 0
  | _, _ => 0

/-- The length `special` reports for an infinity spelled at the start of `s`:
anything longer than "inf" that is not the whole of "infinity" counts as "inf". -/
def infinityLen (s : List Char) : Option Nat :=
  let n := commonPrefixLenIgnoreCase s "infinity".toList
  let n := if 3 < n ∧ n < 8 then 3 else n
  if n = 3 ∨ n = 8 then some n else none

/-- Go `strconv.special`: the number of bytes of a leading "inf", "infinity"
(optionally signed) or "nan", ignoring case; `none` when there is none. -/
def special (s : List Char) : Option Nat :=
  match s with
  | [] => none
  | c :: cs =>
    if c = '+' ∨ c = '-' then (infinityLen cs).map (· + 1)
    else if c = 'i' ∨ c = 'I' then infinityLen s
    else if c = 'n' ∨ c = 'N' then
      (if commonPrefixLenIgnoreCase s "nan".toList = 3 then some 3 else none)
    else none

/-- The local variables of the mantissa loop of `strconv.readFloat`.  `mant`
holds all mantissa digits that follow the leading zeros (Go keeps the first 19
of them, 16 for a hexadecimal mantissa, in a `uint64` and notes that it
truncated; the conversion that follows rounds the full literal correctly). -/
structure FloatScan where
  sawdot : Bool
  sawdigits : Bool
  underscores : Bool
  nd : Nat
  dp : Int
  mant : Nat
deriving DecidableEq

/-- The test `'a' <= lower(c) && lower(c) <= 'f'`. -/
def isHexLetter (c : Char) : Bool :=
  decide (97 ≤ lowerCode c) && decide (lowerCode c ≤ 102)

/-- The mantissa loop of `strconv.readFloat` (label `loop`): consumes digits,
underscores and the first '.', and hands back the state and the unread rest. -/
def scanMantissa (hex : Bool) : List Char → FloatScan → FloatScan × List Char
  | [], st => (st, [])
  | c :: cs, st =>
    if c = '_' then scanMantissa hex cs { st with underscores := true }
    else if c = '.' then
      if st.sawdot then (st, c :: cs)
      else scanMantissa hex cs { st with sawdot := true, dp := st.nd }
    else if isDigit c then
      if c = '0' ∧ st.nd = 0 then
        scanMantissa hex cs { st with sawdigits := true, dp := st.dp - 1 }
      else
        scanMantissa hex cs { st with
          sawdigits := true, nd := st.nd + 1
          mant := st.mant * (if hex then 16 else 10) + digitVal c }
    else if hex && isHexLetter c then
      scanMantissa hex cs { st with
        sawdigits := true, nd := st.nd + 1
        mant := st.mant * 16 + (lowerCode c - 97 + 10) }
    else (st, c :: cs)

/-- The exponent digit loop of `strconv.readFloat`: digits and underscores;
the exponent stops growing once it has reached 10000.  Returns the exponent,
whether an underscore was seen, and the unread rest. -/
def scanExponent : List Char → Nat → Bool → Nat × Bool × List Char
  | [], e, u => (e, u, [])
  | c :: cs, e, u =>
    if c = '_' then scanExponent cs e true
    else if isDigit c then scanExponent cs (if e < 10000 then e * 10 + digitVal c else e) u
    else (e, u, c :: cs)

/-- Go `strconv.underscoreOK`, the loop over the number proper: `saw` is the
class of the last byte seen, `'0'` digit, `'_'` underscore, `'!'` other,
`'^'` the beginning. -/
def underscoreLoop (hex : Bool) : List Char → Char → Bool
  | [], saw => saw != '_'
  | c :: cs, saw =>
    if isDigit c || (hex && isHexLetter c) then underscoreLoop hex cs '0'
    else if c = '_' then
      if saw != '0' then false else underscoreLoop hex cs '_'
    else if saw = '_' then false
    else underscoreLoop hex cs '!'

/-- Go `strconv.underscoreOK`: underscores only between digits, or between a
base prefix and a digit. -/
def underscoreOK (s : List Char) : Bool :=
  let s := match s with
    | c :: cs => if c = '-' ∨ c = '+' then cs else s
    | [] => s
  match s with
  | c0 :: c1 :: cs =>
    if c0 = '0' ∧ (lowerCode c1 = 98 ∨ lowerCode c1 = 111 ∨ lowerCode c1 = 120) then
      underscoreLoop (lowerCode c1 = 120) cs '0'
    else underscoreLoop false s '^'
  | _ => underscoreLoop false s '^'

/-- A floating-point literal as `readFloat` decodes it: the value is
`± mant * base ^ exp`, where `base` is 2 for a hexadecimal literal (Go counts
four bits for each hexadecimal digit) and 10 otherwise. -/
structure FloatLit where
  hex : Bool
  neg : Bool
  mant : Nat
  exp : Int
deriving DecidableEq

/-- The test `i+2 < len(s) && s[i] == '0' && lower(s[i+1]) == 'x'` of
`strconv.readFloat` on the text after the sign. -/
def hexPrefixed : List Char → Bool
  | c0 :: c1 :: _ :: _ => c0 == '0' && lowerCode c1 == 120
  | _ => false

/-- Go `strconv.readFloat`: the decoded literal and the unread rest, `none`
when Go reports `ok == false`. -/
def readFloat (s : List Char) : Option (FloatLit × List Char) :=
  match s with
  | [] => none
  | c :: cs =>
    let neg : Bool := c == '-'
    let s1 := if c = '+' ∨ c = '-' then cs else s
    let hex : Bool := hexPrefixed s1
    let s2 := if hex then s1.drop 2 else s1
    let (st, s3) := scanMantissa hex s2 ⟨false, false, false, 0, 0, 0⟩
    if !st.sawdigits then none
    else
      let dp : Int := if st.sawdot then st.dp else st.nd
      let dp : Int := if hex then dp * 4 else dp
      let ndBits : Int := if hex then (st.nd : Int) * 4 else st.nd
      let finish (dp : Int) (u : Bool) (rest : List Char) : Option (FloatLit × List Char) :=
        if u && !underscoreOK (s.take (s.length - rest.length)) then none
        else some (⟨hex, neg, st.mant, if st.mant = 0 then 0 else dp - ndBits⟩, rest)
      match s3 with
      | e :: s4 =>
        if lowerCode e = (if hex then 112 else 101) then
          match s4 with
          | [] => none
          | g :: s5 =>
            let esign : Int := if g = '-' then -1 else 1
            let s6 := if g = '+' ∨ g = '-' then s5 else s4
            match s6 with
            | [] => none
            | d :: _ =>
              if !isDigit d then none
              else
                let (ev, u, rest) := scanExponent s6 0 st.underscores
                finish (dp + (ev : Int) * esign) u rest
        else if hex then none
        else finish dp st.underscores s3
      | [] => if hex then none else finish dp st.underscores s3

/-- The number `2^1024 - 2^970`, half way between the largest finite `float64`
and `2^1024`: the least magnitude that rounds (to nearest, ties to even) out of
the finite range. -/
def float64Overflow : Nat :=
  179769313486231580793728971405303415079934132710037826936173778980444968292764750946649017977587207096330286416692887910946555547851940402630657488671505820681908902000708383676273854845817711531764475730270069855571366959622842914819860834936475292719074168444365510704342711559699508093042880177904174497792

/-- Whether the literal rounds beyond the largest finite `float64`, that is
whether `mant * base ^ exp ≥ 2^1024 - 2^970`: this is when `ParseFloat` reports
a range error. -/
def FloatLit.overflows (l : FloatLit) : Bool :=
  let base : Nat := if l.hex then 2 else 10
  if l.mant = 0 then false
  else if 0 ≤ l.exp then decide (float64Overflow ≤ l.mant * base ^ l.exp.toNat)
  else decide (float64Overflow * base ^ (-l.exp).toNat ≤ l.mant)

/-- What `strconv.ParseFloat(s, 64)` denotes before rounding to `float64`. -/
inductive FloatVal where
  | inf (neg : Bool)
  | nan
  | lit (l : FloatLit)
deriving DecidableEq

/-- Go `strconv.ParseFloat(s, 64)` (Go 1.13 and later): the special values, or
a decimal or hexadecimal literal that is read to the end of `s` and does not
overflow; `none` when Go returns an error. -/
def ParseFloat (s : String) : Option FloatVal :=
  let cs := s.toList
  match special cs with
  | some n =>
    if n = cs.length then
      some (match cs with
        | 'n' :: _ => .nan
        | 'N' :: _ => .nan
        | c :: _ => .inf (c == '-')
        | [] => .nan)
    else none
  | none =>
    match readFloat cs with
    | none => none
    | some (l, rest) =>
      if rest = [] ∧ l.overflows = false then some (.lit l) else none

/-! ## `data/source.go`: column types -/

/-- Go `type ColumnType int` with its four constants, in `iota` order.  Only
the four declared constants are column types here. -/
inductive ColumnType where
  | ColumnBool
  | ColumnInt
  | ColumnFloat
  | ColumnString
deriving DecidableEq

export ColumnType (ColumnBool ColumnInt ColumnFloat ColumnString)

/-- The integer value of the constant: the position on the ladder. -/
def ColumnType.toNat : ColumnType → Nat
  | ColumnBool => 0
  | ColumnInt => 1
  | ColumnFloat => 2
  | ColumnString => 3

instance : LE ColumnType := ⟨fun a b => a.toNat ≤ b.toNat⟩

instance : LT ColumnType := ⟨fun a b => a.toNat < b.toNat⟩

instance (a b : ColumnType) : Decidable (a ≤ b) :=
  inferInstanceAs (Decidable (a.toNat ≤ b.toNat))

instance (a b : ColumnType) : Decidable (a < b) :=
  inferInstanceAs (Decidable (a.toNat < b.toNat))

/-- The higher of two column types on the ladder. -/
def ColumnType.max (a b : ColumnType) : ColumnType := if a ≤ b then b else a

namespace Lit

/-- Go `const True = "true"`. -/
def True : String := "true"

/-- Go `const False = "false"`. -/
def False : String := "false"

end Lit

/-- Go `type Reference struct`. -/
structure Reference where
  Source : String
  Column : String
deriving DecidableEq

/-- Go `type ColumnSelector struct`; `Typ` is the field `Type`. -/
structure ColumnSelector where
  Name : Reference
  As : String
  Typ : ColumnType
deriving DecidableEq

/-- The `for { switch col.Type { ... } }` loop of `ResolveType`, as a function
of the current type: each case either returns or moves one step up. -/
def resolveLoop (t : ColumnType) (val : String) : ColumnType :=
  match t with
  | ColumnBool =>
    if val = Lit.True ∨ val = Lit.False then ColumnBool else resolveLoop ColumnInt val
  | ColumnInt =>
    if (ParseInt val).isSome then ColumnInt else resolveLoop ColumnFloat val
  | ColumnFloat =>
    if (ParseFloat val).isSome then ColumnFloat else resolveLoop ColumnString val
  | ColumnString => ColumnString
termination_by 3 - t.toNat
decreasing_by all_goals simp [ColumnType.toNat]

/-- Go `func (col *ColumnSelector) ResolveType(val string)`: the selector
after the call.  The test `len(val) == 0` holds for the empty string only. -/
def ColumnSelector.ResolveType (col : ColumnSelector) (val : String) : ColumnSelector :=
  if val.length = 0 then col
  else { col with Typ := resolveLoop col.Typ val }

/-- One call of `ResolveType` for each cell, in sequence order. -/
def resolveCells (col : ColumnSelector) (cells : List String) : ColumnSelector :=
  cells.foldl ColumnSelector.ResolveType col

/-- A selector whose type is still `ColumnBool`, the zero value of the field. -/
def freshSelector (name : Reference) (as : String) : ColumnSelector :=
  ⟨name, as, ColumnBool⟩

/-- What a column type accepts: `ColumnBool` the two literals, `ColumnInt` what
`ParseInt` parses, `ColumnFloat` what `ParseFloat` parses, `ColumnString`
everything. -/
def accepts (t : ColumnType) (val : String) : Bool :=
  match t with
  | ColumnBool => decide (val = Lit.True ∨ val = Lit.False)
  | ColumnInt => (ParseInt val).isSome
  | ColumnFloat => (ParseFloat val).isSome
  | ColumnString => true

/-- The type a single cell minimally requires: the lowest type that accepts it;
an empty cell requires nothing. -/
def minimalType (val : String) : Option ColumnType :=
  if val.length = 0 then none
  else if accepts ColumnBool val then some ColumnBool
  else if accepts ColumnInt val then some ColumnInt
  else if accepts ColumnFloat val then some ColumnFloat
  else some ColumnString

/-- The maximum over the ladder of the types the cells minimally require
(`ColumnBool`, the bottom of the ladder, when no cell requires anything). -/
def maxRequired (cells : List String) : ColumnType :=
  cells.foldl (fun t c => match minimalType c with
    | none => t
    | some r => t.max r) ColumnBool


/-! ## `data/source.go`: columns and rows -/

/-- Go `type Column interface`, with its three implementations `NullColumn`,
`StringColumn` and `StringsColumn`. -/
inductive Column where
  | NullColumn
  | StringColumn (s : String)
  | StringsColumn (s : List String)
deriving DecidableEq

/-- The method `String()` of the three column types; for a `StringsColumn` it
is `fmt.Sprintf("%v", []string(s))`, the elements separated by blanks inside
square brackets. -/
def Column.String : Column → String
  | .NullColumn => "NULL"
  | .StringColumn s => s
  | .StringsColumn s => "[" ++ " ".intercalate s ++ "]"

/-- Go `type Row []Column`. -/
abbrev Row := List Column

/-! ## `data/format_html.go` -/

/-- Go `unicode.IsSpace`. -/
def IsSpace (c : Char) : Bool :=
  let n := c.toNat
  n = 0x09 || n = 0x0A || n = 0x0B || n = 0x0C || n = 0x0D || n = 0x20 || n = 0x85 ||
    n = 0xA0 || n = 0x1680 || (decide (0x2000 ≤ n) && decide (n ≤ 0x200A)) || n = 0x2028 ||
    n = 0x2029 || n = 0x202F || n = 0x205F || n = 0x3000

/-- Go `strings.TrimSpace`: the string without its leading and trailing white
space. -/
def TrimSpace (s : String) : String :=
  String.mk ((s.toList.dropWhile IsSpace).reverse.dropWhile IsSpace).reverse

/-- The part of the `goquery` package the HTML adapter calls, over a type
`Node` of element nodes; a `*goquery.Selection` is the list of its nodes in
document order. -/
structure Goquery (Input Node : Type) where
  /-- Go `goquery.NewDocumentFromReader`: the document root, or the parse error. -/
  NewDocumentFromReader : Input → Except String Node
  /-- Go `Selection.Find` on a single node: the descendants the selector matches. -/
  Find : Node → String → List Node
  /-- Go `Selection.Text` on a single node: its text content. -/
  Text : Node → String

/-- Go `Selection.Text()`: the combined text of the nodes of the selection. -/
def Goquery.selText {Input Node : Type} (g : Goquery Input Node) (sel : List Node) : String :=
  String.join (sel.map g.Text)

/-- Modelled from the spec: `ColumnSelector.ResolveString` is called by
`processHTML` but is not among the sources; the spec has every adapter call
`resolve_type` once per cell during ingest, so it is `ResolveType`. -/
def ColumnSelector.ResolveString (col : ColumnSelector) (val : String) : ColumnSelector :=
  col.ResolveType val

/-- The cell `processHTML` appends for one column selector: by the number of
nodes the selector matches inside the row element. -/
def htmlCell {Input Node : Type} (g : Goquery Input Node) (sel : List Node) : Column :=
  match sel.length with
  | 0 => .StringColumn ""
  | 1 => .StringColumn (TrimSpace (g.selText sel))
  | _ => .StringsColumn (sel.map g.Text)

/-- The loop `for i, col := range columns` of `processHTML` for the row element
`s`, from index `i` on: `todo` are the selectors still to visit, `row` the row
built so far and `columns` the selector slice, whose element `i` is updated in
place.  An index out of range (a Go panic) is an error. -/
def processRow {Input Node : Type} (g : Goquery Input Node) (s : Node) :
    Nat → List ColumnSelector → Row → List ColumnSelector →
      Except String (Row × List ColumnSelector)
  | _, [], row, columns => .ok (row, columns)
  | i, col :: todo, row, columns =>
    let sel := g.Find s col.Name.Column
    let row := row ++ [htmlCell g sel]
    match row[i]?, columns[i]? with
    | some cell, some ci =>
      processRow g s (i + 1) todo row (columns.set i (ci.ResolveString cell.String))
    | _, _ => .error "index out of range"

/-- The callback of `doc.Find(filter).Each(...)` in `processHTML`, run for the
matched row elements in order: each builds one row and appends it to `rows`. -/
def processRows {Input Node : Type} (g : Goquery Input Node) :
    List Node → List Row → List ColumnSelector →
      Except String (List Row × List ColumnSelector)
  | [], rows, columns => .ok (rows, columns)
  | s :: rest, rows, columns =>
    match processRow g s 0 columns [] columns with
    | .error e => .error e
    | .ok (row, columns) => processRows g rest (rows ++ [row]) columns

/-- Go `processHTML`: the rows with those of the input appended, and the
selector slice as the calls to `ResolveString` leave it. -/
def processHTML {Input Node : Type} (g : Goquery Input Node) (input : Input) (rows : List Row)
    (filter : String) (columns : List ColumnSelector) :
    Except String (List Row × List ColumnSelector) :=
  match g.NewDocumentFromReader input with
  | .error e => .error e
  | .ok doc => processRows g (g.Find doc filter) rows columns

/-- Go `type HTML struct`. -/
structure HTML where
  columns : List ColumnSelector
  rows : List Row
deriving DecidableEq

/-- The loop `for _, in := range input` of `NewHTML`. -/
def newHTMLLoop {Input Node : Type} (g : Goquery Input Node) (filter : String) :
    List Input → List Row → List ColumnSelector →
      Except String (List Row × List ColumnSelector)
  | [], rows, columns => .ok (rows, columns)
  | i :: rest, rows, columns =>
    match processHTML g i rows filter columns with
    | .error e => .error e
    | .ok (rows, columns) => newHTMLLoop g filter rest rows columns

/-- Go `NewHTML`. -/
def NewHTML {Input Node : Type} (g : Goquery Input Node) (input : List Input) (filter : String)
    (columns : List ColumnSelector) : Except String HTML :=
  if columns.length = 0 then .error "html: 'SELECT *' not supported"
  else
    match newHTMLLoop g filter input [] columns with
    | .error e => .error e
    | .ok (rows, columns) => .ok ⟨columns, rows⟩

/-- Go `(*HTML).Columns`. -/
def HTML.Columns (html : HTML) : List ColumnSelector := html.columns

/-- Go `(*HTML).Get`. -/
def HTML.Get (html : HTML) : Except String (List Row) := .ok html.rows

/-- A small document for `goquery`: the root `0` holds the rows `1` and `2`
(selector "tr"); in row `1` the selector "td.a" matches node `3` and "td.b"
nothing, in row `2` "td.a" matches `4` and "td.b" matches `5` and `6`. -/
def sampleGoquery : Goquery Unit Nat where
  NewDocumentFromReader := fun _ => .ok 0
  Find := fun n sel =>
    if n = 0 ∧ sel = "tr" then [1, 2]
    else if n = 1 ∧ sel = "td.a" then [3]
    else if n = 2 ∧ sel = "td.a" then [4]
    else if n = 2 ∧ sel = "td.b" then [5, 6]
    else []
  Text := fun n =>
    if n = 3 then " 1970 " else if n = 4 then "1971" else if n = 5 then "x" else
      if n = 6 then "y" else ""

/-! ## `query/functions.go`: the aggregate built-ins -/

/-- A Go string as the sequence of its bytes.  The values of the query language
carry their strings in this form, because `LEFT` cuts a string at a byte
offset, which need not be a code point boundary. -/
abbrev GoString := List UInt8

/-- The Go string that holds the UTF-8 encoding of a Lean string. -/
def goString (s : String) : GoString := s.data.flatMap String.utf8EncodeChar

/-- Modelled from the spec: the type tags of `types.Value`, which is not among
the sources (the variants the spec lists for a Value). -/
inductive ValueType where
  | Null | Bool | Int | Float | String | Array | DateTime
deriving DecidableEq

/-- Modelled from the spec: `types.Value`, which is not among the sources, "a
tagged union with variants `Null`, `Bool(b)`, `Int(i64)`, `Float(f64)`,
`String(s)`, `Array{elem_type, items}`, `DateTime(instant, tz_offset)`".  An
`IntValue` holds an `int64`, a `FloatValue` a `float64`; on these two the
accessors `Int()` and `Float()` that the aggregates call are the conversion to
the Go number and do not fail. -/
inductive Value where
  | NullValue
  | BoolValue (b : Bool)
  | IntValue (i : Int)
  | FloatValue (f : Float)
  | StringValue (s : GoString)
  | ArrayValue (elemType : ValueType) (items : List Value)
  | DateTime (instant : Int) (tzOffset : Int)

/-- Go `error`: an error with the given message, the error
`fmt.Errorf("<FN> over %T", val)` of an aggregate, kept as the function name
and the offending value, or the `*strconv.NumError` of a `strconv` function on
an input (whether it is a syntax or a range error is not kept), or the
`fmt.Errorf(format, arg)` of `openInput`, kept as the format and its one string
argument. -/
inductive Error where
  | message (s : String)
  | over (fn : String) (val : Value)
  | numError (fn : String) (num : String)
  | errorf (format : String) (arg : GoString)

/-- The `int64` that Go arithmetic yields for the mathematical result `x`:
`x` reduced modulo `2^64` into `[-2^63, 2^63)`. -/
def wrapInt64 (x : Int) : Int := (x + 2 ^ 63) % 2 ^ 64 - 2 ^ 63

/-- The local variables of `builtInAvg`: the map `seen` (it only ever gets the
keys `types.Int` and `types.Float`, each with the value `true`), the two sums
and the count. -/
structure AvgState where
  seenInt : Bool
  seenFloat : Bool
  intSum : Int
  floatSum : Float
  count : Nat

/-- Go `len(seen)`. -/
def AvgState.lenSeen (st : AvgState) : Nat :=
  (if st.seenInt then 1 else 0) + (if st.seenFloat then 1 else 0)

/-- The loop `for _, sumRow := range rows` of `builtInAvg`; `eval` stands for
`args[0].Eval(sumRow, columns, nil)`. -/
def avgLoop {ρ : Type} (eval : ρ → Except Error Value) : List ρ → AvgState → Except Error AvgState
  | [], st => .ok st
  | sumRow :: rows, st =>
    match eval sumRow with
    | .error err => .error err
    | .ok val =>
      match val with
      | .NullValue => avgLoop eval rows st
      | .IntValue add =>
        avgLoop eval rows { st with
          seenInt := true, intSum := wrapInt64 (st.intSum + add), count := st.count + 1 }
      | .FloatValue add =>
        avgLoop eval rows { st with
          seenFloat := true, floatSum := st.floatSum + add, count := st.count + 1 }
      | _ => .error (.over "AVG" val)

/-- Go `builtInAvg`. -/
def builtInAvg {ρ : Type} (eval : ρ → Except Error Value) (rows : List ρ) : Except Error Value :=
  match avgLoop eval rows ⟨false, false, 0, 0, 0⟩ with
  | .error err => .error err
  | .ok st =>
    if st.count = 0 ∨ st.lenSeen ≠ 1 then .ok .NullValue
    else if st.seenFloat then .ok (.FloatValue (st.floatSum / Float.ofNat st.count))
    else .ok (.IntValue (Int.tdiv st.intSum (st.count : Int)))

/-- The loop of `builtInCount`. -/
def countLoop {ρ : Type} (eval : ρ → Except Error Value) : List ρ → Nat → Except Error Nat
  | [], count => .ok count
  | countRow :: rows, count =>
    match eval countRow with
    | .error err => .error err
    | .ok val =>
      match val with
      | .NullValue => countLoop eval rows count
      | _ => countLoop eval rows (count + 1)

/-- Go `builtInCount`. -/
def builtInCount {ρ : Type} (eval : ρ → Except Error Value) (rows : List ρ) :
    Except Error Value :=
  match countLoop eval rows 0 with
  | .error err => .error err
  | .ok count => .ok (.IntValue count)

/-- The local variables of `builtInMax` and of `builtInMin`: the map `seen`
and the two extrema. -/
structure ExtState where
  seenInt : Bool
  seenFloat : Bool
  intExt : Int
  floatExt : Float

/-- The loop of `builtInMax`. -/
def maxLoop {ρ : Type} (eval : ρ → Except Error Value) : List ρ → ExtState → Except Error ExtState
  | [], st => .ok st
  | sumRow :: rows, st =>
    match eval sumRow with
    | .error err => .error err
    | .ok val =>
      match val with
      | .NullValue => maxLoop eval rows st
      | .IntValue ival =>
        maxLoop eval rows { st with
          intExt := if !st.seenInt || decide (ival > st.intExt) then ival else st.intExt
          seenInt := true }
      | .FloatValue fval =>
        maxLoop eval rows { st with
          floatExt := if !st.seenFloat || decide (fval > st.floatExt) then fval else st.floatExt
          seenFloat := true }
      | _ => .error (.over "MAX" val)

/-- Go `builtInMax`. -/
def builtInMax {ρ : Type} (eval : ρ → Except Error Value) (rows : List ρ) : Except Error Value :=
  match maxLoop eval rows ⟨false, false, 0, 0⟩ with
  | .error err => .error err
  | .ok st =>
    if st.seenFloat && st.seenInt then
      .ok (.FloatValue
        (if Float.ofInt st.intExt > st.floatExt then Float.ofInt st.intExt else st.floatExt))
    else if st.seenFloat then .ok (.FloatValue st.floatExt)
    else .ok (.IntValue st.intExt)

/-- The loop of `builtInMin`. -/
def minLoop {ρ : Type} (eval : ρ → Except Error Value) : List ρ → ExtState → Except Error ExtState
  | [], st => .ok st
  | sumRow :: rows, st =>
    match eval sumRow with
    | .error err => .error err
    | .ok val =>
      match val with
      | .NullValue => minLoop eval rows st
      | .IntValue ival =>
        minLoop eval rows { st with
          intExt := if !st.seenInt || decide (ival < st.intExt) then ival else st.intExt
          seenInt := true }
      | .FloatValue fval =>
        minLoop eval rows { st with
          floatExt := if !st.seenFloat || decide (fval < st.floatExt) then fval else st.floatExt
          seenFloat := true }
      | _ => .error (.over "MIN" val)

/-- Go `builtInMin`. -/
def builtInMin {ρ : Type} (eval : ρ → Except Error Value) (rows : List ρ) : Except Error Value :=
  match minLoop eval rows ⟨false, false, 0, 0⟩ with
  | .error err => .error err
  | .ok st =>
    if st.seenFloat && st.seenInt then
      .ok (.FloatValue
        (if Float.ofInt st.intExt < st.floatExt then Float.ofInt st.intExt else st.floatExt))
    else if st.seenFloat then .ok (.FloatValue st.floatExt)
    else .ok (.IntValue st.intExt)

/-- The local variables of `builtInSum`. -/
structure SumState where
  seenInt : Bool
  seenFloat : Bool
  intSum : Int
  floatSum : Float

/-- The loop of `builtInSum`. -/
def sumLoop {ρ : Type} (eval : ρ → Except Error Value) : List ρ → SumState → Except Error SumState
  | [], st => .ok st
  | sumRow :: rows, st =>
    match eval sumRow with
    | .error err => .error err
    | .ok val =>
      match val with
      | .NullValue => sumLoop eval rows st
      | .IntValue add =>
        sumLoop eval rows { st with seenInt := true, intSum := wrapInt64 (st.intSum + add) }
      | .FloatValue add =>
        sumLoop eval rows { st with seenFloat := true, floatSum := st.floatSum + add }
      | _ => .error (.over "SUM" val)

/-- Go `builtInSum`. -/
def builtInSum {ρ : Type} (eval : ρ → Except Error Value) (rows : List ρ) : Except Error Value :=
  match sumLoop eval rows ⟨false, false, 0, 0⟩ with
  | .error err => .error err
  | .ok st =>
    if st.seenFloat && st.seenInt then .ok (.FloatValue (st.floatSum + Float.ofInt st.intSum))
    else if st.seenFloat then .ok (.FloatValue st.floatSum)
    else .ok (.IntValue st.intSum)

/-- The `Int` values among the argument's values on the rows of a group, in
row order. -/
def intValues {ρ : Type} (eval : ρ → Except Error Value) (rows : List ρ) : List Int :=
  rows.filterMap (fun r => match eval r with
    | .ok (.IntValue i) => some i
    | _ => none)

/-- The `Float` values among the argument's values on the rows of a group. -/
def floatValues {ρ : Type} (eval : ρ → Except Error Value) (rows : List ρ) : List Float :=
  rows.filterMap (fun r => match eval r with
    | .ok (.FloatValue f) => some f
    | _ => none)

/-- The rows of a group on which the argument's value is not `Null`. -/
def nonNullRows {ρ : Type} (eval : ρ → Except Error Value) (rows : List ρ) : List ρ :=
  rows.filter (fun r => match eval r with
    | .ok .NullValue => false
    | _ => true)

/-- The column `Year` of the test data of `builtin_test.go`, with the `IntValue`
of each cell as the argument's value. -/
def yearRows : List Int := [1970, 1971, 1972, 1973, 1974]

/-- The argument `Year` evaluated on a row of `yearRows`. -/
def evalYear (year : Int) : Except Error Value := .ok (.IntValue year)

/-- A row group on which the argument evaluates to `Null`, `Int` or `Float`. -/
def numericGroup {ρ : Type} (eval : ρ → Except Error Value) (rows : List ρ) : Prop :=
  ∀ r ∈ rows, eval r = .ok .NullValue ∨ (∃ i, eval r = .ok (.IntValue i)) ∨
    ∃ f, eval r = .ok (.FloatValue f)

/-- A row group on which the argument evaluates to `Null` or `Int`. -/
def intGroup {ρ : Type} (eval : ρ → Except Error Value) (rows : List ρ) : Prop :=
  ∀ r ∈ rows, eval r = .ok .NullValue ∨ ∃ i, eval r = .ok (.IntValue i)

/-! ## `query/functions.go`: `NULLIF` and `LEFT` -/

/-- Go `builtInNullIf`.  `a` and `b` stand for the results of
`args[0].Eval(row, columns, rows)` and `args[1].Eval(row, columns, rows)`, which
the function obtains in this order, and `Equal` for `types.Equal`, which is not
among the sources. -/
def builtInNullIf (Equal : Value → Value → Except Error Bool) (a b : Except Error Value) :
    Except Error Value :=
  match a with
  | .error err => .error err
  | .ok val =>
    match b with
    | .error err => .error err
    | .ok cmp =>
      match Equal val cmp with
      | .error err => .error err
      | .ok ok => if ok then .ok .NullValue else .ok val

/-- An instance of `types.Equal` for the examples, on `Null` and `Int` values as
the spec describes it: a `Null` on either side is not equal to anything, two
`Int` values are equal when the integers are. -/
def sampleEqual : Value → Value → Except Error Bool
  | .NullValue, _ => .ok false
  | _, .NullValue => .ok false
  | .IntValue i, .IntValue j => .ok (decide (i = j))
  | _, _ => .error (.message "unsupported comparison")

/-- The two methods of `types.Value` that `builtInLeft` calls; `types.Value` is
not among the sources. -/
structure ValueMethods where
  /-- Go `Value.String()`. -/
  toString : Value → GoString
  /-- Go `Value.Int()`. -/
  toInt : Value → Except Error Int

/-- What a call of a built-in comes to: it returns a value or an error, or the Go
runtime panics. -/
inductive Outcome where
  | returned (r : Except Error Value)
  | panic (msg : String)

/-- Go `builtInLeft`.  `a` and `b` stand for the results of evaluating the two
arguments; the slice expression `str[:idx]` panics for a negative `idx`. -/
def builtInLeft (m : ValueMethods) (a b : Except Error Value) : Outcome :=
  match a with
  | .error err => .returned (.error err)
  | .ok strVal =>
    match b with
    | .error err => .returned (.error err)
    | .ok idxVal =>
      let str := m.toString strVal
      match m.toInt idxVal with
      | .error err => .returned (.error err)
      | .ok idx64 =>
        let idx : Int := idx64
        let idx : Int := if idx > (str.length : Int) then (str.length : Int) else idx
        if idx < 0 then .panic "slice bounds out of range"
        else .returned (.ok (.StringValue (str.take idx.toNat)))

/-- Methods of `types.Value` for the examples: the string of a `StringValue` is
its content and the integer of an `IntValue` its content. -/
def sampleMethods : ValueMethods where
  toString := fun v => match v with
    | .StringValue s => s
    | _ => []
  toInt := fun v => match v with
    | .IntValue i => .ok i
    | _ => .error (.message "not an integer")

/-! ## `data/source.go`: references, display names and column accessors -/

/-- Go `strings.Split(s, sep)` for a separator of a single ASCII byte, on the
code points of `s`: the pieces between the separators, one more than there are
separators. -/
def Split (sep : Char) : List Char → List (List Char)
  | [] => [[]]
  | c :: cs =>
    if c = sep then [] :: Split sep cs
    else
      match Split sep cs with
      | p :: ps => (c :: p) :: ps
      | [] => [[c]]

/-- Go `NewReference`. -/
def NewReference (name : String) : Except String Reference :=
  match Split '.' name.toList with
  | [column] => .ok ⟨"", String.mk column⟩
  | [source, column] => .ok ⟨String.mk source, String.mk column⟩
  | _ => .error ("invalid column reference '" ++ name ++ "'")

/-- Go `func (col ColumnSelector) String() string`, the display name. -/
def ColumnSelector.String (col : ColumnSelector) : String :=
  if col.As.length > 0 then col.As else col.Name.Column

/-- Go `func (col ColumnSelector) IsPublic() bool`; `IsUpper` stands for
`unicode.IsUpper`, and the runes of a string are its code points. -/
def ColumnSelector.IsPublic (IsUpper : Char → Bool) (col : ColumnSelector) : Bool :=
  let runes := col.String.toList
  match runes with
  | [] => false
  | r :: _ => IsUpper r

/-- Go `NullColumn.Bool`, `StringColumn.Bool` and `StringsColumn.Bool`. -/
def Column.Bool : Column → Except Error Value
  | .NullColumn => .ok .NullValue
  | .StringColumn s =>
    if s.length = 0 then .ok .NullValue
    else if s = Lit.True then .ok (.BoolValue true)
    else if s = Lit.False then .ok (.BoolValue false)
    else .error (.message ("string value '" ++ s ++ "' used as bool"))
  | .StringsColumn s =>
    if s.length = 0 then .ok .NullValue
    else .error (.message "string array used as bool")

/-- Go `NullColumn.Int`, `StringColumn.Int` and `StringsColumn.Int`. -/
def Column.Int : Column → Except Error Value
  | .NullColumn => .ok .NullValue
  | .StringColumn s =>
    if s.length = 0 then .ok .NullValue
    else
      match ParseInt s with
      | none => .error (.numError "ParseInt" s)
      | some v => .ok (.IntValue v)
  | .StringsColumn s =>
    if s.length = 0 then .ok .NullValue
    else .error (.message "string array used as int")

/-- Go `NullColumn.Float`, `StringColumn.Float` and `StringsColumn.Float`;
`round` stands for the rounding of the parsed literal to the nearest `float64`,
which `strconv.ParseFloat` performs. -/
def Column.Float (round : FloatVal → Float) : Column → Except Error Value
  | .NullColumn => .ok .NullValue
  | .StringColumn s =>
    if s.length = 0 then .ok .NullValue
    else
      match ParseFloat s with
      | none => .error (.numError "ParseFloat" s)
      | some v => .ok (.FloatValue (round v))
  | .StringsColumn s =>
    if s.length = 0 then .ok .NullValue
    else .error (.message "string array used as float")

/-- Go `NullColumn.Count`, `StringColumn.Count` and `StringsColumn.Count`. -/
def Column.Count : Column → Nat
  | .NullColumn => 0
  | .StringColumn _ => 1
  | .StringsColumn s => s.length

/-- Go `NullColumn.Size`, `StringColumn.Size` and `StringsColumn.Size`; `len(s)`
is the number of bytes of the UTF-8 string `s`. -/
def Column.Size : Column → Nat
  | .NullColumn => 0
  | .StringColumn s => s.utf8ByteSize
  | .StringsColumn s =>
    s.foldl (fun size e => if e.utf8ByteSize > size then e.utf8ByteSize else size) 0

/-- Go `func (ref *Reference) IsAbsolute() bool`. -/
def Reference.IsAbsolute (ref : Reference) : Bool := decide (ref.Source.length > 0)

/-- Go `func (ref Reference) String() string`; `fmt.Sprintf("%s.%s", a, b)` is
`a`, a dot and `b`. -/
def Reference.String (ref : Reference) : String :=
  if ref.Source.length > 0 then ref.Source ++ "." ++ ref.Column else ref.Column

/-! ## `query/functions.go`: the table of built-ins -/

/-- The functions a `FunctionImpl` of the table points to. -/
inductive FunctionImpl where
  | builtInAvg
  | builtInCount
  | builtInMax
  | builtInMin
  | builtInSum
  | builtInNullIf
  | builtInLeft
deriving DecidableEq

/-- Go `type Function struct`. -/
structure Function where
  Name : String
  Impl : FunctionImpl
  MinArgs : Int
  MaxArgs : Int
  Idempotent : Bool
deriving DecidableEq

/-- Go `var builtIns = []Function{...}`. -/
def builtIns : List Function :=
  [⟨"AVG", .builtInAvg, 1, 1, true⟩,
    ⟨"COUNT", .builtInCount, 1, 1, true⟩,
    ⟨"MAX", .builtInMax, 1, 1, true⟩,
    ⟨"MIN", .builtInMin, 1, 1, true⟩,
    ⟨"SUM", .builtInSum, 1, 1, true⟩,
    ⟨"NULLIF", .builtInNullIf, 2, 2, false⟩,
    ⟨"LEFT", .builtInLeft, 2, 2, false⟩]

/-- Go `builtInsByName`, the map that `init` fills: for each element of
`builtIns` in turn, the key `bi.Name` is set to (the address of) that element. -/
def builtInsByName : String → Option Function :=
  builtIns.foldl (fun m bi => fun name => if name = bi.Name then some bi else m name)
    (fun _ => none)

/-- Go `func builtIn(name string) *Function`; `none` is `nil`. -/
def builtIn (name : String) : Option Function := builtInsByName name

/-! ## `data/source.go`: `openInput` -/

/-- Go `strings.IndexByte`: the index of the first byte `c` of `s`, or -1 when
`s` does not hold it. -/
def IndexByte : GoString → UInt8 → Int
  | [], _ => -1
  | b :: bs, c =>
    if b = c then 0
    else if IndexByte bs c < 0 then -1
    else IndexByte bs c + 1

/-- Go slice expression `s[lo:hi]` of a string; `none` is the run-time panic for
bounds out of range (`s[lo:]` is `s[lo:len(s)]` and `s[:hi]` is `s[0:hi]`). -/
def slice (s : GoString) (lo hi : Int) : Option GoString :=
  if 0 ≤ lo ∧ lo ≤ hi ∧ hi ≤ (s.length : Int) then some ((s.take hi.toNat).drop lo.toNat)
  else none

/-- The first case of the switch of Go `url.getScheme`:
`'a' <= c && c <= 'z' || 'A' <= c && c <= 'Z'`. -/
def isSchemeLetter (c : UInt8) : Bool := (97 ≤ c && c ≤ 122) || (65 ≤ c && c ≤ 90)

/-- The second case of the switch of Go `url.getScheme`:
`'0' <= c && c <= '9' || c == '+' || c == '-' || c == '.'`. -/
def isSchemeOther (c : UInt8) : Bool := (48 ≤ c && c ≤ 57) || c == 43 || c == 45 || c == 46

/-- The loop of Go `url.getScheme` from index `i` on, where `rest` is
`rawURL[i:]`; 58 is the colon.  The result is the scheme, empty when there is
none. -/
def getSchemeLoop (rawURL : GoString) : GoString → Nat → Except Error GoString
  | [], _ => .ok []
  | c :: cs, i =>
    if isSchemeLetter c then getSchemeLoop rawURL cs (i + 1)
    else if isSchemeOther c then
      if i = 0 then .ok [] else getSchemeLoop rawURL cs (i + 1)
    else if c = 58 then
      if i = 0 then .error (.message "missing protocol scheme") else .ok (rawURL.take i)
    else .ok []

/-- Go `url.getScheme`, its first result. -/
def getScheme (rawURL : GoString) : Except Error GoString := getSchemeLoop rawURL rawURL 0

/-- Go `strings.ToLower` on the ASCII letters, which are all the letters a scheme
has. -/
def ToLower (s : GoString) : GoString :=
  s.map (fun c => if 65 ≤ c ∧ c ≤ 90 then c + 32 else c)

/-- The part of a URL before its fragment: `strings.Cut(rawURL, "#")` of Go
`url.Parse`; 35 is the number sign. -/
def cutFragment (rawURL : GoString) : GoString := rawURL.takeWhile (fun c => c != 35)

/-- The fields of Go `url.URL` that `openInput` reads. -/
structure URL where
  Scheme : GoString
  Path : GoString

/-- Go `type Format`, declared outside the sources: `openInput` returns the
constant 0 as a `Format`, so its values are taken as integers. -/
abbrev Format := Int

/-- The fields of Go `http.Response` that `openInput` reads, with
`resp.Header.Get("Content-Type")` as `ContentType`. -/
structure Response (Stream : Type) where
  StatusCode : Int
  ContentType : GoString
  Body : Stream

/-- What `openInput` calls and does not define: the remainder of `url.Parse`,
`http.Get`, `os.Open`, `base64.StdEncoding.DecodeString`, and the type
`Resolver` with its zero value and its methods `ResolvePath`,
`ResolveMediaType` and `Format`, which are declared outside the sources. -/
structure OpenEnv (Stream Resolver : Type) where
  /-- Go `url.Parse` once the scheme is found: an error, or the field `Path` of
  the URL. -/
  parsePath : GoString → Except Error GoString
  /-- Go `http.Get`. -/
  Get : GoString → Except Error (Response Stream)
  /-- Go `os.Open`. -/
  Open : GoString → Except Error Stream
  /-- Go `base64.StdEncoding.DecodeString`. -/
  DecodeString : GoString → Except Error GoString
  /-- Go `var resolver Resolver`. -/
  resolver : Resolver
  /-- Go `resolver.ResolvePath(path)`, as the resolver after the call. -/
  ResolvePath : Resolver → GoString → Resolver
  /-- Go `resolver.ResolveMediaType(mediaType)`, as the resolver after the call. -/
  ResolveMediaType : Resolver → GoString → Resolver
  /-- Go `resolver.Format()`, with `none` for the `nil` error. -/
  Format : Resolver → Format × Option Error

/-- Go `url.Parse`, as far as `openInput` depends on it: the scheme is what
`getScheme` finds in the input without its fragment, in lower case; the rest of
the parse (the other reasons for which it fails, and the path) comes from the
environment.  `openInput` only tests whether the error is `nil`. -/
def urlParse {Stream Resolver : Type} (env : OpenEnv Stream Resolver) (rawURL : GoString) :
    Except Error URL :=
  match getScheme (cutFragment rawURL) with
  | .error e => .error e
  | .ok scheme =>
    match env.parsePath rawURL with
    | .error e => .error e
    | .ok path => .ok ⟨ToLower scheme, path⟩

/-- The `io.ReadCloser` that `openInput` returns: a stream of the environment
(`resp.Body` or the `*os.File`), or `&memory{in: bytes.NewReader(decoded)}`. -/
inductive Reader (Stream : Type) where
  | stream (s : Stream)
  | memory (decoded : GoString)

/-- What a call of `openInput` ends with: the three results of its `return`,
with `none` for `nil`, or a run-time panic. -/
inductive Opened (Stream : Type) where
  | returned (r : Option (Reader Stream)) (format : Format) (err : Option Error)
  | panic (msg : String)

/-- The branch `if err == nil && u.Scheme == "data"` of Go `openInput`, with the
resolver as it is when the branch is entered; 44 is the comma and 59 the
semicolon. -/
def openData {Stream Resolver : Type} (env : OpenEnv Stream Resolver) (resolver : Resolver)
    (input : GoString) : Opened Stream :=
  let idx := IndexByte input 44
  if idx < 0 then .returned none 0 (some (.errorf "malformed data URI: %s" input))
  else
    match slice input (idx + 1) input.length, slice input 5 idx with
    | some data, some contentType =>
      let idx2 := IndexByte contentType 59
      let split : Option (GoString × GoString) :=
        if idx2 ≥ 0 then
          match slice contentType (idx2 + 1) contentType.length, slice contentType 0 idx2 with
          | some encoding, some contentType => some (encoding, contentType)
          | _, _ => none
        else some ([], contentType)
      match split with
      | none => .panic "slice bounds out of range"
      | some (encoding, contentType) =>
        let finish (decoded : GoString) : Opened Stream :=
          let fe := env.Format (env.ResolveMediaType resolver contentType)
          .returned (some (.memory decoded)) fe.1 fe.2
        if encoding = goString "base64" then
          match env.DecodeString data with
          | .error e => .returned none 0 (some e)
          | .ok decoded => finish decoded
        else if encoding = [] then finish data
        else .returned none 0 (some (.errorf "unknown data URI encoding: %s" encoding))
    | _, _ => .panic "slice bounds out of range"

/-- Go `openInput`.  The body of a response that is not read (`io.Copy` to
`ioutil.Discard`, `Close`) leaves no trace in the results. -/
def openInput {Stream Resolver : Type} (env : OpenEnv Stream Resolver) (input : GoString) :
    Opened Stream :=
  let parsed := urlParse env input
  let resolver :=
    match parsed with
    | .error _ => env.ResolvePath env.resolver input
    | .ok u => env.ResolvePath env.resolver u.Path
  let openFile : Opened Stream :=
    match env.Open input with
    | .error e => .returned none 0 (some e)
    | .ok f =>
      let fe := env.Format resolver
      .returned (some (.stream f)) fe.1 fe.2
  match parsed with
  | .error _ => openFile
  | .ok u =>
    if u.Scheme = goString "http" ∨ u.Scheme = goString "https" then
      match env.Get input with
      | .error e => .returned none 0 (some e)
      | .ok resp =>
        if resp.StatusCode ≠ 200 then
          .returned none 0 (some (.errorf "HTTP URL '%s' not found" input))
        else
          let fe := env.Format (env.ResolveMediaType resolver resp.ContentType)
          .returned (some (.stream resp.Body)) fe.1 fe.2
    else if u.Scheme = goString "data" then openData env resolver input
    else openFile

/-- An environment for examples: every URL parses with an empty path, there is
no network and no file, no string decodes, and the resolver is the media type
it was last given, of format 1 when that is `text/csv` and an error
otherwise. -/
def sampleEnv : OpenEnv Unit GoString where
  parsePath := fun _ => .ok []
  Get := fun _ => .error (.message "no network")
  Open := fun _ => .error (.message "no such file")
  DecodeString := fun _ => .error (.message "illegal base64 data")
  resolver := []
  ResolvePath := fun r _ => r
  ResolveMediaType := fun _ m => m
  Format := fun r =>
    if r = goString "text/csv" then (1, none) else (0, some (.message "unknown format"))

/-! ## Properties of the `strconv` parsers -/

theorem isDigit_iff (c : Char) : isDigit c = true ↔ 48 ≤ c.toNat ∧ c.toNat ≤ 57 := by
  simp [isDigit]

theorem lowerCode_of_isDigit {c : Char} (h : isDigit c = true) : lowerCode c = c.toNat := by
  rw [isDigit_iff] at h
  unfold lowerCode
  rw [if_neg]
  omega

theorem ne_of_isDigit {c d : Char} (h : isDigit c = true) (hd : isDigit d = false) : c ≠ d := by
  rintro rfl
  simp [h] at hd

theorem parseUintLoop_le {ds : List Char} {n r : Nat} (h : parseUintLoop ds n = some r)
    (hn : n ≤ maxUint64) : r ≤ maxUint64 := by
  induction ds generalizing n with
  | nil => simp [parseUintLoop] at h; omega
  | cons c cs ih =>
    simp only [parseUintLoop] at h
    split at h
    · split at h
      · simp at h
      · split at h
        · simp at h
        · exact ih h (by omega)
    · simp at h

theorem scanMantissa_of_parseUintLoop {ds : List Char} {n r : Nat} (st : FloatScan)
    (h : parseUintLoop ds n = some r) (hm : st.mant = n) (h0 : st.nd = 0 → st.mant = 0) :
    ∃ st', scanMantissa false ds st = (st', []) ∧ st'.mant = r ∧
      st'.underscores = st.underscores ∧ st'.sawdot = st.sawdot ∧
      (st'.sawdigits = true ∨ (ds = [] ∧ st'.sawdigits = st.sawdigits)) := by
  induction ds generalizing n st with
  | nil =>
    simp [parseUintLoop] at h
    exact ⟨st, by simp [scanMantissa], by omega, rfl, rfl, Or.inr ⟨rfl, rfl⟩⟩
  | cons c cs ih =>
    simp only [parseUintLoop] at h
    split at h
    next hc =>
      have h1 : c ≠ '_' := ne_of_isDigit hc (by decide)
      have h2 : c ≠ '.' := ne_of_isDigit hc (by decide)
      split at h
      · simp at h
      · split at h
        · simp at h
        · simp only [scanMantissa, h1, h2, if_false, hc, if_true]
          split
          next hz =>
            have hd : digitVal c = 0 := by rw [hz.1]; decide
            have hn0 : n = 0 := by rw [← hm]; exact h0 hz.2
            rw [hd, hn0] at h
            obtain ⟨st', e1, e2, e3, e4, e5⟩ := ih { st with sawdigits := true, dp := st.dp - 1 } h
              (by simp [hm, hn0]) (by simp [hm, hn0])
            refine ⟨st', e1, e2, e3, e4, ?_⟩
            rcases e5 with e5 | ⟨_, e5⟩
            · exact Or.inl e5
            · exact Or.inl (by rw [e5])
          next hz =>
            obtain ⟨st', e1, e2, e3, e4, e5⟩ := ih { st with sawdigits := true, nd := st.nd + 1, mant := st.mant * 10 + digitVal c } h
              (by simp [hm]) (by simp)
            refine ⟨st', by simpa using e1, e2, e3, e4, ?_⟩
            rcases e5 with e5 | ⟨_, e5⟩
            · exact Or.inl e5
            · exact Or.inl (by rw [e5])
    · simp at h

theorem ParseUint_eq_some {s : List Char} {un : Nat} (h : ParseUint s = some un) :
    ∃ d ds, s = d :: ds ∧ isDigit d = true ∧ parseUintLoop s 0 = some un := by
  cases s with
  | nil => simp [ParseUint] at h
  | cons d ds =>
    refine ⟨d, ds, rfl, ?_, by simpa [ParseUint] using h⟩
    simp only [ParseUint, parseUintLoop] at h
    by_contra hd
    simp [hd] at h

theorem commonPrefixLen_digit {d : Char} (ds p : List Char) (hd : isDigit d = true)
    (hp : ∀ x ∈ p.head?, 58 ≤ x.toNat) : commonPrefixLenIgnoreCase (d :: ds) p = 0 := by
  cases p with
  | nil => simp [commonPrefixLenIgnoreCase]
  | cons x xs =>
    have hx := hp x (by simp)
    rw [isDigit_iff] at hd
    simp only [commonPrefixLenIgnoreCase, lowerCode_of_isDigit ((isDigit_iff d).2 hd)]
    rw [if_neg]
    omega

theorem infinityLen_digit {d : Char} (ds : List Char) (hd : isDigit d = true) :
    infinityLen (d :: ds) = none := by
  have h0 : commonPrefixLenIgnoreCase (d :: ds) "infinity".toList = 0 :=
    commonPrefixLen_digit ds _ hd (by decide)
  unfold infinityLen
  rw [h0]
  rfl

theorem float64Overflow_gt : maxUint64 < float64Overflow := by decide

/-- What `readFloat` finds in a digit string that `ParseUint` accepts: no
hexadecimal prefix, and a mantissa loop that reads to the end. -/
theorem scan_of_ParseUint {s : List Char} {un : Nat} (h : ParseUint s = some un) :
    (∃ d ds, s = d :: ds ∧ isDigit d = true) ∧
    hexPrefixed s = false ∧
    ∃ st, scanMantissa false s ⟨false, false, false, 0, 0, 0⟩ = (st, []) ∧
      st.sawdigits = true ∧ st.underscores = false ∧ st.sawdot = false ∧
      st.mant ≤ maxUint64 := by
  obtain ⟨d, ds, hds, hd, hloop⟩ := ParseUint_eq_some h
  have hun : un ≤ maxUint64 := parseUintLoop_le hloop (by decide)
  obtain ⟨st, e1, e2, e3, e4, e5⟩ :=
    scanMantissa_of_parseUintLoop ⟨false, false, false, 0, 0, 0⟩ hloop rfl (fun _ => rfl)
  refine ⟨⟨d, ds, hds, hd⟩, ?_, st, e1, ?_, e3, e4, by rw [e2]; exact hun⟩
  · subst hds
    rcases ds with _ | ⟨c1, _ | ⟨c2, ds⟩⟩
    · rfl
    · rfl
    · have hc1 : isDigit c1 = true := by
        simp only [parseUintLoop] at hloop
        by_contra hc1
        simp only [hc1] at hloop
        split at hloop
        · split at hloop
          · simp at hloop
          · split at hloop <;> simp at hloop
        · simp at hloop
      have h1 := lowerCode_of_isDigit hc1
      rw [isDigit_iff] at hc1
      have h2 : c1.toNat ≠ 120 := by omega
      simp [hexPrefixed, h1, h2]
  · rcases e5 with e5 | ⟨e5, _⟩
    · exact e5
    · rw [hds] at e5; simp at e5

/-- The digits `ParseUint` accepts, with or without a sign in front, are a
floating-point literal that `readFloat` reads to the end and that is in range. -/
theorem readFloat_of_ParseUint (c : Char) (cs : List Char) (un : Nat)
    (h : ParseUint (if c == '+' || c == '-' then cs else c :: cs) = some un) :
    special (c :: cs) = none ∧
      ∃ l, readFloat (c :: cs) = some (l, []) ∧ l.overflows = false := by
  have hov : ∀ (neg : Bool) (m : Nat) (nd : Nat), m ≤ maxUint64 →
      (FloatLit.mk false neg m (if m = 0 then 0 else (nd : Int) - nd)).overflows = false := by
    intro neg m nd hm
    have hlt := float64Overflow_gt
    simp only [FloatLit.overflows]
    split
    · rfl
    · simp
      omega
  by_cases hsign : c = '+' ∨ c = '-'
  · have hb : (c == '+' || c == '-') = true := by simpa using hsign
    rw [hb, if_pos rfl] at h
    obtain ⟨⟨d, ds, hds, hd⟩, hnothex, st, e1, hsd, e3, e4, hm⟩ := scan_of_ParseUint h
    refine ⟨by simp [special, hsign, hds, infinityLen_digit ds hd], ?_⟩
    refine ⟨_, ?_, hov (c == '-') st.mant st.nd hm⟩
    simp [readFloat, hsign, hnothex, e1, hsd, e3, e4]
  · have hb : (c == '+' || c == '-') = false := by simpa using hsign
    rw [hb] at h
    simp only [Bool.false_eq_true, if_false] at h
    obtain ⟨⟨d, ds, hds, hd⟩, hnothex, st, e1, hsd, e3, e4, hm⟩ := scan_of_ParseUint h
    injection hds with hc hcs
    subst hc hcs
    refine ⟨?_, ?_⟩
    · have h1 : c ≠ 'i' := ne_of_isDigit hd (by decide)
      have h2 : c ≠ 'I' := ne_of_isDigit hd (by decide)
      have h3 : c ≠ 'n' := ne_of_isDigit hd (by decide)
      have h4 : c ≠ 'N' := ne_of_isDigit hd (by decide)
      simp [special, hsign, h1, h2, h3, h4]
    · refine ⟨_, ?_, hov (c == '-') st.mant st.nd hm⟩
      simp [readFloat, hsign, hnothex, e1, hsd, e3, e4]

/-- Every string `ParseInt` parses is also parsed by `ParseFloat`. -/
theorem ParseFloat_of_ParseInt (s : String) (h : (ParseInt s).isSome = true) :
    (ParseFloat s).isSome = true := by
  obtain ⟨l⟩ := s
  simp only [ParseInt, String.toList] at h
  simp only [ParseFloat, String.toList]
  cases l with
  | nil => simp at h
  | cons c cs =>
    simp only at h
    cases hu : ParseUint (if c == '+' || c == '-' then cs else c :: cs) with
    | none => rw [hu] at h; simp at h
    | some un =>
      obtain ⟨hsp, l, hl, hov⟩ := readFloat_of_ParseUint c cs un hu
      simp [hsp, hl, hov]

/-! ## Properties of `ResolveType` -/

theorem ColumnType.le_def (a b : ColumnType) : a ≤ b ↔ a.toNat ≤ b.toNat := Iff.rfl

theorem ColumnType.le_refl (a : ColumnType) : a ≤ a := Nat.le_refl _

theorem ColumnType.le_trans {a b c : ColumnType} (h1 : a ≤ b) (h2 : b ≤ c) : a ≤ c :=
  Nat.le_trans h1 h2

theorem ColumnType.toNat_injective {a b : ColumnType} (h : a.toNat = b.toNat) : a = b := by
  cases a <;> cases b <;> simp [ColumnType.toNat] at h <;> rfl

theorem ColumnType.le_antisymm {a b : ColumnType} (h1 : a ≤ b) (h2 : b ≤ a) : a = b :=
  ColumnType.toNat_injective (Nat.le_antisymm h1 h2)

theorem ColumnType.le_string (a : ColumnType) : a ≤ ColumnString := by
  cases a <;> decide

theorem ColumnType.bool_le (a : ColumnType) : ColumnBool ≤ a := by
  cases a <;> decide

theorem resolveLoop_string (val : String) : resolveLoop ColumnString val = ColumnString := by
  rw [resolveLoop]

theorem resolveLoop_float (val : String) :
    resolveLoop ColumnFloat val =
      if (ParseFloat val).isSome then ColumnFloat else ColumnString := by
  rw [resolveLoop, resolveLoop_string]

theorem resolveLoop_int (val : String) :
    resolveLoop ColumnInt val =
      if (ParseInt val).isSome then ColumnInt
      else if (ParseFloat val).isSome then ColumnFloat else ColumnString := by
  rw [resolveLoop, resolveLoop_float]

theorem resolveLoop_bool (val : String) :
    resolveLoop ColumnBool val =
      if val = Lit.True ∨ val = Lit.False then ColumnBool
      else if (ParseInt val).isSome then ColumnInt
      else if (ParseFloat val).isSome then ColumnFloat else ColumnString := by
  rw [resolveLoop, resolveLoop_int]

/-- The loop stops at a type that accepts the value. -/
theorem accepts_resolveLoop (t : ColumnType) (val : String) :
    accepts (resolveLoop t val) val = true := by
  cases t
  · rw [resolveLoop_bool]; split_ifs <;> simp_all [accepts]
  · rw [resolveLoop_int]; split_ifs <;> simp_all [accepts]
  · rw [resolveLoop_float]; split_ifs <;> simp_all [accepts]
  · rw [resolveLoop_string]; rfl

/-- The loop never moves down the ladder. -/
theorem le_resolveLoop (t : ColumnType) (val : String) : t ≤ resolveLoop t val := by
  cases t
  · exact ColumnType.bool_le _
  · rw [resolveLoop_int]; split_ifs <;> decide
  · rw [resolveLoop_float]; split_ifs <;> decide
  · rw [resolveLoop_string]; decide

/-- The loop stops at the first type from `t` upwards that accepts the value. -/
theorem resolveLoop_le (t u : ColumnType) (val : String) (htu : t ≤ u)
    (hu : accepts u val = true) : resolveLoop t val ≤ u := by
  cases t <;> cases u <;>
    first
    | exact ColumnType.le_string _
    | exact absurd htu (by decide)
    | (simp only [resolveLoop_bool, resolveLoop_int, resolveLoop_float, resolveLoop_string]
       simp only [accepts, decide_eq_true_eq] at hu
       simp only [hu, if_true]
       try split_ifs
       all_goals decide)

theorem length_eq_zero_iff_empty (s : String) : s.length = 0 ↔ s = "" := by
  obtain ⟨l⟩ := s
  simp [String.length, String.ext_iff]

theorem ResolveType_typ (col : ColumnSelector) (val : String) :
    (col.ResolveType val).Typ = if val.length = 0 then col.Typ else resolveLoop col.Typ val := by
  unfold ColumnSelector.ResolveType
  split <;> rfl

theorem ResolveType_name (col : ColumnSelector) (val : String) :
    (col.ResolveType val).Name = col.Name ∧ (col.ResolveType val).As = col.As := by
  unfold ColumnSelector.ResolveType
  split <;> exact ⟨rfl, rfl⟩

theorem le_ResolveType (col : ColumnSelector) (val : String) :
    col.Typ ≤ (col.ResolveType val).Typ := by
  rw [ResolveType_typ]
  split
  · exact ColumnType.le_refl _
  · exact le_resolveLoop _ _

theorem resolveCells_append (col : ColumnSelector) (xs ys : List String) :
    resolveCells col (xs ++ ys) = resolveCells (resolveCells col xs) ys := by
  simp [resolveCells, List.foldl_append]

theorem resolveCells_cons (col : ColumnSelector) (x : String) (xs : List String) :
    resolveCells col (x :: xs) = resolveCells (col.ResolveType x) xs := rfl

theorem le_resolveCells (col : ColumnSelector) (cells : List String) :
    col.Typ ≤ (resolveCells col cells).Typ := by
  induction cells generalizing col with
  | nil => exact ColumnType.le_refl _
  | cons c cs ih =>
    rw [resolveCells_cons]
    exact ColumnType.le_trans (le_ResolveType col c) (ih _)

theorem resolveCells_name (col : ColumnSelector) (cells : List String) :
    (resolveCells col cells).Name = col.Name ∧ (resolveCells col cells).As = col.As := by
  induction cells generalizing col with
  | nil => exact ⟨rfl, rfl⟩
  | cons c cs ih =>
    rw [resolveCells_cons]
    exact ⟨(ih _).1.trans (ResolveType_name col c).1, (ih _).2.trans (ResolveType_name col c).2⟩

theorem minimalType_of_not_bool {val : String} (h0 : val.length ≠ 0)
    (hb : ¬ (val = Lit.True ∨ val = Lit.False)) :
    minimalType val = some (resolveLoop ColumnInt val) := by
  simp only [minimalType, h0, if_false, accepts, decide_eq_true_eq, hb, resolveLoop_int]
  split_ifs <;> rfl

/-- One call on a cell that is not a boolean literal, or on a column that is
still `ColumnBool`, takes the maximum of the current type and the type the
cell minimally requires. -/
theorem ResolveType_eq_max (col : ColumnSelector) (val : String)
    (h : ¬ (val = Lit.True ∨ val = Lit.False) ∨ col.Typ = ColumnBool) :
    (col.ResolveType val).Typ =
      (match minimalType val with
        | none => col.Typ
        | some r => col.Typ.max r) := by
  rw [ResolveType_typ]
  by_cases h0 : val.length = 0
  · simp [h0, minimalType]
  · rw [if_neg h0]
    by_cases hb : val = Lit.True ∨ val = Lit.False
    · have ht : col.Typ = ColumnBool := h.resolve_left (fun h => h hb)
      simp only [minimalType, h0, if_false, accepts, decide_eq_true_eq, hb, if_true, ht,
        resolveLoop_bool]
      rfl
    · rw [minimalType_of_not_bool h0 hb]
      have hIF := ParseFloat_of_ParseInt val
      cases ht : col.Typ
      · simp only [resolveLoop_bool, hb, if_false, resolveLoop_int]
        split_ifs <;> rfl
      · simp only [resolveLoop_int]
        split_ifs <;> rfl
      · simp only [resolveLoop_int, resolveLoop_float]
        split_ifs with h1 h2 h3
        · rfl
        · rfl
        · exact absurd (hIF h3) h1
        · rfl
      · simp only [resolveLoop_int, resolveLoop_string]
        split_ifs <;> rfl

theorem resolveCells_eq_foldl_of_no_bool (col : ColumnSelector) (cells : List String)
    (h : ∀ c ∈ cells, ¬ (c = Lit.True ∨ c = Lit.False)) :
    (resolveCells col cells).Typ =
      cells.foldl (fun t c => match minimalType c with
        | none => t
        | some r => t.max r) col.Typ := by
  induction cells generalizing col with
  | nil => rfl
  | cons c cs ih =>
    rw [resolveCells_cons, ih _ (fun x hx => h x (List.mem_cons_of_mem _ hx)),
      ResolveType_eq_max col c (Or.inl (h c (List.mem_cons_self _ _)))]
    rfl

theorem resolveCells_eq_foldl_of_all_bool (col : ColumnSelector) (cells : List String)
    (hcol : col.Typ = ColumnBool)
    (h : ∀ c ∈ cells, c.length = 0 ∨ c = Lit.True ∨ c = Lit.False) :
    (resolveCells col cells).Typ =
      cells.foldl (fun t c => match minimalType c with
        | none => t
        | some r => t.max r) col.Typ := by
  induction cells generalizing col with
  | nil => rfl
  | cons c cs ih =>
    have hstep := ResolveType_eq_max col c (Or.inr hcol)
    have hkeep : (col.ResolveType c).Typ = ColumnBool := by
      rw [ResolveType_typ]
      rcases h c (List.mem_cons_self _ _) with h0 | hb
      · rw [if_pos h0, hcol]
      · split
        · exact hcol
        · rw [hcol, resolveLoop_bool, if_pos hb]
    rw [resolveCells_cons, ih _ hkeep (fun x hx => h x (List.mem_cons_of_mem _ hx)), hstep]
    rfl

/-- Once the column has left `ColumnBool`, a boolean literal sends it to
`ColumnString`. -/
theorem resolveLoop_bool_literal (t : ColumnType) (val : String) (ht : ColumnInt ≤ t)
    (hb : val = Lit.True ∨ val = Lit.False) : resolveLoop t val = ColumnString := by
  have h1 : ParseInt Lit.True = none := by decide
  have h2 : ParseInt Lit.False = none := by decide
  have h3 : ParseFloat Lit.True = none := by decide
  have h4 : ParseFloat Lit.False = none := by decide
  cases t
  · exact absurd ht (by decide)
  · rcases hb with rfl | rfl <;> simp [resolveLoop_int, h1, h2, h3, h4]
  · rcases hb with rfl | rfl <;> simp [resolveLoop_float, h3, h4]
  · exact resolveLoop_string _

/-- A cell that is neither empty nor a boolean literal takes the column out of
`ColumnBool`. -/
theorem int_le_ResolveType (col : ColumnSelector) (val : String) (h0 : val.length ≠ 0)
    (hb : ¬ (val = Lit.True ∨ val = Lit.False)) : ColumnInt ≤ (col.ResolveType val).Typ := by
  rw [ResolveType_typ, if_neg h0]
  cases ht : col.Typ
  · rw [resolveLoop_bool, if_neg hb, ← resolveLoop_int]
    exact le_resolveLoop _ _
  · exact le_resolveLoop _ _
  · exact ColumnType.le_trans (by decide) (le_resolveLoop _ _)
  · exact ColumnType.le_trans (by decide) (le_resolveLoop _ _)

theorem resolveCells_bool_after_other (col : ColumnSelector)
    (pre mid post : List String) (x b : String)
    (hx0 : x.length ≠ 0) (hx : ¬ (x = Lit.True ∨ x = Lit.False))
    (hb : b = Lit.True ∨ b = Lit.False) :
    (resolveCells col (pre ++ x :: (mid ++ b :: post))).Typ = ColumnString := by
  rw [resolveCells_append, resolveCells_cons, resolveCells_append, resolveCells_cons]
  apply ColumnType.le_antisymm (ColumnType.le_string _)
  refine ColumnType.le_trans ?_ (le_resolveCells _ post)
  have h1 := int_le_ResolveType (resolveCells col pre) x hx0 hx
  have h2 := ColumnType.le_trans h1 (le_resolveCells _ mid)
  have hb0 : b.length ≠ 0 := by rcases hb with rfl | rfl <;> decide
  rw [ResolveType_typ, if_neg hb0, resolveLoop_bool_literal _ _ h2 hb]
  exact ColumnType.le_refl _

/-- A cell that only `ColumnString` accepts sends every column type to
`ColumnString`. -/
theorem resolveLoop_of_minimalType_string (t : ColumnType) (val : String)
    (h : minimalType val = some ColumnString) :
    val.length ≠ 0 ∧ resolveLoop t val = ColumnString := by
  have h0 : val.length ≠ 0 := by
    intro h0
    simp [minimalType, h0] at h
  simp only [minimalType, h0, if_false] at h
  split_ifs at h with h1 h2 h3
  · exact absurd h (by simp)
  · exact absurd h (by simp)
  · exact absurd h (by simp)
  · simp only [accepts, decide_eq_true_eq] at h1 h2 h3
    refine ⟨h0, ?_⟩
    cases t
    · simp [resolveLoop_bool, resolveLoop_int, resolveLoop_float, resolveLoop_string, h1, h2, h3]
    · simp [resolveLoop_int, resolveLoop_float, resolveLoop_string, h2, h3]
    · simp [resolveLoop_float, resolveLoop_string, h3]
    · exact resolveLoop_string _

/-- The maximum over the ladder does not go below the type it starts from. -/
theorem le_foldl_max (cells : List String) (t : ColumnType) :
    t ≤ cells.foldl (fun t c => match minimalType c with
      | none => t
      | some r => t.max r) t := by
  induction cells generalizing t with
  | nil => exact ColumnType.le_refl _
  | cons c cs ih =>
    refine ColumnType.le_trans ?_ (ih _)
    show t ≤ (match minimalType c with
      | none => t
      | some r => t.max r)
    cases minimalType c with
    | none => exact ColumnType.le_refl _
    | some r =>
      show t ≤ ColumnType.max t r
      unfold ColumnType.max
      split_ifs with hle
      · exact hle
      · exact ColumnType.le_refl _

/-- With a cell that only `ColumnString` accepts, the calls end at
`ColumnString`, which is also the maximum of the required types, in whatever
order the cells come. -/
theorem resolveCells_of_string_cell (col : ColumnSelector) (cells : List String)
    (h : ∃ c ∈ cells, minimalType c = some ColumnString) :
    (resolveCells col cells).Typ = ColumnString ∧ maxRequired cells = ColumnString := by
  obtain ⟨c, hc, hm⟩ := h
  obtain ⟨pre, post, rfl⟩ := List.append_of_mem hc
  constructor
  · rw [resolveCells_append, resolveCells_cons]
    apply ColumnType.le_antisymm (ColumnType.le_string _)
    refine ColumnType.le_trans ?_ (le_resolveCells _ post)
    obtain ⟨h0, hl⟩ := resolveLoop_of_minimalType_string (resolveCells col pre).Typ c hm
    rw [ResolveType_typ, if_neg h0, hl]
    exact ColumnType.le_refl _
  · unfold maxRequired
    rw [List.foldl_append, List.foldl_cons]
    apply ColumnType.le_antisymm (ColumnType.le_string _)
    refine ColumnType.le_trans ?_ (le_foldl_max post _)
    simp only [hm, ColumnType.max, ColumnType.le_string, if_true]

/-! ### The claims about `ResolveType` -/

/-- C1 (counterexample): for the cells "1", "true" the calls end at
`ColumnString`, while the maximum of the types the cells minimally require
(`ColumnInt` for "1", `ColumnBool` for "true") is `ColumnInt`. -/
theorem resolveCells_ne_maxRequired :
    (resolveCells (freshSelector ⟨"", "0"⟩ "") ["1", "true"]).Typ = ColumnString ∧
      maxRequired ["1", "true"] = ColumnInt ∧
      (resolveCells (freshSelector ⟨"", "0"⟩ "") ["1", "true"]).Typ ≠
        maxRequired ["1", "true"] := by
  have h : (resolveCells (freshSelector ⟨"", "0"⟩ "") ["1", "true"]).Typ = ColumnString :=
    resolveCells_bool_after_other _ [] [] [] "1" "true" (by decide) (by decide) (by decide)
  have h2 : maxRequired ["1", "true"] = ColumnInt := by decide
  refine ⟨h, h2, ?_⟩
  rw [h, h2]
  decide

/-- C1 (amended): starting from `ColumnBool`, one `ResolveType` call per cell
ends at the maximum over the ladder of the types the cells minimally require
whenever the cells do not mix boolean literals with other non-empty cells
(all non-empty cells are "true"/"false", or none is), and also whenever some
cell minimally requires `ColumnString`, in whatever order the cells come; and
whenever a "true"/"false" cell comes after a non-empty cell that is not a
boolean literal, the calls end at `ColumnString`. -/
theorem resolveCells_eq_maxRequired (name : Reference) (as : String) (cells : List String) :
    (((∀ c ∈ cells, c = "" ∨ c = "true" ∨ c = "false") ∨
        (∀ c ∈ cells, c ≠ "true" ∧ c ≠ "false") ∨
        (∃ c ∈ cells, minimalType c = some ColumnString)) →
      (resolveCells (freshSelector name as) cells).Typ = maxRequired cells) ∧
    (∀ (pre mid post : List String) (x b : String),
      cells = pre ++ x :: (mid ++ b :: post) →
      x ≠ "" → x ≠ "true" → x ≠ "false" → (b = "true" ∨ b = "false") →
      (resolveCells (freshSelector name as) cells).Typ = ColumnString) := by
  constructor
  · rintro (h | h | h)
    · exact resolveCells_eq_foldl_of_all_bool _ cells rfl (fun c hc => by
        rcases h c hc with h0 | h1
        · exact Or.inl ((length_eq_zero_iff_empty c).2 h0)
        · exact Or.inr h1)
    · exact resolveCells_eq_foldl_of_no_bool _ cells (fun c hc hb => by
        rcases hb with hb | hb
        · exact (h c hc).1 hb
        · exact (h c hc).2 hb)
    · obtain ⟨h1, h2⟩ := resolveCells_of_string_cell (freshSelector name as) cells h
      rw [h1, h2]
  · intro pre mid post x b hcells hx0 hx1 hx2 hb
    rw [hcells]
    exact resolveCells_bool_after_other _ pre mid post x b
      (fun h => hx0 ((length_eq_zero_iff_empty x).1 h))
      (fun h => h.elim hx1 hx2) hb

/-- C1 (witness): the cells "", "2", "1.5", which hold no boolean literal, end
at `ColumnFloat`, the maximum of the required types; the cells "true", "x" and
the cells "x", "true", with the cell "x" that requires `ColumnString`, end at
`ColumnString`, the maximum of the required types; the cells "1.5", "", "true"
end at `ColumnString`. -/
theorem resolveCells_eq_maxRequired_witness :
    (resolveCells (freshSelector ⟨"", "0"⟩ "Share") ["", "2", "1.5"]).Typ =
        maxRequired ["", "2", "1.5"] ∧
      maxRequired ["", "2", "1.5"] = ColumnFloat ∧
      (resolveCells (freshSelector ⟨"", "0"⟩ "Share") ["true", "x"]).Typ =
        maxRequired ["true", "x"] ∧
      maxRequired ["true", "x"] = ColumnString ∧
      (resolveCells (freshSelector ⟨"", "0"⟩ "Share") ["x", "true"]).Typ =
        maxRequired ["x", "true"] ∧
      (resolveCells (freshSelector ⟨"", "0"⟩ "Share") ["1.5", "", "true"]).Typ = ColumnString :=
  ⟨(resolveCells_eq_maxRequired ⟨"", "0"⟩ "Share" ["", "2", "1.5"]).1
      (Or.inr (Or.inl (by decide))),
    by decide,
    (resolveCells_eq_maxRequired ⟨"", "0"⟩ "Share" ["true", "x"]).1
      (Or.inr (Or.inr ⟨"x", by decide, by decide⟩)),
    by decide,
    (resolveCells_eq_maxRequired ⟨"", "0"⟩ "Share" ["x", "true"]).1
      (Or.inr (Or.inr ⟨"x", by decide, by decide⟩)),
    (resolveCells_eq_maxRequired ⟨"", "0"⟩ "Share" ["1.5", "", "true"]).2
      [] [""] [] "1.5" "true" rfl (by decide) (by decide) (by decide) (Or.inl rfl)⟩

/-- C2 (the failing input): for the cells "true", "1" the calls end at
`ColumnInt`, a type that does not accept the cell "true"; the lowest type that
accepts both cells is `ColumnString`. -/
theorem resolveCells_true_then_int :
    (resolveCells (freshSelector ⟨"", "0"⟩ "") ["true", "1"]).Typ = ColumnInt ∧
      accepts ColumnInt "true" = false ∧
      (∀ t : ColumnType, (accepts t "true" = true ∧ accepts t "1" = true) ↔ t = ColumnString) := by
  refine ⟨?_, by decide, ?_⟩
  · simp +decide [resolveCells, freshSelector, ColumnSelector.ResolveType, resolveLoop_bool]
  · intro t
    cases t <;> decide

/-- C3: a single call leaves the selector unchanged for an empty sample;
for a non-empty sample the new type accepts the sample, is not below the
current type, and is the lowest such type on the ladder; a `ColumnString`
column is never changed.  Here `ColumnBool` accepts exactly "true" and "false",
`ColumnInt` exactly what `ParseInt` parses, `ColumnFloat` exactly what
`ParseFloat` parses and `ColumnString` every string. -/
theorem ResolveType_single_call (col : ColumnSelector) (val : String) :
    (val = "" → col.ResolveType val = col) ∧
    (val ≠ "" →
      accepts (col.ResolveType val).Typ val = true ∧
      col.Typ ≤ (col.ResolveType val).Typ ∧
      ∀ t : ColumnType, col.Typ ≤ t → accepts t val = true → (col.ResolveType val).Typ ≤ t) ∧
    (col.Typ = ColumnString → col.ResolveType val = col) ∧
    (accepts ColumnBool val = true ↔ (val = "true" ∨ val = "false")) ∧
    (accepts ColumnInt val = true ↔ ∃ i, ParseInt val = some i) ∧
    (accepts ColumnFloat val = true ↔ ∃ f, ParseFloat val = some f) ∧
    accepts ColumnString val = true := by
  refine ⟨?_, ?_, ?_, ?_, ?_, ?_, rfl⟩
  · intro h
    simp [ColumnSelector.ResolveType, h]
  · intro h
    have h0 : ¬ val.length = 0 := fun h0 => h ((length_eq_zero_iff_empty val).1 h0)
    rw [ResolveType_typ, if_neg h0]
    exact ⟨accepts_resolveLoop _ _, le_resolveLoop _ _, fun t ht ha => resolveLoop_le _ t val ht ha⟩
  · intro h
    unfold ColumnSelector.ResolveType
    split
    · rfl
    · rw [h, resolveLoop_string, ← h]
  · simp [accepts, Lit.True, Lit.False]
  · simp [accepts, Option.isSome_iff_exists]
  · simp [accepts, Option.isSome_iff_exists]

/-- C4: `ResolveType` never moves the type down the ladder
`ColumnBool < ColumnInt < ColumnFloat < ColumnString`, neither in one call nor
over a sequence of calls (the type after more calls is at least the type after
fewer), and it leaves `Name` and `As` unchanged. -/
theorem ResolveType_monotone (col : ColumnSelector) (val : String) (cells more : List String) :
    col.Typ ≤ (col.ResolveType val).Typ ∧
    (col.ResolveType val).Name = col.Name ∧ (col.ResolveType val).As = col.As ∧
    (resolveCells col cells).Typ ≤ (resolveCells col (cells ++ more)).Typ ∧
    (resolveCells col cells).Name = col.Name ∧ (resolveCells col cells).As = col.As ∧
    ColumnBool < ColumnInt ∧ ColumnInt < ColumnFloat ∧ ColumnFloat < ColumnString := by
  refine ⟨le_ResolveType col val, (ResolveType_name col val).1, (ResolveType_name col val).2,
    ?_, (resolveCells_name col cells).1, (resolveCells_name col cells).2,
    by decide, by decide, by decide⟩
  rw [resolveCells_append]
  exact le_resolveCells _ more

/-! ## Properties of the HTML adapter -/

/-- The column loop succeeds and appends one cell for each selector still to
visit, and it keeps the length of the selector slice. -/
theorem processRow_ok {Input Node : Type} (g : Goquery Input Node) (s : Node)
    (todo : List ColumnSelector) (i : Nat) (row : Row) (columns : List ColumnSelector)
    (hrow : row.length = i) (hcols : i + todo.length = columns.length) :
    ∃ row' columns', processRow g s i todo row columns = .ok (row', columns') ∧
      row'.length = columns.length ∧ columns'.length = columns.length := by
  induction todo generalizing i row columns with
  | nil => exact ⟨row, columns, rfl, by simpa [hrow] using hcols, rfl⟩
  | cons col todo ih =>
    have hi : i < columns.length := by simp at hcols; omega
    have h1 : (row ++ [htmlCell g (g.Find s col.Name.Column)])[i]? =
        some (htmlCell g (g.Find s col.Name.Column)) := by
      rw [List.getElem?_append_right (by omega)]
      simp [hrow]
    have h2 : columns[i]? = some (columns[i]) := List.getElem?_eq_getElem hi
    simp only [processRow, h1, h2]
    obtain ⟨row', columns', e, hr, hc⟩ := ih (i + 1)
      (row ++ [htmlCell g (g.Find s col.Name.Column)])
      (columns.set i ((columns[i]).ResolveString (htmlCell g (g.Find s col.Name.Column)).String))
      (by simp [hrow]) (by simp at hcols ⊢; omega)
    exact ⟨row', columns', e, by simpa using hr, by simpa using hc⟩

/-- The row loop succeeds, appends rows as long as the selector slice, and
keeps the length of the slice. -/
theorem processRows_ok {Input Node : Type} (g : Goquery Input Node) (nodes : List Node)
    (rows : List Row) (columns : List ColumnSelector)
    (hrows : ∀ row ∈ rows, row.length = columns.length) :
    ∃ rows' columns', processRows g nodes rows columns = .ok (rows', columns') ∧
      columns'.length = columns.length ∧ ∀ row ∈ rows', row.length = columns.length := by
  induction nodes generalizing rows columns with
  | nil => exact ⟨rows, columns, rfl, rfl, hrows⟩
  | cons s rest ih =>
    obtain ⟨row, columns1, e, hr, hc⟩ := processRow_ok g s columns 0 [] columns rfl (by simp)
    simp only [processRows, e]
    obtain ⟨rows', columns', e', hc', hr'⟩ := ih (rows ++ [row]) columns1 (by
      intro x hx
      rw [hc]
      rcases List.mem_append.1 hx with hx | hx
      · exact hrows x hx
      · rw [List.mem_singleton.1 hx]; exact hr)
    exact ⟨rows', columns', e', hc'.trans hc, fun x hx => (hr' x hx).trans hc⟩

theorem newHTMLLoop_ok {Input Node : Type} (g : Goquery Input Node) (filter : String)
    (input : List Input) (rows : List Row) (columns : List ColumnSelector)
    (hrows : ∀ row ∈ rows, row.length = columns.length) :
    (∀ rows' columns', newHTMLLoop g filter input rows columns = .ok (rows', columns') →
      columns'.length = columns.length ∧ ∀ row ∈ rows', row.length = columns.length) ∧
    ((∀ i ∈ input, ∃ doc, g.NewDocumentFromReader i = .ok doc) →
      ∃ rows' columns', newHTMLLoop g filter input rows columns = .ok (rows', columns')) := by
  induction input generalizing rows columns with
  | nil =>
    refine ⟨?_, fun _ => ⟨rows, columns, rfl⟩⟩
    intro rows' columns' h
    simp only [newHTMLLoop, Except.ok.injEq, Prod.mk.injEq] at h
    obtain ⟨rfl, rfl⟩ := h
    exact ⟨rfl, hrows⟩
  | cons i rest ih =>
    cases hdoc : g.NewDocumentFromReader i with
    | error e =>
      refine ⟨?_, ?_⟩
      · intro rows' columns' h
        simp [newHTMLLoop, processHTML, hdoc] at h
      · intro hall
        obtain ⟨doc, hd⟩ := hall i (List.mem_cons_self _ _)
        rw [hdoc] at hd
        cases hd
    | ok doc =>
      obtain ⟨rows1, columns1, e, hc, hr⟩ := processRows_ok g (g.Find doc filter) rows columns hrows
      have hstep : newHTMLLoop g filter (i :: rest) rows columns =
          newHTMLLoop g filter rest rows1 columns1 := by
        simp [newHTMLLoop, processHTML, hdoc, e]
      rw [hstep]
      obtain ⟨ih1, ih2⟩ := ih rows1 columns1 (fun x hx => (hr x hx).trans hc.symm)
      refine ⟨?_, fun hall => ih2 (fun j hj => hall j (List.mem_cons_of_mem _ hj))⟩
      intro rows' columns' h
      obtain ⟨h1, h2⟩ := ih1 rows' columns' h
      exact ⟨h1.trans hc, fun x hx => (h2 x hx).trans hc⟩

/-- C5: every row that `Get` returns for a source built by `NewHTML` has as
many columns as `Columns()` has selectors, whatever the selectors match; and
`NewHTML` does build a source, with as many selectors as it was given, whenever
the selector list is non-empty and every input parses. -/
theorem NewHTML_row_length {Input Node : Type} (g : Goquery Input Node) (input : List Input)
    (filter : String) (columns : List ColumnSelector) :
    (∀ src, NewHTML g input filter columns = .ok src →
      columns ≠ [] ∧ src.Columns.length = columns.length ∧
      ∀ rows, src.Get = .ok rows → ∀ row ∈ rows, row.length = src.Columns.length) ∧
    (columns ≠ [] → (∀ i ∈ input, ∃ doc, g.NewDocumentFromReader i = .ok doc) →
      ∃ src, NewHTML g input filter columns = .ok src) := by
  obtain ⟨h1, h2⟩ := newHTMLLoop_ok g filter input [] columns (by simp)
  constructor
  · intro src h
    unfold NewHTML at h
    split at h
    · cases h
    · next hne =>
      split at h
      · cases h
      · next rows' columns' e =>
        obtain ⟨hc, hr⟩ := h1 rows' columns' e
        simp only [Except.ok.injEq] at h
        subst h
        refine ⟨fun h0 => hne (by simp [h0]), hc, ?_⟩
        intro rows hget row hrow
        simp only [HTML.Get, Except.ok.injEq] at hget
        subst hget
        exact (hr row hrow).trans hc.symm
  · intro hne hall
    obtain ⟨rows', columns', e⟩ := h2 hall
    refine ⟨⟨columns', rows'⟩, ?_⟩
    have : columns.length ≠ 0 := fun h0 => hne (List.length_eq_zero.1 h0)
    simp [NewHTML, this, e]

/-- C5 (an instance): on the sample document two rows are built, one with a
selector that matches nothing and one with a selector that matches two nodes,
and both rows have the two columns of the source. -/
theorem NewHTML_row_length_sample :
    NewHTML sampleGoquery [()] "tr"
        [⟨⟨"", "td.a"⟩, "A", ColumnBool⟩, ⟨⟨"", "td.b"⟩, "B", ColumnBool⟩] =
      .ok ⟨[⟨⟨"", "td.a"⟩, "A", ColumnInt⟩, ⟨⟨"", "td.b"⟩, "B", ColumnString⟩],
        [[.StringColumn "1970", .StringColumn ""],
          [.StringColumn "1971", .StringsColumn ["x", "y"]]]⟩ ∧
    ∀ row ∈ [[Column.StringColumn "1970", .StringColumn ""],
        [.StringColumn "1971", .StringsColumn ["x", "y"]]], row.length = 2 := by
  have h := (NewHTML_row_length sampleGoquery [()] "tr"
    [⟨⟨"", "td.a"⟩, "A", ColumnBool⟩, ⟨⟨"", "td.b"⟩, "B", ColumnBool⟩]).1
  have e : NewHTML sampleGoquery [()] "tr"
        [⟨⟨"", "td.a"⟩, "A", ColumnBool⟩, ⟨⟨"", "td.b"⟩, "B", ColumnBool⟩] =
      .ok ⟨[⟨⟨"", "td.a"⟩, "A", ColumnInt⟩, ⟨⟨"", "td.b"⟩, "B", ColumnString⟩],
        [[.StringColumn "1970", .StringColumn ""],
          [.StringColumn "1971", .StringsColumn ["x", "y"]]]⟩ := by
    simp +decide [NewHTML, newHTMLLoop, processHTML, processRows, processRow, sampleGoquery,
      htmlCell, ColumnSelector.ResolveString, ColumnSelector.ResolveType, resolveLoop_bool,
      resolveLoop_int, Lit.True, Lit.False, Goquery.selText, Column.String, TrimSpace]
  exact ⟨e, (h _ e).2.2 _ rfl⟩

/-! ## Properties of the aggregate built-ins -/

theorem wrapInt64_add_left (a b : Int) : wrapInt64 (wrapInt64 a + b) = wrapInt64 (a + b) := by
  unfold wrapInt64
  omega

theorem wrapInt64_of_inRange {x : Int} (h1 : -2 ^ 63 ≤ x) (h2 : x < 2 ^ 63) :
    wrapInt64 x = x := by
  unfold wrapInt64
  omega

theorem wrapInt64_inRange (x : Int) : -2 ^ 63 ≤ wrapInt64 x ∧ wrapInt64 x < 2 ^ 63 := by
  unfold wrapInt64
  omega

theorem wrapInt64_mod (x : Int) : (wrapInt64 x - x) % 2 ^ 64 = 0 := by
  unfold wrapInt64
  omega

/-- Adding up with a wrap-around after every addition gives the wrapped sum. -/
theorem foldl_wrapInt64 (l : List Int) (a : Int) :
    l.foldl (fun s x => wrapInt64 (s + x)) (wrapInt64 a) = wrapInt64 (a + l.sum) := by
  induction l generalizing a with
  | nil => simp
  | cons x xs ih =>
    simp only [List.foldl_cons, List.sum_cons]
    rw [wrapInt64_add_left, ih]
    congr 1
    omega

theorem foldl_wrapInt64_zero (l : List Int) :
    l.foldl (fun s x => wrapInt64 (s + x)) 0 = wrapInt64 l.sum := by
  have h := foldl_wrapInt64 l 0
  rw [wrapInt64_of_inRange (by norm_num) (by norm_num)] at h
  simpa using h

theorem numericGroup_of_intGroup {ρ : Type} {eval : ρ → Except Error Value} {rows : List ρ}
    (h : intGroup eval rows) : numericGroup eval rows := fun r hr =>
  (h r hr).imp id Or.inl

theorem intValues_cons {ρ : Type} (eval : ρ → Except Error Value) (r : ρ) (rs : List ρ) :
    intValues eval (r :: rs) =
      match eval r with
      | .ok (.IntValue i) => i :: intValues eval rs
      | _ => intValues eval rs := by
  cases h : eval r with
  | error e => simp [intValues, h]
  | ok v => cases v <;> simp [intValues, h]

theorem floatValues_cons {ρ : Type} (eval : ρ → Except Error Value) (r : ρ) (rs : List ρ) :
    floatValues eval (r :: rs) =
      match eval r with
      | .ok (.FloatValue f) => f :: floatValues eval rs
      | _ => floatValues eval rs := by
  cases h : eval r with
  | error e => simp [floatValues, h]
  | ok v => cases v <;> simp [floatValues, h]

theorem nonNullRows_cons {ρ : Type} (eval : ρ → Except Error Value) (r : ρ) (rs : List ρ) :
    nonNullRows eval (r :: rs) =
      match eval r with
      | .ok .NullValue => nonNullRows eval rs
      | _ => r :: nonNullRows eval rs := by
  cases h : eval r with
  | error e => simp [nonNullRows, h]
  | ok v => cases v <;> simp [nonNullRows, h]

theorem floatValues_of_intGroup {ρ : Type} {eval : ρ → Except Error Value} {rows : List ρ}
    (h : intGroup eval rows) : floatValues eval rows = [] := by
  induction rows with
  | nil => rfl
  | cons r rs ih =>
    have ih := ih (fun x hx => h x (List.mem_cons_of_mem _ hx))
    rcases h r (List.mem_cons_self _ _) with hr | ⟨i, hr⟩ <;>
      simp [floatValues_cons, hr, ih]

theorem nonNullRows_length_of_numericGroup {ρ : Type} {eval : ρ → Except Error Value}
    {rows : List ρ} (h : numericGroup eval rows) :
    (nonNullRows eval rows).length =
      (intValues eval rows).length + (floatValues eval rows).length := by
  induction rows with
  | nil => rfl
  | cons r rs ih =>
    have ih := ih (fun x hx => h x (List.mem_cons_of_mem _ hx))
    rcases h r (List.mem_cons_self _ _) with hr | ⟨i, hr⟩ | ⟨f, hr⟩ <;>
      simp [nonNullRows_cons, intValues_cons, floatValues_cons, hr, ih] <;> omega

theorem nonNullRows_length_of_intGroup {ρ : Type} {eval : ρ → Except Error Value}
    {rows : List ρ} (h : intGroup eval rows) :
    (nonNullRows eval rows).length = (intValues eval rows).length := by
  rw [nonNullRows_length_of_numericGroup (numericGroup_of_intGroup h),
    floatValues_of_intGroup h]
  rfl

/-- The state `builtInAvg` reaches on a numeric group. -/
theorem avgLoop_numeric {ρ : Type} (eval : ρ → Except Error Value) (rows : List ρ)
    (st : AvgState) (h : numericGroup eval rows) :
    ∃ st', avgLoop eval rows st = .ok st' ∧
      st'.seenInt = (st.seenInt || !(intValues eval rows).isEmpty) ∧
      st'.seenFloat = (st.seenFloat || !(floatValues eval rows).isEmpty) ∧
      st'.intSum = (intValues eval rows).foldl (fun s x => wrapInt64 (s + x)) st.intSum ∧
      st'.count = st.count + (intValues eval rows).length + (floatValues eval rows).length := by
  induction rows generalizing st with
  | nil => exact ⟨st, rfl, by simp [intValues], by simp [floatValues], rfl, rfl⟩
  | cons r rs ih =>
    have hrs : numericGroup eval rs := fun x hx => h x (List.mem_cons_of_mem _ hx)
    rcases h r (List.mem_cons_self _ _) with hr | ⟨i, hr⟩ | ⟨f, hr⟩
    · obtain ⟨st', e, h1, h2, h3, h4⟩ := ih st hrs
      exact ⟨st', by simp [avgLoop, hr, e],
        by simp [intValues_cons, hr, h1],
        by simp [floatValues_cons, hr, h2],
        by simp [intValues_cons, hr, h3],
        by simp [intValues_cons, floatValues_cons, hr, h4]⟩
    · obtain ⟨st', e, h1, h2, h3, h4⟩ := ih { st with
        seenInt := true, intSum := wrapInt64 (st.intSum + i), count := st.count + 1 } hrs
      exact ⟨st', by simp [avgLoop, hr, e],
        by simp [intValues_cons, hr, h1],
        by simp [floatValues_cons, hr, h2],
        by simp [intValues_cons, hr, h3],
        by simp [intValues_cons, floatValues_cons, hr, h4]; omega⟩
    · obtain ⟨st', e, h1, h2, h3, h4⟩ := ih { st with
        seenFloat := true, floatSum := st.floatSum + f, count := st.count + 1 } hrs
      exact ⟨st', by simp [avgLoop, hr, e],
        by simp [intValues_cons, hr, h1],
        by simp [floatValues_cons, hr, h2],
        by simp [intValues_cons, hr, h3],
        by simp [intValues_cons, floatValues_cons, hr, h4]; omega⟩

/-- C6: on a row group on which the argument evaluates to `Null`, `Int` or
`Float` values only, `AVG` returns a value, and the value is `Null` if and only
if the group has no non-null value or both an `Int` and a `Float` occur among
its values; a value that is not `Null` is an `Int` or a `Float`. -/
theorem builtInAvg_null_iff {ρ : Type} (eval : ρ → Except Error Value) (rows : List ρ)
    (h : ∀ r ∈ rows, eval r = .ok .NullValue ∨ (∃ i, eval r = .ok (.IntValue i)) ∨
      ∃ f, eval r = .ok (.FloatValue f)) :
    ∃ v, builtInAvg eval rows = .ok v ∧
      (v = .NullValue ↔
        (nonNullRows eval rows = [] ∨
          (intValues eval rows ≠ [] ∧ floatValues eval rows ≠ []))) ∧
      (v ≠ .NullValue → (∃ i, v = .IntValue i) ∨ ∃ f, v = .FloatValue f) := by
  obtain ⟨st, e, h1, h2, _, h4⟩ := avgLoop_numeric eval rows ⟨false, false, 0, 0, 0⟩ h
  have hlen := nonNullRows_length_of_numericGroup h
  simp only [Bool.false_or, Nat.zero_add] at h1 h2 h4
  unfold builtInAvg
  rw [e]
  simp only
  cases hi : intValues eval rows with
  | nil =>
    cases hf : floatValues eval rows with
    | nil =>
      have hc : st.count = 0 := by simp [h4, hi, hf]
      refine ⟨.NullValue, by simp [hc], ?_, by simp⟩
      simp only [true_iff]
      left
      apply List.eq_nil_of_length_eq_zero
      simp [hlen, hi, hf]
    | cons f fs =>
      have hc : st.count ≠ 0 := by simp [h4, hi, hf]
      have hs : st.lenSeen = 1 := by simp [AvgState.lenSeen, h1, h2, hi, hf]
      have hsf : st.seenFloat = true := by simp [h2, hf]
      refine ⟨_, by simp [hc, hs, hsf]; rfl, ?_, fun _ => Or.inr ⟨_, rfl⟩⟩
      simp only [false_iff, reduceCtorEq]
      rintro (hn | ⟨hn, _⟩)
      · rw [hn, hi, hf] at hlen
        simp at hlen
      · exact hn rfl
  | cons i is =>
    cases hf : floatValues eval rows with
    | nil =>
      have hc : st.count ≠ 0 := by simp [h4, hi, hf]
      have hs : st.lenSeen = 1 := by simp [AvgState.lenSeen, h1, h2, hi, hf]
      have hsf : st.seenFloat = false := by simp [h2, hf]
      refine ⟨_, by simp [hc, hs, hsf]; rfl, ?_, fun _ => Or.inl ⟨_, rfl⟩⟩
      simp only [false_iff, reduceCtorEq]
      rintro (hn | ⟨_, hn⟩)
      · rw [hn, hi, hf] at hlen
        simp at hlen
      · exact hn rfl
    | cons f fs =>
      have hs : st.lenSeen ≠ 1 := by simp [AvgState.lenSeen, h1, h2, hi, hf]
      refine ⟨.NullValue, by simp [hs], ?_, by simp⟩
      simp

/-- C6 (witness): `AVG` over the years 1970..1974, all `Int`, is not `Null`. -/
theorem builtInAvg_null_iff_witness :
    ∃ v, builtInAvg evalYear yearRows = .ok v ∧
      (v = .NullValue ↔
        (nonNullRows evalYear yearRows = [] ∨
          (intValues evalYear yearRows ≠ [] ∧ floatValues evalYear yearRows ≠ []))) ∧
      (v ≠ .NullValue → (∃ i, v = .IntValue i) ∨ ∃ f, v = .FloatValue f) :=
  builtInAvg_null_iff evalYear yearRows (fun r _ => Or.inr (Or.inl ⟨r, rfl⟩))

/-- C7: on a row group whose non-null argument values are all `Int` and number
at least one, `AVG` returns the `Int` that is the `int64` sum of the values
divided by their number, the quotient truncated toward zero; rows with a
`Null` value count neither in the sum nor in the divisor. -/
theorem builtInAvg_int {ρ : Type} (eval : ρ → Except Error Value) (rows : List ρ)
    (h : ∀ r ∈ rows, eval r = .ok .NullValue ∨ ∃ i, eval r = .ok (.IntValue i))
    (hne : intValues eval rows ≠ []) :
    builtInAvg eval rows =
        .ok (.IntValue (Int.tdiv (wrapInt64 (intValues eval rows).sum)
          ((intValues eval rows).length : Int))) ∧
      (nonNullRows eval rows).length = (intValues eval rows).length := by
  obtain ⟨st, e, h1, h2, h3, h4⟩ :=
    avgLoop_numeric eval rows ⟨false, false, 0, 0, 0⟩ (numericGroup_of_intGroup h)
  refine ⟨?_, nonNullRows_length_of_intGroup h⟩
  rw [floatValues_of_intGroup h] at h2 h4
  rw [foldl_wrapInt64_zero] at h3
  simp only [Bool.false_or, Nat.zero_add, List.isEmpty_nil, Bool.not_true, List.length_nil,
    Nat.add_zero] at h1 h2 h4
  have hpos : (intValues eval rows).length ≠ 0 := fun h0 => hne (List.length_eq_zero.1 h0)
  have hsi : st.seenInt = true := by
    rw [h1]
    cases hi : intValues eval rows with
    | nil => exact absurd hi hne
    | cons _ _ => rfl
  unfold builtInAvg
  rw [e]
  simp [AvgState.lenSeen, hsi, h2, h3, h4, hpos]

/-- C7 (witness): `AVG` over the years 1970..1974 is 1972; over the values
-7 and 0, with a `Null` row between them, it is -3, the quotient -7/2 truncated
toward zero. -/
theorem builtInAvg_int_witness :
    builtInAvg evalYear yearRows = .ok (.IntValue 1972) ∧
      builtInAvg (fun v : Value => Except.ok v) [.IntValue (-7), .NullValue, .IntValue 0] =
        .ok (.IntValue (-3)) := by
  have h1 := (builtInAvg_int evalYear yearRows (fun r _ => Or.inr ⟨r, rfl⟩) (by decide)).1
  have h2 := (builtInAvg_int (fun v : Value => Except.ok v)
    [.IntValue (-7), .NullValue, .IntValue 0] (fun r hr => by
      simp only [List.mem_cons, List.mem_singleton, List.not_mem_nil, or_false] at hr
      rcases hr with rfl | rfl | rfl
      · exact Or.inr ⟨_, rfl⟩
      · exact Or.inl rfl
      · exact Or.inr ⟨_, rfl⟩) (by simp [intValues])).1
  have v1 : Int.tdiv (wrapInt64 (intValues evalYear yearRows).sum)
      ((intValues evalYear yearRows).length : Int) = 1972 := by
    simp [intValues, evalYear, yearRows, wrapInt64]
    decide
  have v2 : Int.tdiv (wrapInt64 (intValues (fun v : Value => Except.ok v)
      [.IntValue (-7), .NullValue, .IntValue 0]).sum)
      ((intValues (fun v : Value => (Except.ok v : Except Error Value))
        [.IntValue (-7), .NullValue, .IntValue 0]).length : Int) = -3 := by
    simp [intValues, wrapInt64]
    decide
  rw [v1] at h1
  rw [v2] at h2
  exact ⟨h1, h2⟩

/-- The count `builtInCount` reaches when the argument evaluates on every row. -/
theorem countLoop_ok {ρ : Type} (eval : ρ → Except Error Value) (rows : List ρ) (count : Nat)
    (h : ∀ r ∈ rows, ∃ v, eval r = .ok v) :
    countLoop eval rows count = .ok (count + (nonNullRows eval rows).length) := by
  induction rows generalizing count with
  | nil => rfl
  | cons r rs ih =>
    have hrs : ∀ x ∈ rs, ∃ v, eval x = .ok v := fun x hx => h x (List.mem_cons_of_mem _ hx)
    obtain ⟨v, hv⟩ := h r (List.mem_cons_self _ _)
    cases v <;> simp [countLoop, hv, nonNullRows_cons, ih _ hrs] <;> omega

/-- C8: on a row group on which the argument evaluates without error, `COUNT`
returns the `Int` that is the number of rows whose value is not `Null`, a
number between 0 and the number of rows. -/
theorem builtInCount_eq {ρ : Type} (eval : ρ → Except Error Value) (rows : List ρ)
    (h : ∀ r ∈ rows, ∃ v, eval r = .ok v) :
    builtInCount eval rows = .ok (.IntValue ((nonNullRows eval rows).length : Int)) ∧
      (∀ r, r ∈ nonNullRows eval rows ↔ r ∈ rows ∧ eval r ≠ .ok .NullValue) ∧
      (0 : Int) ≤ ((nonNullRows eval rows).length : Int) ∧
      (nonNullRows eval rows).length ≤ rows.length := by
  refine ⟨?_, ?_, Int.natCast_nonneg _, List.length_filter_le _ _⟩
  · unfold builtInCount
    rw [countLoop_ok eval rows 0 h]
    simp
  · intro r
    unfold nonNullRows
    rw [List.mem_filter]
    constructor
    · rintro ⟨hr, hv⟩
      refine ⟨hr, fun he => ?_⟩
      rw [he] at hv
      simp at hv
    · rintro ⟨hr, hv⟩
      refine ⟨hr, ?_⟩
      split
      · next he => exact absurd he hv
      · rfl

/-- C8 (witness): `COUNT` over the years 1970..1974 is 5; a row with a `Null`
value is not counted. -/
theorem builtInCount_eq_witness :
    builtInCount evalYear yearRows = .ok (.IntValue 5) ∧
      builtInCount (fun v : Value => Except.ok v) [.IntValue 7, .NullValue, .StringValue (goString "x")] =
        .ok (.IntValue 2) :=
  ⟨(builtInCount_eq evalYear yearRows (fun _ _ => ⟨_, rfl⟩)).1,
    (builtInCount_eq (fun v : Value => Except.ok v) [.IntValue 7, .NullValue, .StringValue (goString "x")]
      (fun _ _ => ⟨_, rfl⟩)).1⟩

/-- The state `builtInSum` reaches on a numeric group. -/
theorem sumLoop_numeric {ρ : Type} (eval : ρ → Except Error Value) (rows : List ρ)
    (st : SumState) (h : numericGroup eval rows) :
    ∃ st', sumLoop eval rows st = .ok st' ∧
      st'.seenInt = (st.seenInt || !(intValues eval rows).isEmpty) ∧
      st'.seenFloat = (st.seenFloat || !(floatValues eval rows).isEmpty) ∧
      st'.intSum = (intValues eval rows).foldl (fun s x => wrapInt64 (s + x)) st.intSum := by
  induction rows generalizing st with
  | nil => exact ⟨st, rfl, by simp [intValues], by simp [floatValues], rfl⟩
  | cons r rs ih =>
    have hrs : numericGroup eval rs := fun x hx => h x (List.mem_cons_of_mem _ hx)
    rcases h r (List.mem_cons_self _ _) with hr | ⟨i, hr⟩ | ⟨f, hr⟩
    · obtain ⟨st', e, h1, h2, h3⟩ := ih st hrs
      exact ⟨st', by simp [sumLoop, hr, e],
        by simp [intValues_cons, hr, h1],
        by simp [floatValues_cons, hr, h2],
        by simp [intValues_cons, hr, h3]⟩
    · obtain ⟨st', e, h1, h2, h3⟩ := ih { st with
        seenInt := true, intSum := wrapInt64 (st.intSum + i) } hrs
      exact ⟨st', by simp [sumLoop, hr, e],
        by simp [intValues_cons, hr, h1],
        by simp [floatValues_cons, hr, h2],
        by simp [intValues_cons, hr, h3]⟩
    · obtain ⟨st', e, h1, h2, h3⟩ := ih { st with
        seenFloat := true, floatSum := st.floatSum + f } hrs
      exact ⟨st', by simp [sumLoop, hr, e],
        by simp [intValues_cons, hr, h1],
        by simp [floatValues_cons, hr, h2],
        by simp [intValues_cons, hr, h3]⟩

/-- C9: on a row group whose non-null argument values are all `Int`, `SUM`
returns, without an error, the `Int` that is the sum of the values reduced
modulo `2^64` into the `int64` range; this is the mathematical sum whenever
that sum fits in `int64`.  Rows with a `Null` value are ignored. -/
theorem builtInSum_int {ρ : Type} (eval : ρ → Except Error Value) (rows : List ρ)
    (h : ∀ r ∈ rows, eval r = .ok .NullValue ∨ ∃ i, eval r = .ok (.IntValue i)) :
    builtInSum eval rows = .ok (.IntValue (wrapInt64 (intValues eval rows).sum)) ∧
      (-2 ^ 63 ≤ (intValues eval rows).sum → (intValues eval rows).sum < 2 ^ 63 →
        builtInSum eval rows = .ok (.IntValue (intValues eval rows).sum)) ∧
      (wrapInt64 (intValues eval rows).sum - (intValues eval rows).sum) % 2 ^ 64 = 0 ∧
      -2 ^ 63 ≤ wrapInt64 (intValues eval rows).sum ∧
      wrapInt64 (intValues eval rows).sum < 2 ^ 63 := by
  obtain ⟨st, e, _, h2, h3⟩ :=
    sumLoop_numeric eval rows ⟨false, false, 0, 0⟩ (numericGroup_of_intGroup h)
  rw [floatValues_of_intGroup h] at h2
  rw [foldl_wrapInt64_zero] at h3
  simp only [Bool.false_or, List.isEmpty_nil, Bool.not_true] at h2
  have hsum : builtInSum eval rows = .ok (.IntValue (wrapInt64 (intValues eval rows).sum)) := by
    unfold builtInSum
    rw [e]
    simp [h2, h3]
  refine ⟨hsum, fun hlo hhi => ?_, wrapInt64_mod _, (wrapInt64_inRange _).1,
    (wrapInt64_inRange _).2⟩
  rw [hsum, wrapInt64_of_inRange hlo hhi]

/-- C9 (witness): `SUM` over the years 1970..1974 is 9860; the sum of the
largest `int64` and 1 wraps around to the smallest `int64`. -/
theorem builtInSum_int_witness :
    builtInSum evalYear yearRows = .ok (.IntValue 9860) ∧
      builtInSum (fun v : Value => Except.ok v)
        [.IntValue 9223372036854775807, .NullValue, .IntValue 1] =
        .ok (.IntValue (-9223372036854775808)) := by
  have h1 := (builtInSum_int evalYear yearRows (fun r _ => Or.inr ⟨r, rfl⟩)).1
  have h2 := (builtInSum_int (fun v : Value => Except.ok v)
    [.IntValue 9223372036854775807, .NullValue, .IntValue 1] (fun r hr => by
      simp only [List.mem_cons, List.mem_singleton, List.not_mem_nil, or_false] at hr
      rcases hr with rfl | rfl | rfl
      · exact Or.inr ⟨_, rfl⟩
      · exact Or.inl rfl
      · exact Or.inr ⟨_, rfl⟩)).1
  have v1 : wrapInt64 (intValues evalYear yearRows).sum = 9860 := by
    simp [intValues, evalYear, yearRows, wrapInt64]
  have v2 : wrapInt64 (intValues (fun v : Value => Except.ok v)
      [.IntValue 9223372036854775807, .NullValue, .IntValue 1]).sum =
      -9223372036854775808 := by
    simp [intValues, wrapInt64]
  rw [v1] at h1
  rw [v2] at h2
  exact ⟨h1, h2⟩

/-- The extremum the `max` loop keeps, on a list of `Int` values: once a value
has been seen, the result is one of the values and bounds all of them. -/
theorem foldl_max_seen (xs : List Int) (m0 : Int) :
    ∃ m, xs.foldl (fun (p : Bool × Int) x =>
        (true, if !p.1 || decide (x > p.2) then x else p.2)) (true, m0) = (true, m) ∧
      (m = m0 ∨ m ∈ xs) ∧ m0 ≤ m ∧ ∀ y ∈ xs, y ≤ m := by
  induction xs generalizing m0 with
  | nil => exact ⟨m0, rfl, Or.inl rfl, Int.le_refl _, by simp⟩
  | cons x xs ih =>
    simp only [List.foldl_cons, Bool.not_true, Bool.false_or]
    obtain ⟨m, e, hm, hb, hall⟩ := ih (if decide (x > m0) then x else m0)
    refine ⟨m, e, ?_, ?_, ?_⟩
    · rcases hm with hm | hm
      · split at hm
        · exact Or.inr (by simp [hm])
        · exact Or.inl hm
      · exact Or.inr (List.mem_cons_of_mem _ hm)
    · split at hb
      · next hx => simp only [decide_eq_true_eq] at hx; omega
      · exact hb
    · intro y hy
      rcases List.mem_cons.1 hy with rfl | hy
      · split at hb
        · exact hb
        · next hx => simp only [decide_eq_true_eq] at hx; omega
      · exact hall y hy

theorem foldl_max_spec (x : Int) (xs : List Int) :
    ∃ m, (x :: xs).foldl (fun (p : Bool × Int) y =>
        (true, if !p.1 || decide (y > p.2) then y else p.2)) (false, 0) = (true, m) ∧
      m ∈ x :: xs ∧ ∀ y ∈ x :: xs, y ≤ m := by
  obtain ⟨m, e, hm, hb, hall⟩ := foldl_max_seen xs x
  refine ⟨m, by simpa using e, ?_, ?_⟩
  · rcases hm with hm | hm
    · simp [hm]
    · exact List.mem_cons_of_mem _ hm
  · intro y hy
    rcases List.mem_cons.1 hy with rfl | hy
    · exact hb
    · exact hall y hy

/-- The state `builtInMax` reaches on a group of `Null` and `Int` values. -/
theorem maxLoop_int {ρ : Type} (eval : ρ → Except Error Value) (rows : List ρ)
    (st : ExtState) (h : intGroup eval rows) :
    ∃ st', maxLoop eval rows st = .ok st' ∧ st'.seenFloat = st.seenFloat ∧
      (st'.seenInt, st'.intExt) = (intValues eval rows).foldl (fun (p : Bool × Int) x =>
        (true, if !p.1 || decide (x > p.2) then x else p.2)) (st.seenInt, st.intExt) := by
  induction rows generalizing st with
  | nil => exact ⟨st, rfl, rfl, rfl⟩
  | cons r rs ih =>
    have hrs : intGroup eval rs := fun x hx => h x (List.mem_cons_of_mem _ hx)
    rcases h r (List.mem_cons_self _ _) with hr | ⟨i, hr⟩
    · obtain ⟨st', e, h1, h2⟩ := ih st hrs
      exact ⟨st', by simp [maxLoop, hr, e], h1, by simp [intValues_cons, hr, h2]⟩
    · obtain ⟨st', e, h1, h2⟩ := ih { st with
        intExt := if !st.seenInt || decide (i > st.intExt) then i else st.intExt
        seenInt := true } hrs
      exact ⟨st', by simp only [maxLoop, hr]; exact e, h1,
        by simp only [intValues_cons, hr, List.foldl_cons]; exact h2⟩

theorem builtInMax_intGroup {ρ : Type} (eval : ρ → Except Error Value) (rows : List ρ)
    (h : intGroup eval rows) (hne : intValues eval rows ≠ []) :
    ∃ m, builtInMax eval rows = .ok (.IntValue m) ∧ m ∈ intValues eval rows ∧
      ∀ y ∈ intValues eval rows, y ≤ m := by
  obtain ⟨st, e, h1, h2⟩ := maxLoop_int eval rows ⟨false, false, 0, 0⟩ h
  cases hi : intValues eval rows with
  | nil => exact absurd hi hne
  | cons x xs =>
    obtain ⟨m, em, hm, hall⟩ := foldl_max_spec x xs
    rw [hi, em] at h2
    simp only [Prod.mk.injEq] at h2
    refine ⟨m, ?_, hm, hall⟩
    unfold builtInMax
    rw [e]
    simp only at h1
    simp [h1, h2.2]

/-- The extremum the `min` loop keeps, on a list of `Int` values: once a value
has been seen, the result is one of the values and bounds all of them. -/
theorem foldl_min_seen (xs : List Int) (m0 : Int) :
    ∃ m, xs.foldl (fun (p : Bool × Int) x =>
        (true, if !p.1 || decide (x < p.2) then x else p.2)) (true, m0) = (true, m) ∧
      (m = m0 ∨ m ∈ xs) ∧ m ≤ m0 ∧ ∀ y ∈ xs, m ≤ y := by
  induction xs generalizing m0 with
  | nil => exact ⟨m0, rfl, Or.inl rfl, Int.le_refl _, by simp⟩
  | cons x xs ih =>
    simp only [List.foldl_cons, Bool.not_true, Bool.false_or]
    obtain ⟨m, e, hm, hb, hall⟩ := ih (if decide (x < m0) then x else m0)
    refine ⟨m, e, ?_, ?_, ?_⟩
    · rcases hm with hm | hm
      · split at hm
        · exact Or.inr (by simp [hm])
        · exact Or.inl hm
      · exact Or.inr (List.mem_cons_of_mem _ hm)
    · split at hb
      · next hx => simp only [decide_eq_true_eq] at hx; omega
      · exact hb
    · intro y hy
      rcases List.mem_cons.1 hy with rfl | hy
      · split at hb
        · exact hb
        · next hx => simp only [decide_eq_true_eq] at hx; omega
      · exact hall y hy

theorem foldl_min_spec (x : Int) (xs : List Int) :
    ∃ m, (x :: xs).foldl (fun (p : Bool × Int) y =>
        (true, if !p.1 || decide (y < p.2) then y else p.2)) (false, 0) = (true, m) ∧
      m ∈ x :: xs ∧ ∀ y ∈ x :: xs, m ≤ y := by
  obtain ⟨m, e, hm, hb, hall⟩ := foldl_min_seen xs x
  refine ⟨m, by simpa using e, ?_, ?_⟩
  · rcases hm with hm | hm
    · simp [hm]
    · exact List.mem_cons_of_mem _ hm
  · intro y hy
    rcases List.mem_cons.1 hy with rfl | hy
    · exact hb
    · exact hall y hy

/-- The state `builtInMin` reaches on a group of `Null` and `Int` values. -/
theorem minLoop_int {ρ : Type} (eval : ρ → Except Error Value) (rows : List ρ)
    (st : ExtState) (h : intGroup eval rows) :
    ∃ st', minLoop eval rows st = .ok st' ∧ st'.seenFloat = st.seenFloat ∧
      (st'.seenInt, st'.intExt) = (intValues eval rows).foldl (fun (p : Bool × Int) x =>
        (true, if !p.1 || decide (x < p.2) then x else p.2)) (st.seenInt, st.intExt) := by
  induction rows generalizing st with
  | nil => exact ⟨st, rfl, rfl, rfl⟩
  | cons r rs ih =>
    have hrs : intGroup eval rs := fun x hx => h x (List.mem_cons_of_mem _ hx)
    rcases h r (List.mem_cons_self _ _) with hr | ⟨i, hr⟩
    · obtain ⟨st', e, h1, h2⟩ := ih st hrs
      exact ⟨st', by simp [minLoop, hr, e], h1, by simp [intValues_cons, hr, h2]⟩
    · obtain ⟨st', e, h1, h2⟩ := ih { st with
        intExt := if !st.seenInt || decide (i < st.intExt) then i else st.intExt
        seenInt := true } hrs
      exact ⟨st', by simp only [minLoop, hr]; exact e, h1,
        by simp only [intValues_cons, hr, List.foldl_cons]; exact h2⟩

theorem builtInMin_intGroup {ρ : Type} (eval : ρ → Except Error Value) (rows : List ρ)
    (h : intGroup eval rows) (hne : intValues eval rows ≠ []) :
    ∃ m, builtInMin eval rows = .ok (.IntValue m) ∧ m ∈ intValues eval rows ∧
      ∀ y ∈ intValues eval rows, m ≤ y := by
  obtain ⟨st, e, h1, h2⟩ := minLoop_int eval rows ⟨false, false, 0, 0⟩ h
  cases hi : intValues eval rows with
  | nil => exact absurd hi hne
  | cons x xs =>
    obtain ⟨m, em, hm, hall⟩ := foldl_min_spec x xs
    rw [hi, em] at h2
    simp only [Prod.mk.injEq] at h2
    refine ⟨m, ?_, hm, hall⟩
    unfold builtInMin
    rw [e]
    simp only at h1
    simp [h1, h2.2]

/-- C10: on a row group whose non-null argument values are all `Int` and number
at least one, `MAX` returns an `Int` that occurs among the values and is
greater than or equal to each of them, and `MIN` returns an `Int` that occurs
among them and is less than or equal to each of them. -/
theorem builtInMax_builtInMin_int {ρ : Type} (eval : ρ → Except Error Value) (rows : List ρ)
    (h : ∀ r ∈ rows, eval r = .ok .NullValue ∨ ∃ i, eval r = .ok (.IntValue i))
    (hne : intValues eval rows ≠ []) :
    (∃ m, builtInMax eval rows = .ok (.IntValue m) ∧ m ∈ intValues eval rows ∧
      ∀ y ∈ intValues eval rows, y ≤ m) ∧
    (∃ m, builtInMin eval rows = .ok (.IntValue m) ∧ m ∈ intValues eval rows ∧
      ∀ y ∈ intValues eval rows, m ≤ y) :=
  ⟨builtInMax_intGroup eval rows h hne, builtInMin_intGroup eval rows h hne⟩

/-- C10 (witness): over the years 1970..1974 `MAX` is 1974 and `MIN` is 1970;
over the values -3, -5, all negative and the first the greatest, `MAX` is -3
and `MIN` is -5. -/
theorem builtInMax_builtInMin_int_witness :
    (builtInMax evalYear yearRows = .ok (.IntValue 1974) ∧
      builtInMin evalYear yearRows = .ok (.IntValue 1970)) ∧
    (builtInMax (fun v : Value => Except.ok v) [.NullValue, .IntValue (-3), .IntValue (-5)] =
        .ok (.IntValue (-3)) ∧
      builtInMin (fun v : Value => Except.ok v) [.NullValue, .IntValue (-3), .IntValue (-5)] =
        .ok (.IntValue (-5))) := by
  have hy : ∀ r ∈ yearRows, evalYear r = .ok .NullValue ∨ ∃ i, evalYear r = .ok (.IntValue i) :=
    fun r _ => Or.inr ⟨r, rfl⟩
  have hn : ∀ r ∈ [Value.NullValue, .IntValue (-3), .IntValue (-5)],
      (fun v : Value => (Except.ok v : Except Error Value)) r = .ok .NullValue ∨
        ∃ i, (fun v : Value => (Except.ok v : Except Error Value)) r = .ok (.IntValue i) := by
    intro r hr
    simp only [List.mem_cons, List.mem_singleton, List.not_mem_nil, or_false] at hr
    rcases hr with rfl | rfl | rfl
    · exact Or.inl rfl
    · exact Or.inr ⟨_, rfl⟩
    · exact Or.inr ⟨_, rfl⟩
  have iy : intValues evalYear yearRows = [1970, 1971, 1972, 1973, 1974] := by
    simp [intValues, evalYear, yearRows]
  have inn : intValues (fun v : Value => (Except.ok v : Except Error Value))
      [.NullValue, .IntValue (-3), .IntValue (-5)] = [-3, -5] := by
    simp [intValues]
  obtain ⟨⟨a, ha, ha1, ha2⟩, ⟨b, hb, hb1, hb2⟩⟩ :=
    builtInMax_builtInMin_int evalYear yearRows hy (by rw [iy]; simp)
  obtain ⟨⟨c, hc, hc1, hc2⟩, ⟨d, hd, hd1, hd2⟩⟩ :=
    builtInMax_builtInMin_int (fun v : Value => (Except.ok v : Except Error Value))
      [.NullValue, .IntValue (-3), .IntValue (-5)] hn (by rw [inn]; simp)
  rw [iy] at ha1 ha2 hb1 hb2
  rw [inn] at hc1 hc2 hd1 hd2
  have ea : a = 1974 := by
    have := ha2 1974 (by simp)
    simp at ha1
    omega
  have eb : b = 1970 := by
    have := hb2 1970 (by simp)
    simp at hb1
    omega
  have ec : c = -3 := by
    have := hc2 (-3) (by simp)
    simp at hc1
    omega
  have ed : d = -5 := by
    have := hd2 (-5) (by simp)
    simp at hd1
    omega
  subst ea eb ec ed
  exact ⟨⟨ha, hb⟩, ⟨hc, hd⟩⟩

/-! ## Errors in the aggregate built-ins -/

theorem avgLoop_append {ρ : Type} (eval : ρ → Except Error Value) (xs ys : List ρ)
    (st : AvgState) :
    avgLoop eval (xs ++ ys) st =
      match avgLoop eval xs st with
      | .error e => .error e
      | .ok st' => avgLoop eval ys st' := by
  induction xs generalizing st with
  | nil => rfl
  | cons r rs ih =>
    simp only [List.cons_append, avgLoop]
    cases eval r with
    | error e => rfl
    | ok v => cases v <;> first | exact ih _ | rfl

theorem countLoop_append {ρ : Type} (eval : ρ → Except Error Value) (xs ys : List ρ)
    (count : Nat) :
    countLoop eval (xs ++ ys) count =
      match countLoop eval xs count with
      | .error e => .error e
      | .ok count' => countLoop eval ys count' := by
  induction xs generalizing count with
  | nil => rfl
  | cons r rs ih =>
    simp only [List.cons_append, countLoop]
    cases eval r with
    | error e => rfl
    | ok v => cases v <;> exact ih _

theorem maxLoop_append {ρ : Type} (eval : ρ → Except Error Value) (xs ys : List ρ)
    (st : ExtState) :
    maxLoop eval (xs ++ ys) st =
      match maxLoop eval xs st with
      | .error e => .error e
      | .ok st' => maxLoop eval ys st' := by
  induction xs generalizing st with
  | nil => rfl
  | cons r rs ih =>
    simp only [List.cons_append, maxLoop]
    cases eval r with
    | error e => rfl
    | ok v => cases v <;> first | exact ih _ | rfl

theorem minLoop_append {ρ : Type} (eval : ρ → Except Error Value) (xs ys : List ρ)
    (st : ExtState) :
    minLoop eval (xs ++ ys) st =
      match minLoop eval xs st with
      | .error e => .error e
      | .ok st' => minLoop eval ys st' := by
  induction xs generalizing st with
  | nil => rfl
  | cons r rs ih =>
    simp only [List.cons_append, minLoop]
    cases eval r with
    | error e => rfl
    | ok v => cases v <;> first | exact ih _ | rfl

theorem sumLoop_append {ρ : Type} (eval : ρ → Except Error Value) (xs ys : List ρ)
    (st : SumState) :
    sumLoop eval (xs ++ ys) st =
      match sumLoop eval xs st with
      | .error e => .error e
      | .ok st' => sumLoop eval ys st' := by
  induction xs generalizing st with
  | nil => rfl
  | cons r rs ih =>
    simp only [List.cons_append, sumLoop]
    cases eval r with
    | error e => rfl
    | ok v => cases v <;> first | exact ih _ | rfl

/-- The `max` loop succeeds on a numeric group and records which types it saw. -/
theorem maxLoop_numeric {ρ : Type} (eval : ρ → Except Error Value) (rows : List ρ)
    (st : ExtState) (h : numericGroup eval rows) :
    ∃ st', maxLoop eval rows st = .ok st' ∧
      st'.seenInt = (st.seenInt || !(intValues eval rows).isEmpty) ∧
      st'.seenFloat = (st.seenFloat || !(floatValues eval rows).isEmpty) := by
  induction rows generalizing st with
  | nil => exact ⟨st, rfl, by simp [intValues], by simp [floatValues]⟩
  | cons r rs ih =>
    have hrs : numericGroup eval rs := fun x hx => h x (List.mem_cons_of_mem _ hx)
    rcases h r (List.mem_cons_self _ _) with hr | ⟨i, hr⟩ | ⟨f, hr⟩
    · obtain ⟨st', e, h1, h2⟩ := ih st hrs
      exact ⟨st', by simp only [maxLoop, hr]; exact e,
        by simp [intValues_cons, hr, h1], by simp [floatValues_cons, hr, h2]⟩
    · obtain ⟨st', e, h1, h2⟩ := ih { st with
        intExt := if !st.seenInt || decide (i > st.intExt) then i else st.intExt
        seenInt := true } hrs
      exact ⟨st', by simp only [maxLoop, hr]; exact e,
        by simp [intValues_cons, hr, h1], by simp [floatValues_cons, hr, h2]⟩
    · obtain ⟨st', e, h1, h2⟩ := ih { st with
        floatExt := if !st.seenFloat || decide (f > st.floatExt) then f else st.floatExt
        seenFloat := true } hrs
      exact ⟨st', by simp only [maxLoop, hr]; exact e,
        by simp [intValues_cons, hr, h1], by simp [floatValues_cons, hr, h2]⟩

/-- The `min` loop succeeds on a numeric group and records which types it saw. -/
theorem minLoop_numeric {ρ : Type} (eval : ρ → Except Error Value) (rows : List ρ)
    (st : ExtState) (h : numericGroup eval rows) :
    ∃ st', minLoop eval rows st = .ok st' ∧
      st'.seenInt = (st.seenInt || !(intValues eval rows).isEmpty) ∧
      st'.seenFloat = (st.seenFloat || !(floatValues eval rows).isEmpty) := by
  induction rows generalizing st with
  | nil => exact ⟨st, rfl, by simp [intValues], by simp [floatValues]⟩
  | cons r rs ih =>
    have hrs : numericGroup eval rs := fun x hx => h x (List.mem_cons_of_mem _ hx)
    rcases h r (List.mem_cons_self _ _) with hr | ⟨i, hr⟩ | ⟨f, hr⟩
    · obtain ⟨st', e, h1, h2⟩ := ih st hrs
      exact ⟨st', by simp only [minLoop, hr]; exact e,
        by simp [intValues_cons, hr, h1], by simp [floatValues_cons, hr, h2]⟩
    · obtain ⟨st', e, h1, h2⟩ := ih { st with
        intExt := if !st.seenInt || decide (i < st.intExt) then i else st.intExt
        seenInt := true } hrs
      exact ⟨st', by simp only [minLoop, hr]; exact e,
        by simp [intValues_cons, hr, h1], by simp [floatValues_cons, hr, h2]⟩
    · obtain ⟨st', e, h1, h2⟩ := ih { st with
        floatExt := if !st.seenFloat || decide (f < st.floatExt) then f else st.floatExt
        seenFloat := true } hrs
      exact ⟨st', by simp only [minLoop, hr]; exact e,
        by simp [intValues_cons, hr, h1], by simp [floatValues_cons, hr, h2]⟩

/-- The float sum `builtInSum` keeps: the `Float` values added up in row order. -/
theorem sumLoop_floatSum {ρ : Type} (eval : ρ → Except Error Value) (rows : List ρ)
    (st st' : SumState) (h : sumLoop eval rows st = .ok st') :
    st'.floatSum = (floatValues eval rows).foldl (fun s x => s + x) st.floatSum := by
  induction rows generalizing st with
  | nil =>
    simp only [sumLoop, Except.ok.injEq] at h
    rw [← h]
    rfl
  | cons r rs ih =>
    simp only [sumLoop] at h
    cases hr : eval r with
    | error e => rw [hr] at h; cases h
    | ok v =>
      rw [hr] at h
      cases v <;> first
        | cases h
        | simpa [floatValues_cons, hr] using ih _ h

theorem isEmpty_eq_false_of_ne_nil {α : Type} {l : List α} (h : l ≠ []) : l.isEmpty = false := by
  cases l with
  | nil => exact absurd rfl h
  | cons _ _ => rfl

/-- C11: on a row group whose argument values are `Null`, `Int` or `Float`, each
of `SUM`, `MAX` and `MIN` returns a `Float` value if at least one `Float` value
occurs and an `Int` value otherwise; with both `Int` and `Float` values present,
`SUM` returns `FloatValue(floatSum + float64(intSum))`, where `floatSum` adds up
the `Float` values in row order and `intSum` is the `int64` sum of the `Int`
values. -/
theorem aggregates_float_or_int {ρ : Type} (eval : ρ → Except Error Value) (rows : List ρ)
    (h : ∀ r ∈ rows, eval r = .ok .NullValue ∨ (∃ i, eval r = .ok (.IntValue i)) ∨
      ∃ f, eval r = .ok (.FloatValue f)) :
    ((floatValues eval rows ≠ [] → ∃ f, builtInSum eval rows = .ok (.FloatValue f)) ∧
      (floatValues eval rows = [] → ∃ i, builtInSum eval rows = .ok (.IntValue i))) ∧
    ((floatValues eval rows ≠ [] → ∃ f, builtInMax eval rows = .ok (.FloatValue f)) ∧
      (floatValues eval rows = [] → ∃ i, builtInMax eval rows = .ok (.IntValue i))) ∧
    ((floatValues eval rows ≠ [] → ∃ f, builtInMin eval rows = .ok (.FloatValue f)) ∧
      (floatValues eval rows = [] → ∃ i, builtInMin eval rows = .ok (.IntValue i))) ∧
    (intValues eval rows ≠ [] → floatValues eval rows ≠ [] →
      builtInSum eval rows =
        .ok (.FloatValue ((floatValues eval rows).foldl (fun s x => s + x) 0 +
          Float.ofInt (wrapInt64 (intValues eval rows).sum)))) := by
  obtain ⟨ss, es, hs1, hs2, hs3⟩ := sumLoop_numeric eval rows ⟨false, false, 0, 0⟩ h
  have hs4 := sumLoop_floatSum eval rows _ ss es
  obtain ⟨sx, ex, hx1, hx2⟩ := maxLoop_numeric eval rows ⟨false, false, 0, 0⟩ h
  obtain ⟨sn, en, hn1, hn2⟩ := minLoop_numeric eval rows ⟨false, false, 0, 0⟩ h
  rw [foldl_wrapInt64_zero] at hs3
  simp only [Bool.false_or] at hs1 hs2 hx1 hx2 hn1 hn2
  refine ⟨⟨?_, ?_⟩, ⟨?_, ?_⟩, ⟨?_, ?_⟩, ?_⟩
  · intro hf
    have hsf : ss.seenFloat = true := by rw [hs2, isEmpty_eq_false_of_ne_nil hf]; rfl
    unfold builtInSum
    rw [es]
    simp only [hsf, Bool.true_and]
    split <;> exact ⟨_, rfl⟩
  · intro hf
    have hsf : ss.seenFloat = false := by rw [hs2, hf]; rfl
    unfold builtInSum
    rw [es]
    simp only [hsf, Bool.false_and]
    exact ⟨_, rfl⟩
  · intro hf
    have hsf : sx.seenFloat = true := by rw [hx2, isEmpty_eq_false_of_ne_nil hf]; rfl
    unfold builtInMax
    rw [ex]
    simp only [hsf, Bool.true_and]
    split <;> exact ⟨_, rfl⟩
  · intro hf
    have hsf : sx.seenFloat = false := by rw [hx2, hf]; rfl
    unfold builtInMax
    rw [ex]
    simp only [hsf, Bool.false_and]
    exact ⟨_, rfl⟩
  · intro hf
    have hsf : sn.seenFloat = true := by rw [hn2, isEmpty_eq_false_of_ne_nil hf]; rfl
    unfold builtInMin
    rw [en]
    simp only [hsf, Bool.true_and]
    split <;> exact ⟨_, rfl⟩
  · intro hf
    have hsf : sn.seenFloat = false := by rw [hn2, hf]; rfl
    unfold builtInMin
    rw [en]
    simp only [hsf, Bool.false_and]
    exact ⟨_, rfl⟩
  · intro hi hf
    have hsf : ss.seenFloat = true := by rw [hs2, isEmpty_eq_false_of_ne_nil hf]; rfl
    have hsi : ss.seenInt = true := by rw [hs1, isEmpty_eq_false_of_ne_nil hi]; rfl
    unfold builtInSum
    rw [es]
    simp only [hsf, hsi, Bool.and_self, if_true, hs3, hs4]

/-- C11 (witness): over the values 1, `Null`, 2.5 `SUM` is the `Float`
`(0 + 2.5) + float64(1)`, and `MAX` and `MIN` are `Float` values; over the years
1970..1974, all `Int`, the three results are `Int` values. -/
theorem aggregates_float_or_int_witness :
    builtInSum (fun v : Value => Except.ok v) [.IntValue 1, .NullValue, .FloatValue 2.5] =
        .ok (.FloatValue ((0 + 2.5) + Float.ofInt 1)) ∧
      (∃ f, builtInMax (fun v : Value => Except.ok v)
        [.IntValue 1, .NullValue, .FloatValue 2.5] = .ok (.FloatValue f)) ∧
      (∃ f, builtInMin (fun v : Value => Except.ok v)
        [.IntValue 1, .NullValue, .FloatValue 2.5] = .ok (.FloatValue f)) ∧
      (∃ i, builtInSum evalYear yearRows = .ok (.IntValue i)) ∧
      (∃ i, builtInMax evalYear yearRows = .ok (.IntValue i)) ∧
      (∃ i, builtInMin evalYear yearRows = .ok (.IntValue i)) := by
  have hm : ∀ r ∈ [Value.IntValue 1, .NullValue, .FloatValue 2.5],
      (fun v : Value => (Except.ok v : Except Error Value)) r = .ok .NullValue ∨
        (∃ i, (fun v : Value => (Except.ok v : Except Error Value)) r = .ok (.IntValue i)) ∨
        ∃ f, (fun v : Value => (Except.ok v : Except Error Value)) r = .ok (.FloatValue f) := by
    intro r hr
    simp only [List.mem_cons, List.mem_singleton, List.not_mem_nil, or_false] at hr
    rcases hr with rfl | rfl | rfl
    · exact Or.inr (Or.inl ⟨_, rfl⟩)
    · exact Or.inl rfl
    · exact Or.inr (Or.inr ⟨_, rfl⟩)
  have hy : ∀ r ∈ yearRows, evalYear r = .ok .NullValue ∨
      (∃ i, evalYear r = .ok (.IntValue i)) ∨ ∃ f, evalYear r = .ok (.FloatValue f) :=
    fun r _ => Or.inr (Or.inl ⟨r, rfl⟩)
  have fm : floatValues (fun v : Value => (Except.ok v : Except Error Value))
      [.IntValue 1, .NullValue, .FloatValue 2.5] = [2.5] := by
    simp [floatValues]
  have im : intValues (fun v : Value => (Except.ok v : Except Error Value))
      [.IntValue 1, .NullValue, .FloatValue 2.5] = [1] := by
    simp [intValues]
  have fy : floatValues evalYear yearRows = [] := by
    simp [floatValues, evalYear, yearRows]
  obtain ⟨⟨_, _⟩, ⟨m1, _⟩, ⟨m2, _⟩, m3⟩ :=
    aggregates_float_or_int (fun v : Value => (Except.ok v : Except Error Value))
      [.IntValue 1, .NullValue, .FloatValue 2.5] hm
  obtain ⟨⟨_, y1⟩, ⟨_, y2⟩, ⟨_, y3⟩, _⟩ := aggregates_float_or_int evalYear yearRows hy
  have w1 : wrapInt64 ([1] : List Int).sum = 1 := by simp [wrapInt64]
  have s := m3 (by rw [im]; simp) (by rw [fm]; simp)
  rw [fm, im, w1] at s
  exact ⟨s, m1 (by rw [fm]; simp), m2 (by rw [fm]; simp), y1 fy, y2 fy, y3 fy⟩

theorem avgLoop_eval_error {ρ : Type} (eval : ρ → Except Error Value) (r : ρ)
    (post : List ρ) (st : AvgState) (e : Error) (he : eval r = .error e) :
    avgLoop eval (r :: post) st = .error e := by
  simp only [avgLoop, he]

theorem avgLoop_over_error {ρ : Type} (eval : ρ → Except Error Value) (r : ρ)
    (post : List ρ) (st : AvgState) (v : Value) (hv : eval r = .ok v)
    (h0 : v ≠ .NullValue) (h1 : ∀ i, v ≠ .IntValue i) (h2 : ∀ f, v ≠ .FloatValue f) :
    avgLoop eval (r :: post) st = .error (.over "AVG" v) := by
  cases v with
  | NullValue => exact absurd rfl h0
  | IntValue i => exact absurd rfl (h1 i)
  | FloatValue f => exact absurd rfl (h2 f)
  | _ => simp only [avgLoop, hv]

/-- `AVG` stops at the first row that ends its loop: when the loop ends at the
row `r` with the error `err`, the result on `pre ++ r :: post` is an error, and
it is `err` when the rows before `r` are numeric. -/
theorem builtInAvg_stop {ρ : Type} (eval : ρ → Except Error Value) (pre post : List ρ)
    (r : ρ) (err : Error) (hstop : ∀ st, avgLoop eval (r :: post) st = .error err) :
    (∃ e, builtInAvg eval (pre ++ r :: post) = .error e) ∧
    (numericGroup eval pre → builtInAvg eval (pre ++ r :: post) = .error err) := by
  unfold builtInAvg
  rw [avgLoop_append]
  cases hpre : avgLoop eval pre ⟨false, false, 0, 0, 0⟩ with
  | error e =>
    refine ⟨⟨e, rfl⟩, fun hnum => ?_⟩
    obtain ⟨st, hst, _⟩ := avgLoop_numeric eval pre ⟨false, false, 0, 0, 0⟩ hnum
    rw [hpre] at hst
    cases hst
  | ok st =>
    refine ⟨⟨err, ?_⟩, fun _ => ?_⟩ <;> simp only [hstop]

theorem maxLoop_eval_error {ρ : Type} (eval : ρ → Except Error Value) (r : ρ)
    (post : List ρ) (st : ExtState) (e : Error) (he : eval r = .error e) :
    maxLoop eval (r :: post) st = .error e := by
  simp only [maxLoop, he]

theorem maxLoop_over_error {ρ : Type} (eval : ρ → Except Error Value) (r : ρ)
    (post : List ρ) (st : ExtState) (v : Value) (hv : eval r = .ok v)
    (h0 : v ≠ .NullValue) (h1 : ∀ i, v ≠ .IntValue i) (h2 : ∀ f, v ≠ .FloatValue f) :
    maxLoop eval (r :: post) st = .error (.over "MAX" v) := by
  cases v with
  | NullValue => exact absurd rfl h0
  | IntValue i => exact absurd rfl (h1 i)
  | FloatValue f => exact absurd rfl (h2 f)
  | _ => simp only [maxLoop, hv]

/-- `MAX` stops at the first row that ends its loop: when the loop ends at the
row `r` with the error `err`, the result on `pre ++ r :: post` is an error, and
it is `err` when the rows before `r` are numeric. -/
theorem builtInMax_stop {ρ : Type} (eval : ρ → Except Error Value) (pre post : List ρ)
    (r : ρ) (err : Error) (hstop : ∀ st, maxLoop eval (r :: post) st = .error err) :
    (∃ e, builtInMax eval (pre ++ r :: post) = .error e) ∧
    (numericGroup eval pre → builtInMax eval (pre ++ r :: post) = .error err) := by
  unfold builtInMax
  rw [maxLoop_append]
  cases hpre : maxLoop eval pre ⟨false, false, 0, 0⟩ with
  | error e =>
    refine ⟨⟨e, rfl⟩, fun hnum => ?_⟩
    obtain ⟨st, hst, _⟩ := maxLoop_numeric eval pre ⟨false, false, 0, 0⟩ hnum
    rw [hpre] at hst
    cases hst
  | ok st =>
    refine ⟨⟨err, ?_⟩, fun _ => ?_⟩ <;> simp only [hstop]

theorem minLoop_eval_error {ρ : Type} (eval : ρ → Except Error Value) (r : ρ)
    (post : List ρ) (st : ExtState) (e : Error) (he : eval r = .error e) :
    minLoop eval (r :: post) st = .error e := by
  simp only [minLoop, he]

theorem minLoop_over_error {ρ : Type} (eval : ρ → Except Error Value) (r : ρ)
    (post : List ρ) (st : ExtState) (v : Value) (hv : eval r = .ok v)
    (h0 : v ≠ .NullValue) (h1 : ∀ i, v ≠ .IntValue i) (h2 : ∀ f, v ≠ .FloatValue f) :
    minLoop eval (r :: post) st = .error (.over "MIN" v) := by
  cases v with
  | NullValue => exact absurd rfl h0
  | IntValue i => exact absurd rfl (h1 i)
  | FloatValue f => exact absurd rfl (h2 f)
  | _ => simp only [minLoop, hv]

/-- `MIN` stops at the first row that ends its loop: when the loop ends at the
row `r` with the error `err`, the result on `pre ++ r :: post` is an error, and
it is `err` when the rows before `r` are numeric. -/
theorem builtInMin_stop {ρ : Type} (eval : ρ → Except Error Value) (pre post : List ρ)
    (r : ρ) (err : Error) (hstop : ∀ st, minLoop eval (r :: post) st = .error err) :
    (∃ e, builtInMin eval (pre ++ r :: post) = .error e) ∧
    (numericGroup eval pre → builtInMin eval (pre ++ r :: post) = .error err) := by
  unfold builtInMin
  rw [minLoop_append]
  cases hpre : minLoop eval pre ⟨false, false, 0, 0⟩ with
  | error e =>
    refine ⟨⟨e, rfl⟩, fun hnum => ?_⟩
    obtain ⟨st, hst, _⟩ := minLoop_numeric eval pre ⟨false, false, 0, 0⟩ hnum
    rw [hpre] at hst
    cases hst
  | ok st =>
    refine ⟨⟨err, ?_⟩, fun _ => ?_⟩ <;> simp only [hstop]

theorem sumLoop_eval_error {ρ : Type} (eval : ρ → Except Error Value) (r : ρ)
    (post : List ρ) (st : SumState) (e : Error) (he : eval r = .error e) :
    sumLoop eval (r :: post) st = .error e := by
  simp only [sumLoop, he]

theorem sumLoop_over_error {ρ : Type} (eval : ρ → Except Error Value) (r : ρ)
    (post : List ρ) (st : SumState) (v : Value) (hv : eval r = .ok v)
    (h0 : v ≠ .NullValue) (h1 : ∀ i, v ≠ .IntValue i) (h2 : ∀ f, v ≠ .FloatValue f) :
    sumLoop eval (r :: post) st = .error (.over "SUM" v) := by
  cases v with
  | NullValue => exact absurd rfl h0
  | IntValue i => exact absurd rfl (h1 i)
  | FloatValue f => exact absurd rfl (h2 f)
  | _ => simp only [sumLoop, hv]

/-- `SUM` stops at the first row that ends its loop: when the loop ends at the
row `r` with the error `err`, the result on `pre ++ r :: post` is an error, and
it is `err` when the rows before `r` are numeric. -/
theorem builtInSum_stop {ρ : Type} (eval : ρ → Except Error Value) (pre post : List ρ)
    (r : ρ) (err : Error) (hstop : ∀ st, sumLoop eval (r :: post) st = .error err) :
    (∃ e, builtInSum eval (pre ++ r :: post) = .error e) ∧
    (numericGroup eval pre → builtInSum eval (pre ++ r :: post) = .error err) := by
  unfold builtInSum
  rw [sumLoop_append]
  cases hpre : sumLoop eval pre ⟨false, false, 0, 0⟩ with
  | error e =>
    refine ⟨⟨e, rfl⟩, fun hnum => ?_⟩
    obtain ⟨st, hst, _⟩ := sumLoop_numeric eval pre ⟨false, false, 0, 0⟩ hnum
    rw [hpre] at hst
    cases hst
  | ok st =>
    refine ⟨⟨err, ?_⟩, fun _ => ?_⟩ <;> simp only [hstop]

theorem countLoop_eval_error {ρ : Type} (eval : ρ → Except Error Value) (r : ρ)
    (post : List ρ) (count : Nat) (e : Error) (he : eval r = .error e) :
    countLoop eval (r :: post) count = .error e := by
  simp only [countLoop, he]

/-- `COUNT` stops at the first row on which the argument fails to evaluate. -/
theorem builtInCount_stop {ρ : Type} (eval : ρ → Except Error Value) (pre post : List ρ)
    (r : ρ) (err : Error) (he : eval r = .error err) :
    (∃ e, builtInCount eval (pre ++ r :: post) = .error e) ∧
    ((∀ x ∈ pre, ∃ v, eval x = .ok v) →
      builtInCount eval (pre ++ r :: post) = .error err) := by
  unfold builtInCount
  rw [countLoop_append]
  cases hpre : countLoop eval pre 0 with
  | error e =>
    refine ⟨⟨e, rfl⟩, fun hok => ?_⟩
    rw [countLoop_ok eval pre 0 hok] at hpre
    cases hpre
  | ok st =>
    refine ⟨⟨err, ?_⟩, fun _ => ?_⟩ <;>
      simp only [countLoop_eval_error eval r post _ err he]

/-- The rows after the one at which the `avg` loop stops play no part in the
result. -/
theorem builtInAvg_rest_irrelevant {ρ : Type} (eval : ρ → Except Error Value)
    (pre post post' : List ρ) (r : ρ) (err : Error)
    (hstop : ∀ rest st, avgLoop eval (r :: rest) st = .error err) :
    builtInAvg eval (pre ++ r :: post') = builtInAvg eval (pre ++ r :: post) := by
  unfold builtInAvg
  rw [avgLoop_append, avgLoop_append]
  cases avgLoop eval pre ⟨false, false, 0, 0, 0⟩ with
  | error e => rfl
  | ok st => simp only [hstop]

/-- The rows after the one at which the `max` loop stops play no part in the
result. -/
theorem builtInMax_rest_irrelevant {ρ : Type} (eval : ρ → Except Error Value)
    (pre post post' : List ρ) (r : ρ) (err : Error)
    (hstop : ∀ rest st, maxLoop eval (r :: rest) st = .error err) :
    builtInMax eval (pre ++ r :: post') = builtInMax eval (pre ++ r :: post) := by
  unfold builtInMax
  rw [maxLoop_append, maxLoop_append]
  cases maxLoop eval pre ⟨false, false, 0, 0⟩ with
  | error e => rfl
  | ok st => simp only [hstop]

/-- The rows after the one at which the `min` loop stops play no part in the
result. -/
theorem builtInMin_rest_irrelevant {ρ : Type} (eval : ρ → Except Error Value)
    (pre post post' : List ρ) (r : ρ) (err : Error)
    (hstop : ∀ rest st, minLoop eval (r :: rest) st = .error err) :
    builtInMin eval (pre ++ r :: post') = builtInMin eval (pre ++ r :: post) := by
  unfold builtInMin
  rw [minLoop_append, minLoop_append]
  cases minLoop eval pre ⟨false, false, 0, 0⟩ with
  | error e => rfl
  | ok st => simp only [hstop]

/-- The rows after the one at which the `sum` loop stops play no part in the
result. -/
theorem builtInSum_rest_irrelevant {ρ : Type} (eval : ρ → Except Error Value)
    (pre post post' : List ρ) (r : ρ) (err : Error)
    (hstop : ∀ rest st, sumLoop eval (r :: rest) st = .error err) :
    builtInSum eval (pre ++ r :: post') = builtInSum eval (pre ++ r :: post) := by
  unfold builtInSum
  rw [sumLoop_append, sumLoop_append]
  cases sumLoop eval pre ⟨false, false, 0, 0⟩ with
  | error e => rfl
  | ok st => simp only [hstop]

/-- The rows after the one at which the `count` loop stops play no part in the
result. -/
theorem builtInCount_rest_irrelevant {ρ : Type} (eval : ρ → Except Error Value)
    (pre post post' : List ρ) (r : ρ) (err : Error)
    (hstop : ∀ rest st, countLoop eval (r :: rest) st = .error err) :
    builtInCount eval (pre ++ r :: post') = builtInCount eval (pre ++ r :: post) := by
  unfold builtInCount
  rw [countLoop_append, countLoop_append]
  cases countLoop eval pre 0 with
  | error e => rfl
  | ok st => simp only [hstop]

/-! ### The claims about errors in the aggregates -/

/-- C12 (counterexample): `COUNT` over a group whose only row holds the `String`
value "x" does not fail: it returns the `Int` 1. -/
theorem builtInCount_string_no_error :
    builtInCount (fun v : Value => Except.ok v) [.StringValue (goString "x")] =
        .ok (.IntValue 1) ∧
      ∀ e, builtInCount (fun v : Value => Except.ok v) [.StringValue (goString "x")] ≠
        .error e := by
  have h : builtInCount (fun v : Value => Except.ok v) [.StringValue (goString "x")] =
      .ok (.IntValue 1) := rfl
  refine ⟨h, fun e he => ?_⟩
  rw [h] at he
  cases he

/-- C12 (amended): when the argument evaluates on the row `r` to a value that is
neither `Null` nor `Int` nor `Float`, each of `AVG`, `MAX`, `MIN` and `SUM` fails
with an error and returns no value; the error is `"<FN> over <type of the
value>"` when the rows before `r` evaluate to `Null`, `Int` or `Float` values.
`COUNT` does not fail on such a row: when the argument evaluates on every row,
it returns the number of non-null rows, the row `r` among them. -/
theorem aggregates_over_error {ρ : Type} (eval : ρ → Except Error Value) (pre post : List ρ)
    (r : ρ) (v : Value) (hv : eval r = .ok v) (h0 : v ≠ .NullValue)
    (h1 : ∀ i, v ≠ .IntValue i) (h2 : ∀ f, v ≠ .FloatValue f) :
    ((∃ e, builtInAvg eval (pre ++ r :: post) = .error e) ∧
      (numericGroup eval pre →
        builtInAvg eval (pre ++ r :: post) = .error (.over "AVG" v))) ∧
    ((∃ e, builtInMax eval (pre ++ r :: post) = .error e) ∧
      (numericGroup eval pre →
        builtInMax eval (pre ++ r :: post) = .error (.over "MAX" v))) ∧
    ((∃ e, builtInMin eval (pre ++ r :: post) = .error e) ∧
      (numericGroup eval pre →
        builtInMin eval (pre ++ r :: post) = .error (.over "MIN" v))) ∧
    ((∃ e, builtInSum eval (pre ++ r :: post) = .error e) ∧
      (numericGroup eval pre →
        builtInSum eval (pre ++ r :: post) = .error (.over "SUM" v))) ∧
    ((∀ x ∈ pre ++ r :: post, ∃ w, eval x = .ok w) →
      builtInCount eval (pre ++ r :: post) =
          .ok (.IntValue ((nonNullRows eval (pre ++ r :: post)).length : Int)) ∧
        r ∈ nonNullRows eval (pre ++ r :: post)) := by
  refine ⟨builtInAvg_stop eval pre post r _
      (fun st => avgLoop_over_error eval r post st v hv h0 h1 h2),
    builtInMax_stop eval pre post r _
      (fun st => maxLoop_over_error eval r post st v hv h0 h1 h2),
    builtInMin_stop eval pre post r _
      (fun st => minLoop_over_error eval r post st v hv h0 h1 h2),
    builtInSum_stop eval pre post r _
      (fun st => sumLoop_over_error eval r post st v hv h0 h1 h2), fun hall => ⟨?_, ?_⟩⟩
  · unfold builtInCount
    rw [countLoop_ok eval _ 0 hall]
    simp
  · unfold nonNullRows
    rw [List.mem_filter]
    refine ⟨by simp, ?_⟩
    rw [hv]
    cases v with
    | NullValue => exact absurd rfl h0
    | _ => rfl

/-- C12 (witness): over the values 1, "x", 2 each of `AVG`, `MAX`, `MIN` and `SUM`
fails with its error over the `String` value, and `COUNT` returns 3. -/
theorem aggregates_over_error_witness :
    builtInAvg (fun v : Value => Except.ok v)
        [.IntValue 1, .StringValue (goString "x"), .IntValue 2] =
      .error (.over "AVG" (.StringValue (goString "x"))) ∧
    builtInMax (fun v : Value => Except.ok v)
        [.IntValue 1, .StringValue (goString "x"), .IntValue 2] =
      .error (.over "MAX" (.StringValue (goString "x"))) ∧
    builtInMin (fun v : Value => Except.ok v)
        [.IntValue 1, .StringValue (goString "x"), .IntValue 2] =
      .error (.over "MIN" (.StringValue (goString "x"))) ∧
    builtInSum (fun v : Value => Except.ok v)
        [.IntValue 1, .StringValue (goString "x"), .IntValue 2] =
      .error (.over "SUM" (.StringValue (goString "x"))) ∧
    builtInCount (fun v : Value => Except.ok v)
        [.IntValue 1, .StringValue (goString "x"), .IntValue 2] = .ok (.IntValue 3) := by
  have hpre : numericGroup (fun v : Value => (Except.ok v : Except Error Value))
      [.IntValue 1] := by
    intro r hr
    rw [List.mem_singleton] at hr
    subst hr
    exact Or.inr (Or.inl ⟨_, rfl⟩)
  obtain ⟨a, b, c, d, e⟩ := aggregates_over_error
    (fun v : Value => (Except.ok v : Except Error Value)) [.IntValue 1] [.IntValue 2]
    (.StringValue (goString "x")) (.StringValue (goString "x")) rfl
    (fun h => by cases h) (fun i h => by cases h) (fun f h => by cases h)
  exact ⟨a.2 hpre, b.2 hpre, c.2 hpre, d.2 hpre, (e (fun x _ => ⟨x, rfl⟩)).1⟩

/-- C13: when evaluating the argument fails on the row `r`, each of `AVG`,
`COUNT`, `MAX`, `MIN` and `SUM` returns an error and no value; the error is the
evaluation error of `r` when no earlier row ends the loop (for `COUNT`: the
earlier rows evaluate; for the others: they evaluate to `Null`, `Int` or `Float`
values); and the rows after `r` play no part in the result. -/
theorem aggregates_eval_error {ρ : Type} (eval : ρ → Except Error Value) (pre post : List ρ)
    (r : ρ) (err : Error) (he : eval r = .error err) :
    ((∃ e, builtInAvg eval (pre ++ r :: post) = .error e) ∧
      (numericGroup eval pre → builtInAvg eval (pre ++ r :: post) = .error err) ∧
      ∀ post', builtInAvg eval (pre ++ r :: post') = builtInAvg eval (pre ++ r :: post)) ∧
    ((∃ e, builtInCount eval (pre ++ r :: post) = .error e) ∧
      ((∀ x ∈ pre, ∃ v, eval x = .ok v) →
        builtInCount eval (pre ++ r :: post) = .error err) ∧
      ∀ post', builtInCount eval (pre ++ r :: post') = builtInCount eval (pre ++ r :: post)) ∧
    ((∃ e, builtInMax eval (pre ++ r :: post) = .error e) ∧
      (numericGroup eval pre → builtInMax eval (pre ++ r :: post) = .error err) ∧
      ∀ post', builtInMax eval (pre ++ r :: post') = builtInMax eval (pre ++ r :: post)) ∧
    ((∃ e, builtInMin eval (pre ++ r :: post) = .error e) ∧
      (numericGroup eval pre → builtInMin eval (pre ++ r :: post) = .error err) ∧
      ∀ post', builtInMin eval (pre ++ r :: post') = builtInMin eval (pre ++ r :: post)) ∧
    ((∃ e, builtInSum eval (pre ++ r :: post) = .error e) ∧
      (numericGroup eval pre → builtInSum eval (pre ++ r :: post) = .error err) ∧
      ∀ post', builtInSum eval (pre ++ r :: post') = builtInSum eval (pre ++ r :: post)) := by
  have ha := builtInAvg_stop eval pre post r err
    (fun st => avgLoop_eval_error eval r post st err he)
  have hc := builtInCount_stop eval pre post r err he
  have hx := builtInMax_stop eval pre post r err
    (fun st => maxLoop_eval_error eval r post st err he)
  have hn := builtInMin_stop eval pre post r err
    (fun st => minLoop_eval_error eval r post st err he)
  have hs := builtInSum_stop eval pre post r err
    (fun st => sumLoop_eval_error eval r post st err he)
  exact ⟨⟨ha.1, ha.2, fun post' => builtInAvg_rest_irrelevant eval pre post post' r err
      (fun rest st => avgLoop_eval_error eval r rest st err he)⟩,
    ⟨hc.1, hc.2, fun post' => builtInCount_rest_irrelevant eval pre post post' r err
      (fun rest st => countLoop_eval_error eval r rest st err he)⟩,
    ⟨hx.1, hx.2, fun post' => builtInMax_rest_irrelevant eval pre post post' r err
      (fun rest st => maxLoop_eval_error eval r rest st err he)⟩,
    ⟨hn.1, hn.2, fun post' => builtInMin_rest_irrelevant eval pre post post' r err
      (fun rest st => minLoop_eval_error eval r rest st err he)⟩,
    ⟨hs.1, hs.2, fun post' => builtInSum_rest_irrelevant eval pre post post' r err
      (fun rest st => sumLoop_eval_error eval r rest st err he)⟩⟩

/-- C13 (witness): on a group whose second row fails to evaluate, after a row
with the value 1 and before a row with a `String` value, all five aggregates
return the evaluation error of the second row. -/
theorem aggregates_eval_error_witness :
    builtInAvg (fun x : Except Error Value => x)
        [.ok (.IntValue 1), .error (.message "no such column"),
          .ok (.StringValue (goString "x"))] = .error (.message "no such column") ∧
    builtInCount (fun x : Except Error Value => x)
        [.ok (.IntValue 1), .error (.message "no such column"),
          .ok (.StringValue (goString "x"))] = .error (.message "no such column") ∧
    builtInMax (fun x : Except Error Value => x)
        [.ok (.IntValue 1), .error (.message "no such column"),
          .ok (.StringValue (goString "x"))] = .error (.message "no such column") ∧
    builtInMin (fun x : Except Error Value => x)
        [.ok (.IntValue 1), .error (.message "no such column"),
          .ok (.StringValue (goString "x"))] = .error (.message "no such column") ∧
    builtInSum (fun x : Except Error Value => x)
        [.ok (.IntValue 1), .error (.message "no such column"),
          .ok (.StringValue (goString "x"))] = .error (.message "no such column") := by
  have hpre : numericGroup (fun x : Except Error Value => x) [.ok (.IntValue 1)] := by
    intro r hr
    rw [List.mem_singleton] at hr
    subst hr
    exact Or.inr (Or.inl ⟨_, rfl⟩)
  have hok : ∀ x ∈ [(Except.ok (Value.IntValue 1) : Except Error Value)],
      ∃ v, (fun x : Except Error Value => x) x = .ok v := by
    intro r hr
    rw [List.mem_singleton] at hr
    subst hr
    exact ⟨_, rfl⟩
  obtain ⟨a, c, x, n, s⟩ := aggregates_eval_error (fun x : Except Error Value => x)
    [.ok (.IntValue 1)] [.ok (.StringValue (goString "x"))]
    (.error (.message "no such column")) (.message "no such column") rfl
  exact ⟨a.2.1 hpre, c.2.1 hok, x.2.1 hpre, n.2.1 hpre, s.2.1 hpre⟩

/-! ## Closed forms of the aggregates on groups of `Null` and `Int` values -/

theorem builtInCount_of_ok {ρ : Type} (eval : ρ → Except Error Value) (rows : List ρ)
    (h : ∀ r ∈ rows, ∃ v, eval r = .ok v) :
    builtInCount eval rows = .ok (.IntValue ((nonNullRows eval rows).length : Int)) := by
  unfold builtInCount
  rw [countLoop_ok eval rows 0 h]
  simp

theorem builtInSum_of_intGroup {ρ : Type} (eval : ρ → Except Error Value) (rows : List ρ)
    (h : intGroup eval rows) :
    builtInSum eval rows = .ok (.IntValue (wrapInt64 (intValues eval rows).sum)) := by
  obtain ⟨st, e, _, h2, h3⟩ :=
    sumLoop_numeric eval rows ⟨false, false, 0, 0⟩ (numericGroup_of_intGroup h)
  rw [floatValues_of_intGroup h] at h2
  rw [foldl_wrapInt64_zero] at h3
  simp only [Bool.false_or, List.isEmpty_nil, Bool.not_true] at h2
  unfold builtInSum
  rw [e]
  simp [h2, h3]

theorem builtInAvg_of_intGroup {ρ : Type} (eval : ρ → Except Error Value) (rows : List ρ)
    (h : intGroup eval rows) :
    builtInAvg eval rows =
      if (intValues eval rows).length = 0 then .ok .NullValue
      else .ok (.IntValue (Int.tdiv (wrapInt64 (intValues eval rows).sum)
        ((intValues eval rows).length : Int))) := by
  obtain ⟨st, e, h1, h2, h3, h4⟩ :=
    avgLoop_numeric eval rows ⟨false, false, 0, 0, 0⟩ (numericGroup_of_intGroup h)
  rw [floatValues_of_intGroup h] at h2 h4
  rw [foldl_wrapInt64_zero] at h3
  simp only [Bool.false_or, Nat.zero_add, List.isEmpty_nil, Bool.not_true, List.length_nil,
    Nat.add_zero] at h1 h2 h4
  unfold builtInAvg
  rw [e]
  cases hi : intValues eval rows with
  | nil =>
    have hc : st.count = 0 := by rw [h4, hi]; rfl
    simp [hc]
  | cons x xs =>
    have hc : st.count = xs.length + 1 := by rw [h4, hi]; rfl
    have hsi : st.seenInt = true := by rw [h1, hi]; rfl
    rw [hi] at h3
    simp [AvgState.lenSeen, hsi, h2, h3, hc]

theorem builtInMax_of_no_int {ρ : Type} (eval : ρ → Except Error Value) (rows : List ρ)
    (h : intGroup eval rows) (hi : intValues eval rows = []) :
    builtInMax eval rows = .ok (.IntValue 0) := by
  obtain ⟨st, e, h1, h2⟩ := maxLoop_int eval rows ⟨false, false, 0, 0⟩ h
  rw [hi] at h2
  simp only [List.foldl_nil, Prod.mk.injEq] at h2
  unfold builtInMax
  rw [e]
  simp only at h1
  simp [h1, h2.2]

theorem builtInMin_of_no_int {ρ : Type} (eval : ρ → Except Error Value) (rows : List ρ)
    (h : intGroup eval rows) (hi : intValues eval rows = []) :
    builtInMin eval rows = .ok (.IntValue 0) := by
  obtain ⟨st, e, h1, h2⟩ := minLoop_int eval rows ⟨false, false, 0, 0⟩ h
  rw [hi] at h2
  simp only [List.foldl_nil, Prod.mk.injEq] at h2
  unfold builtInMin
  rw [e]
  simp only at h1
  simp [h1, h2.2]

/-- C14: on a row group whose argument values are all `Int` or `Null`, `COUNT`,
`SUM`, `MIN`, `MAX` and `AVG` each return the same result on every permutation
of the rows, whether or not the `int64` sum wraps around. -/
theorem aggregates_perm {ρ : Type} (eval : ρ → Except Error Value) (rows rows' : List ρ)
    (hp : rows.Perm rows')
    (h : ∀ r ∈ rows, eval r = .ok .NullValue ∨ ∃ i, eval r = .ok (.IntValue i)) :
    builtInCount eval rows' = builtInCount eval rows ∧
    builtInSum eval rows' = builtInSum eval rows ∧
    builtInMin eval rows' = builtInMin eval rows ∧
    builtInMax eval rows' = builtInMax eval rows ∧
    builtInAvg eval rows' = builtInAvg eval rows := by
  have h' : intGroup eval rows' := fun r hr => h r (hp.mem_iff.2 hr)
  have hok : ∀ r ∈ rows, ∃ v, eval r = .ok v := fun r hr => by
    rcases h r hr with hr | ⟨i, hr⟩
    · exact ⟨_, hr⟩
    · exact ⟨_, hr⟩
  have hok' : ∀ r ∈ rows', ∃ v, eval r = .ok v := fun r hr => hok r (hp.mem_iff.2 hr)
  have hints : (intValues eval rows).Perm (intValues eval rows') := hp.filterMap _
  have hnn : (nonNullRows eval rows).Perm (nonNullRows eval rows') := hp.filter _
  have hsum := hints.sum_eq
  have hlen := hints.length_eq
  refine ⟨?_, ?_, ?_, ?_, ?_⟩
  · rw [builtInCount_of_ok eval rows hok, builtInCount_of_ok eval rows' hok', hnn.length_eq]
  · rw [builtInSum_of_intGroup eval rows h, builtInSum_of_intGroup eval rows' h', hsum]
  · by_cases hi : intValues eval rows = []
    · have hi' : intValues eval rows' = [] := by
        apply List.eq_nil_of_length_eq_zero
        rw [← hlen, hi]
        rfl
      rw [builtInMin_of_no_int eval rows h hi, builtInMin_of_no_int eval rows' h' hi']
    · have hi' : intValues eval rows' ≠ [] := fun h0 => hi (by
        apply List.eq_nil_of_length_eq_zero
        rw [hlen, h0]
        rfl)
      obtain ⟨m, e, hm, hall⟩ := builtInMin_intGroup eval rows h hi
      obtain ⟨m', e', hm', hall'⟩ := builtInMin_intGroup eval rows' h' hi'
      have : m = m' :=
        Int.le_antisymm (hall m' (hints.mem_iff.2 hm')) (hall' m (hints.mem_iff.1 hm))
      rw [e, e', this]
  · by_cases hi : intValues eval rows = []
    · have hi' : intValues eval rows' = [] := by
        apply List.eq_nil_of_length_eq_zero
        rw [← hlen, hi]
        rfl
      rw [builtInMax_of_no_int eval rows h hi, builtInMax_of_no_int eval rows' h' hi']
    · have hi' : intValues eval rows' ≠ [] := fun h0 => hi (by
        apply List.eq_nil_of_length_eq_zero
        rw [hlen, h0]
        rfl)
      obtain ⟨m, e, hm, hall⟩ := builtInMax_intGroup eval rows h hi
      obtain ⟨m', e', hm', hall'⟩ := builtInMax_intGroup eval rows' h' hi'
      have : m = m' :=
        Int.le_antisymm (hall' m (hints.mem_iff.1 hm)) (hall m' (hints.mem_iff.2 hm'))
      rw [e, e', this]
  · rw [builtInAvg_of_intGroup eval rows h, builtInAvg_of_intGroup eval rows' h', hsum, hlen]

/-- C14 (witness): over the years 1974..1970, the test rows in reverse order,
the five aggregates return what they return over 1970..1974. -/
theorem aggregates_perm_witness :
    builtInCount evalYear yearRows.reverse = builtInCount evalYear yearRows ∧
    builtInSum evalYear yearRows.reverse = builtInSum evalYear yearRows ∧
    builtInMin evalYear yearRows.reverse = builtInMin evalYear yearRows ∧
    builtInMax evalYear yearRows.reverse = builtInMax evalYear yearRows ∧
    builtInAvg evalYear yearRows.reverse = builtInAvg evalYear yearRows :=
  aggregates_perm evalYear yearRows yearRows.reverse (List.reverse_perm yearRows).symm
    (fun r _ => Or.inr ⟨r, rfl⟩)

/-! ## `NULLIF` and `LEFT` -/

/-- C15: `NULLIF(a, b)` returns the error of evaluating `a` if that fails,
else the error of evaluating `b` if that fails, else the error of
`types.Equal` if that fails; otherwise it returns `Null` when `Equal` holds and
the value of `a`, unchanged, when it does not. -/
theorem builtInNullIf_spec (Equal : Value → Value → Except Error Bool)
    (a b : Except Error Value) :
    (∀ e, a = .error e → builtInNullIf Equal a b = .error e) ∧
    (∀ va e, a = .ok va → b = .error e → builtInNullIf Equal a b = .error e) ∧
    (∀ va vb e, a = .ok va → b = .ok vb → Equal va vb = .error e →
      builtInNullIf Equal a b = .error e) ∧
    (∀ va vb, a = .ok va → b = .ok vb → Equal va vb = .ok true →
      builtInNullIf Equal a b = .ok .NullValue) ∧
    (∀ va vb, a = .ok va → b = .ok vb → Equal va vb = .ok false →
      builtInNullIf Equal a b = .ok va) := by
  refine ⟨?_, ?_, ?_, ?_, ?_⟩
  · rintro e rfl
    rfl
  · rintro va e rfl rfl
    rfl
  · rintro va vb e rfl rfl he
    simp only [builtInNullIf, he]
  · rintro va vb rfl rfl he
    simp only [builtInNullIf, he, if_true]
  · rintro va vb rfl rfl he
    simp [builtInNullIf, he]

/-- C15 (examples): `NULLIF(4, 4)` is `Null` and `NULLIF(5, 4)` is 5. -/
theorem builtInNullIf_examples :
    builtInNullIf sampleEqual (.ok (.IntValue 4)) (.ok (.IntValue 4)) = .ok .NullValue ∧
      builtInNullIf sampleEqual (.ok (.IntValue 5)) (.ok (.IntValue 4)) = .ok (.IntValue 5) :=
  ⟨(builtInNullIf_spec sampleEqual (.ok (.IntValue 4)) (.ok (.IntValue 4))).2.2.2.1
      _ _ rfl rfl rfl,
    (builtInNullIf_spec sampleEqual (.ok (.IntValue 5)) (.ok (.IntValue 4))).2.2.2.2
      _ _ rfl rfl rfl⟩

/-- C16: for a string `s` and an integer `n ≥ 0`, `LEFT(s, n)` returns the
`String` made of the first `min(n, len(s))` bytes of `s`: all of `s` when `n` is
at least its length, the empty string when `n` is 0, and a prefix of `s` in
every case. -/
theorem builtInLeft_first_bytes (m : ValueMethods) (s : GoString) (n : Int)
    (hs : m.toString (.StringValue s) = s) (hn : m.toInt (.IntValue n) = .ok n)
    (h0 : 0 ≤ n) :
    builtInLeft m (.ok (.StringValue s)) (.ok (.IntValue n)) =
        .returned (.ok (.StringValue (s.take (min n.toNat s.length)))) ∧
      (s.take (min n.toNat s.length)).length = min n.toNat s.length ∧
      ((s.length : Int) ≤ n → s.take (min n.toNat s.length) = s) ∧
      (n = 0 → s.take (min n.toNat s.length) = []) ∧
      s.take (min n.toNat s.length) <+: s := by
  refine ⟨?_, ?_, ?_, ?_, List.take_prefix _ _⟩
  · simp only [builtInLeft, hs, hn]
    by_cases hgt : n > (s.length : Int)
    · have hmin : min n.toNat s.length = s.length := by omega
      simp only [hgt, if_true, hmin]
      rw [if_neg (by omega)]
      simp
    · have hmin : min n.toNat s.length = n.toNat := by omega
      simp only [hgt, if_false, hmin]
      rw [if_neg (by omega)]
  · rw [List.length_take]
    omega
  · intro hle
    apply List.take_of_length_le
    omega
  · rintro rfl
    simp

/-- C16 (witness): `LEFT('Hello', 6)` is 'Hello' and `LEFT('Hello, world!', 6)` is
'Hello,'. -/
theorem builtInLeft_first_bytes_witness :
    builtInLeft sampleMethods (.ok (.StringValue (goString "Hello"))) (.ok (.IntValue 6)) =
        .returned (.ok (.StringValue (goString "Hello"))) ∧
      builtInLeft sampleMethods (.ok (.StringValue (goString "Hello, world!")))
          (.ok (.IntValue 6)) =
        .returned (.ok (.StringValue (goString "Hello,"))) := by
  have h1 := (builtInLeft_first_bytes sampleMethods (goString "Hello") 6 rfl rfl (by decide)).1
  have h2 := (builtInLeft_first_bytes sampleMethods (goString "Hello, world!") 6 rfl rfl
    (by decide)).1
  have e1 : (goString "Hello").take (min (6 : Int).toNat (goString "Hello").length) =
      goString "Hello" := by decide
  have e2 : (goString "Hello, world!").take
      (min (6 : Int).toNat (goString "Hello, world!").length) = goString "Hello," := by decide
  rw [e1] at h1
  rw [e2] at h2
  exact ⟨h1, h2⟩

/-- C17 (the failing input): `LEFT('Hello', -1)` takes the slice `str[:-1]`, on
which the Go runtime panics, and so does `LEFT(s, n)` for every negative `n`:
the function returns neither a value nor an error. -/
theorem builtInLeft_negative_panics :
    builtInLeft sampleMethods (.ok (.StringValue (goString "Hello"))) (.ok (.IntValue (-1))) =
        .panic "slice bounds out of range" ∧
      ∀ (m : ValueMethods) (strVal idxVal : Value) (n : Int),
        m.toInt idxVal = .ok n → n < 0 →
          builtInLeft m (.ok strVal) (.ok idxVal) = .panic "slice bounds out of range" := by
  have key : ∀ (m : ValueMethods) (strVal idxVal : Value) (n : Int),
      m.toInt idxVal = .ok n → n < 0 →
        builtInLeft m (.ok strVal) (.ok idxVal) = .panic "slice bounds out of range" := by
    intro m strVal idxVal n hn hneg
    have hng : ¬ n > ((m.toString strVal).length : Int) := by omega
    simp only [builtInLeft, hn, hng, if_false, hneg, if_true]
  exact ⟨key sampleMethods _ _ (-1) rfl (by decide), key⟩

/-! ## References, display names and column accessors -/

theorem Split_ne_nil (sep : Char) (l : List Char) : Split sep l ≠ [] := by
  cases l with
  | nil => simp [Split]
  | cons c cs =>
    simp only [Split]
    split
    · simp
    · split <;> simp

theorem Split_of_not_mem (sep : Char) (l : List Char) (h : sep ∉ l) : Split sep l = [l] := by
  induction l with
  | nil => rfl
  | cons c cs ih =>
    have hc : c ≠ sep := fun e => h (by simp [e])
    have hcs : sep ∉ cs := fun e => h (List.mem_cons_of_mem _ e)
    simp only [Split, hc, if_false, ih hcs]

/-- The pieces of `Split` are one more than the separators. -/
theorem Split_length (sep : Char) (l : List Char) :
    (Split sep l).length = l.count sep + 1 := by
  induction l with
  | nil => rfl
  | cons c cs ih =>
    simp only [Split]
    by_cases hc : c = sep
    · simp [hc, ih]
    · rw [if_neg hc]
      have hne := Split_ne_nil sep cs
      cases hs : Split sep cs with
      | nil => exact absurd hs hne
      | cons p ps =>
        rw [hs] at ih
        have : List.count sep (c :: cs) = List.count sep cs := by
          rw [List.count_cons]
          simp [hc]
        rw [this]
        simpa using ih

theorem Split_of_count_one (sep : Char) (l : List Char) (h : l.count sep = 1) :
    ∃ a b, l = a ++ sep :: b ∧ sep ∉ a ∧ sep ∉ b ∧ Split sep l = [a, b] := by
  induction l with
  | nil => simp at h
  | cons c cs ih =>
    by_cases hc : c = sep
    · subst hc
      have hcs : c ∉ cs := by
        rw [List.count_cons_self] at h
        exact List.count_eq_zero.1 (by omega)
      exact ⟨[], cs, rfl, by simp, hcs, by simp [Split, Split_of_not_mem c cs hcs]⟩
    · have hcnt : cs.count sep = 1 := by
        rw [List.count_cons] at h
        simpa [hc] using h
      obtain ⟨a, b, e, ha, hb, hs⟩ := ih hcnt
      refine ⟨c :: a, b, by rw [e]; rfl, ?_, hb, ?_⟩
      · intro hmem
        rcases List.mem_cons.1 hmem with h1 | h1
        · exact hc h1.symm
        · exact ha h1
      · simp only [Split, hc, if_false, hs]

/-- C18: `NewReference(name)` fails if and only if `name` holds more than one
dot; for a name without a dot it returns the reference with the empty `Source`
and `Column = name`, and for a name with exactly one dot the reference whose
`Source` is the text before the dot and whose `Column` is the text after it. -/
theorem NewReference_spec (name : String) :
    ((∃ e, NewReference name = .error e) ↔ 1 < name.toList.count '.') ∧
    (name.toList.count '.' = 0 → NewReference name = .ok ⟨"", name⟩) ∧
    (name.toList.count '.' = 1 →
      ∃ source column : String, name = source ++ "." ++ column ∧
        '.' ∉ source.toList ∧ '.' ∉ column.toList ∧
        NewReference name = .ok ⟨source, column⟩) := by
  obtain ⟨l⟩ := name
  have hlen := Split_length '.' l
  simp only [String.toList]
  refine ⟨?_, ?_, ?_⟩
  · unfold NewReference
    simp only [String.toList]
    rcases hs : Split '.' l with _ | ⟨p, _ | ⟨q, _ | ⟨r, rest⟩⟩⟩
    · exact absurd hs (Split_ne_nil _ _)
    · rw [hs] at hlen
      simp only [List.length_singleton] at hlen
      constructor
      · rintro ⟨e, he⟩
        cases he
      · intro h
        omega
    · rw [hs] at hlen
      simp only [List.length_cons, List.length_nil] at hlen
      constructor
      · rintro ⟨e, he⟩
        cases he
      · intro h
        omega
    · rw [hs] at hlen
      simp only [List.length_cons] at hlen
      exact ⟨fun _ => by omega, fun _ => ⟨_, rfl⟩⟩
  · intro h0
    have hnot : '.' ∉ l := List.count_eq_zero.1 h0
    unfold NewReference
    simp only [String.toList, Split_of_not_mem '.' l hnot]
  · intro h1
    obtain ⟨a, b, e, ha, hb, hs⟩ := Split_of_count_one '.' l h1
    refine ⟨String.mk a, String.mk b, ?_, ha, hb, ?_⟩
    · rw [e]
      apply String.ext
      simp
    · unfold NewReference
      simp only [String.toList, hs]

/-- C18 (examples): "Year" is the column `Year` without a source, "data.Year" the
column `Year` of the source `data`, and "a.b.c" is rejected. -/
theorem NewReference_examples :
    NewReference "Year" = .ok ⟨"", "Year"⟩ ∧
      NewReference "data.Year" = .ok ⟨"data", "Year"⟩ ∧
      NewReference "a.b.c" = .error "invalid column reference 'a.b.c'" ∧
      ((∃ e, NewReference "a.b.c" = .error e) ↔ 1 < "a.b.c".toList.count '.') :=
  ⟨by rfl, by rfl, by rfl, (NewReference_spec "a.b.c").1⟩

/-- C19: a column selector is public if and only if its display name starts with
a code point that is an upper-case letter; the display name is `As` when `As` is
not empty and `Name.Column` otherwise, and a selector with an empty display
name is not public. -/
theorem IsPublic_iff (IsUpper : Char → Bool) (col : ColumnSelector) :
    (col.IsPublic IsUpper = true ↔
      ∃ c rest, col.String.toList = c :: rest ∧ IsUpper c = true) ∧
    (col.String = "" → col.IsPublic IsUpper = false) ∧
    (col.As ≠ "" → col.String = col.As) ∧
    (col.As = "" → col.String = col.Name.Column) := by
  refine ⟨?_, ?_, ?_, ?_⟩
  · unfold ColumnSelector.IsPublic
    cases h : col.String.toList with
    | nil => simp
    | cons r rest => simp
  · intro h
    unfold ColumnSelector.IsPublic
    rw [h]
    rfl
  · intro h
    unfold ColumnSelector.String
    rw [if_pos]
    have := (length_eq_zero_iff_empty col.As).not.2 h
    omega
  · intro h
    unfold ColumnSelector.String
    rw [h]
    rfl

/-- C19 (examples): with a test that takes the letters `A`..`Z` for upper case,
the selector with the alias "Share" is public, the one with the alias "share" is
not, and the one without an alias and with the column "0" is not. -/
theorem IsPublic_examples :
    ColumnSelector.IsPublic (fun c => decide (65 ≤ c.toNat ∧ c.toNat ≤ 90))
        ⟨⟨"", "0"⟩, "Share", ColumnBool⟩ = true ∧
      ColumnSelector.IsPublic (fun c => decide (65 ≤ c.toNat ∧ c.toNat ≤ 90))
        ⟨⟨"", "0"⟩, "share", ColumnBool⟩ = false ∧
      ColumnSelector.IsPublic (fun c => decide (65 ≤ c.toNat ∧ c.toNat ≤ 90))
        ⟨⟨"", "0"⟩, "", ColumnBool⟩ = false ∧
      (ColumnSelector.IsPublic (fun c => decide (65 ≤ c.toNat ∧ c.toNat ≤ 90))
        ⟨⟨"", "0"⟩, "Share", ColumnBool⟩ = true ↔
        ∃ c rest, (ColumnSelector.String ⟨⟨"", "0"⟩, "Share", ColumnBool⟩).toList = c :: rest ∧
          (fun c : Char => decide (65 ≤ c.toNat ∧ c.toNat ≤ 90)) c = true) :=
  ⟨by decide, by decide, by decide, (IsPublic_iff _ _).1⟩

/-- C20: each of the accessors `Bool`, `Int` and `Float` returns `Null` without
an error if and only if the column is a `NullColumn`, a `StringColumn` with the
empty string or a `StringsColumn` without elements; on every other column it
returns a value that is not `Null`, or an error. -/
theorem Column_accessor_null_iff (round : FloatVal → Float) (col : Column) :
    ((col.Bool = .ok .NullValue ↔
        (col = .NullColumn ∨ col = .StringColumn "" ∨ col = .StringsColumn [])) ∧
      (¬ (col = .NullColumn ∨ col = .StringColumn "" ∨ col = .StringsColumn []) →
        (∃ v, col.Bool = .ok v ∧ v ≠ .NullValue) ∨ ∃ e, col.Bool = .error e)) ∧
    ((col.Int = .ok .NullValue ↔
        (col = .NullColumn ∨ col = .StringColumn "" ∨ col = .StringsColumn [])) ∧
      (¬ (col = .NullColumn ∨ col = .StringColumn "" ∨ col = .StringsColumn []) →
        (∃ v, col.Int = .ok v ∧ v ≠ .NullValue) ∨ ∃ e, col.Int = .error e)) ∧
    ((col.Float round = .ok .NullValue ↔
        (col = .NullColumn ∨ col = .StringColumn "" ∨ col = .StringsColumn [])) ∧
      (¬ (col = .NullColumn ∨ col = .StringColumn "" ∨ col = .StringsColumn []) →
        (∃ v, col.Float round = .ok v ∧ v ≠ .NullValue) ∨
          ∃ e, col.Float round = .error e)) := by
  cases col with
  | NullColumn => simp [Column.Bool, Column.Int, Column.Float]
  | StringColumn s =>
    by_cases h0 : s.length = 0
    · have hs : s = "" := (length_eq_zero_iff_empty s).1 h0
      subst hs
      simp [Column.Bool, Column.Int, Column.Float]
    · have hs : s ≠ "" := fun h => h0 ((length_eq_zero_iff_empty s).2 h)
      refine ⟨?_, ?_, ?_⟩
      · simp only [Column.Bool, h0, if_false]
        split_ifs <;> simp [hs]
      · simp only [Column.Int, h0, if_false]
        cases ParseInt s <;> simp [hs]
      · simp only [Column.Float, h0, if_false]
        cases ParseFloat s <;> simp [hs]
  | StringsColumn l =>
    cases l with
    | nil => simp [Column.Bool, Column.Int, Column.Float]
    | cons x xs => simp [Column.Bool, Column.Int, Column.Float]

/-- C20 (examples): the empty cell is `Null` for all three accessors; the cell
"12" is the `Int` 12, and as a `Bool` it is an error; a `StringsColumn` with an
element is an error. -/
theorem Column_accessor_examples :
    (Column.StringColumn "").Bool = .ok .NullValue ∧
      (Column.StringColumn "").Int = .ok .NullValue ∧
      (Column.StringColumn "12").Int = .ok (.IntValue 12) ∧
      (Column.StringColumn "12").Bool = .error (.message "string value '12' used as bool") ∧
      (Column.StringsColumn ["a"]).Int = .error (.message "string array used as int") ∧
      ((Column.StringColumn "12").Int = .ok .NullValue ↔
        (Column.StringColumn "12" = .NullColumn ∨
          Column.StringColumn "12" = .StringColumn "" ∨
          Column.StringColumn "12" = .StringsColumn [])) :=
  ⟨by rfl, by rfl, by rfl, by rfl, by rfl,
    (Column_accessor_null_iff (fun _ => 0) (.StringColumn "12")).2.1.1⟩

/-! ## Coercions, sizes and reference names -/

/-- C21: `StringColumn.Bool` fails exactly when the string is not empty and is
neither "true" nor "false", and returns the boolean otherwise;
`StringColumn.Int` and `StringColumn.Float` fail exactly when the string is not
empty and `ParseInt`, respectively `ParseFloat`, does not parse it, and return
the parsed value when it does; `StringsColumn.Bool`, `Int` and `Float` fail for
every array with at least one element. -/
theorem Column_coercion_failure (round : FloatVal → Float) (s : String) (l : List String) :
    (((∃ e, (Column.StringColumn s).Bool = .error e) ↔
        (s ≠ "" ∧ s ≠ "true" ∧ s ≠ "false")) ∧
      (s = "true" → (Column.StringColumn s).Bool = .ok (.BoolValue true)) ∧
      (s = "false" → (Column.StringColumn s).Bool = .ok (.BoolValue false))) ∧
    (((∃ e, (Column.StringColumn s).Int = .error e) ↔ (s ≠ "" ∧ ParseInt s = none)) ∧
      (∀ v, ParseInt s = some v → (Column.StringColumn s).Int = .ok (.IntValue v))) ∧
    (((∃ e, (Column.StringColumn s).Float round = .error e) ↔
        (s ≠ "" ∧ ParseFloat s = none)) ∧
      (∀ v, ParseFloat s = some v →
        (Column.StringColumn s).Float round = .ok (.FloatValue (round v)))) ∧
    (l ≠ [] →
      (∃ e, (Column.StringsColumn l).Bool = .error e) ∧
      (∃ e, (Column.StringsColumn l).Int = .error e) ∧
      (∃ e, (Column.StringsColumn l).Float round = .error e)) := by
  have hpi : ParseInt "" = none := by decide
  have hpf : ParseFloat "" = none := by decide
  refine ⟨?_, ?_, ?_, ?_⟩
  · by_cases h0 : s.length = 0
    · have hs : s = "" := (length_eq_zero_iff_empty s).1 h0
      subst hs
      simp [Column.Bool]
    · have hs : s ≠ "" := fun h => h0 ((length_eq_zero_iff_empty s).2 h)
      simp only [Column.Bool, h0, if_false, Lit.True, Lit.False]
      refine ⟨?_, ?_, ?_⟩
      · split_ifs <;> simp_all
      · intro h; simp [h]
      · intro h; simp [h]
  · by_cases h0 : s.length = 0
    · have hs : s = "" := (length_eq_zero_iff_empty s).1 h0
      subst hs
      simp [Column.Int, hpi]
    · have hs : s ≠ "" := fun h => h0 ((length_eq_zero_iff_empty s).2 h)
      simp only [Column.Int, h0, if_false]
      cases ParseInt s <;> simp [hs]
  · by_cases h0 : s.length = 0
    · have hs : s = "" := (length_eq_zero_iff_empty s).1 h0
      subst hs
      simp [Column.Float, hpf]
    · have hs : s ≠ "" := fun h => h0 ((length_eq_zero_iff_empty s).2 h)
      simp only [Column.Float, h0, if_false]
      cases ParseFloat s <;> simp [hs]
  · intro hl
    cases l with
    | nil => exact absurd rfl hl
    | cons x xs => simp [Column.Bool, Column.Int, Column.Float]

/-- C21 (examples): the cell "yes" is an error as a `Bool`, the cell "1.5" an
error as an `Int`, the cell "12" the `Int` 12 and the cell "true" the `Bool`
`true`; an array of two elements is an error. -/
theorem Column_coercion_examples :
    (Column.StringColumn "yes").Bool = .error (.message "string value 'yes' used as bool") ∧
      (Column.StringColumn "1.5").Int = .error (.numError "ParseInt" "1.5") ∧
      (Column.StringColumn "12").Int = .ok (.IntValue 12) ∧
      (Column.StringColumn "true").Bool = .ok (.BoolValue true) ∧
      (Column.StringsColumn ["a", "b"]).Bool = .error (.message "string array used as bool") ∧
      ((∃ e, (Column.StringColumn "1.5").Int = .error e) ↔
        ("1.5" ≠ "" ∧ ParseInt "1.5" = none)) :=
  ⟨by rfl, by rfl, by rfl, by rfl, by rfl,
    (Column_coercion_failure (fun _ => 0) "1.5" []).2.1.1⟩

/-- C22 (the failing input): `StringColumn("Å")` has `Count` 1, and its `Size` is
2, the number of bytes of the string, while the string has one character. -/
theorem StringColumn_size_bytes :
    (Column.StringColumn "Å").Count = 1 ∧
      (Column.StringColumn "Å").Size = 2 ∧
      "Å".length = 1 ∧
      (Column.StringColumn "Å").Size ≠ "Å".length ∧
      ∀ s : String, (Column.StringColumn s).Count = 1 ∧
        (Column.StringColumn s).Size = s.utf8ByteSize := by
  refine ⟨rfl, by decide, by decide, by decide, fun s => ⟨rfl, rfl⟩⟩

/-! ## The table of built-ins -/

/-- C24 (counterexample): "avg" and "Left" equal the registered names "AVG" and
"LEFT" up to letter case, and `builtIn` returns `nil` for both, while it finds
"AVG" and "LEFT". -/
theorem builtIn_lower_case_nil :
    builtIn "avg" = none ∧ builtIn "Left" = none ∧
      "avg".toList.map Char.toUpper = "AVG".toList ∧
      "Left".toList.map Char.toUpper = "LEFT".toList ∧
      builtIn "AVG" ≠ none ∧ builtIn "LEFT" ≠ none := by
  refine ⟨by decide, by decide, by decide, by decide, by decide, by decide⟩

/-- C24 (amended): every name in the `builtIns` table consists of upper-case
letters; for every registered function `F`, `builtIn` returns `F` for the string
`F.Name` itself; for every string that is not the name of a registered function,
`builtIn` returns `nil`, so that a value `builtIn` returns carries exactly the
name asked for. -/
theorem builtIn_exact_lookup :
    (∀ f ∈ builtIns, ∀ c ∈ f.Name.toList, 'A' ≤ c ∧ c ≤ 'Z') ∧
    (∀ f ∈ builtIns, builtIn f.Name = some f) ∧
    (∀ name : String, (∀ f ∈ builtIns, f.Name ≠ name) → builtIn name = none) ∧
    (∀ (name : String) (f : Function), builtIn name = some f → f ∈ builtIns ∧ f.Name = name) := by
  have key : ∀ name : String, (∀ f ∈ builtIns, f.Name ≠ name) → builtIn name = none := by
    intro name h
    simp only [builtIns, List.mem_cons, List.mem_singleton, List.not_mem_nil, or_false,
      forall_eq_or_imp, forall_eq] at h
    obtain ⟨h1, h2, h3, h4, h5, h6, h7⟩ := h
    simp only [builtIn, builtInsByName, builtIns, List.foldl]
    rw [if_neg (Ne.symm h7), if_neg (Ne.symm h6), if_neg (Ne.symm h5), if_neg (Ne.symm h4),
      if_neg (Ne.symm h3), if_neg (Ne.symm h2), if_neg (Ne.symm h1)]
  refine ⟨by decide, by decide, key, ?_⟩
  intro name f h
  by_cases hn : ∀ g ∈ builtIns, g.Name ≠ name
  · rw [key name hn] at h
    exact absurd h (by simp)
  · push_neg at hn
    obtain ⟨g, hg, e⟩ := hn
    have hall : ∀ g ∈ builtIns, builtIn g.Name = some g := by decide
    subst e
    rw [hall g hg] at h
    cases h
    exact ⟨hg, rfl⟩

/-! ## Aggregates: the empty group and the order of `MIN`, `AVG` and `MAX` -/

/-- C26: on a row group on which the argument evaluates to `Null` on every row,
the empty group included, `MAX`, `MIN` and `SUM` each return the `Int` value 0,
`COUNT` returns the `Int` value 0 and `AVG` returns `Null`. -/
theorem aggregates_all_null {ρ : Type} (eval : ρ → Except Error Value) (rows : List ρ)
    (h : ∀ r ∈ rows, eval r = .ok .NullValue) :
    builtInMax eval rows = .ok (.IntValue 0) ∧
      builtInMin eval rows = .ok (.IntValue 0) ∧
      builtInSum eval rows = .ok (.IntValue 0) ∧
      builtInCount eval rows = .ok (.IntValue 0) ∧
      builtInAvg eval rows = .ok .NullValue := by
  have hg : intGroup eval rows := fun r hr => Or.inl (h r hr)
  have hi : intValues eval rows = [] := by
    unfold intValues
    rw [List.filterMap_eq_nil_iff]
    intro r hr
    simp [h r hr]
  have hn : nonNullRows eval rows = [] := by
    unfold nonNullRows
    rw [List.filter_eq_nil_iff]
    intro r hr
    simp [h r hr]
  refine ⟨builtInMax_of_no_int eval rows hg hi, builtInMin_of_no_int eval rows hg hi, ?_, ?_, ?_⟩
  · rw [builtInSum_of_intGroup eval rows hg, hi]
    simp [wrapInt64]
  · rw [builtInCount_of_ok eval rows (fun r hr => ⟨_, h r hr⟩), hn]
    rfl
  · rw [builtInAvg_of_intGroup eval rows hg, hi]
    rfl

/-- C26 (witness): the empty group, and a group of two rows on which the
argument is `Null`. -/
theorem aggregates_all_null_witness :
    (builtInMax evalYear [] = .ok (.IntValue 0) ∧
      builtInMin evalYear [] = .ok (.IntValue 0) ∧
      builtInSum evalYear [] = .ok (.IntValue 0) ∧
      builtInCount evalYear [] = .ok (.IntValue 0) ∧
      builtInAvg evalYear [] = .ok .NullValue) ∧
    ((∀ r ∈ [Value.NullValue, Value.NullValue],
        (fun v : Value => (Except.ok v : Except Error Value)) r = .ok .NullValue) ∧
      builtInMax (fun v : Value => Except.ok v) [.NullValue, .NullValue] = .ok (.IntValue 0) ∧
      builtInMin (fun v : Value => Except.ok v) [.NullValue, .NullValue] = .ok (.IntValue 0) ∧
      builtInSum (fun v : Value => Except.ok v) [.NullValue, .NullValue] = .ok (.IntValue 0) ∧
      builtInCount (fun v : Value => Except.ok v) [.NullValue, .NullValue] = .ok (.IntValue 0) ∧
      builtInAvg (fun v : Value => Except.ok v) [.NullValue, .NullValue] = .ok .NullValue) := by
  have hn : ∀ r ∈ [Value.NullValue, Value.NullValue],
      (fun v : Value => (Except.ok v : Except Error Value)) r = .ok .NullValue := by
    intro r hr
    simp only [List.mem_cons, List.mem_singleton, List.not_mem_nil, or_false, or_self] at hr
    rw [hr]
  exact ⟨aggregates_all_null evalYear [] (fun r hr => absurd hr (List.not_mem_nil r)),
    hn, aggregates_all_null _ _ hn⟩

/-- The name `a.b` splits into `a` and `b` when neither holds the separator. -/
theorem Split_append_sep (sep : Char) (a b : List Char) (ha : sep ∉ a) (hb : sep ∉ b) :
    Split sep (a ++ sep :: b) = [a, b] := by
  induction a with
  | nil => simp [Split, Split_of_not_mem sep b hb]
  | cons c cs ih =>
    have hc : c ≠ sep := fun e => ha (by simp [e])
    have hcs : sep ∉ cs := fun e => ha (List.mem_cons_of_mem _ e)
    simp [Split, hc, ih hcs]

theorem Reference_String_toList (ref : Reference) :
    ref.String.toList =
      if ref.Source.length > 0 then ref.Source.toList ++ '.' :: ref.Column.toList
      else ref.Column.toList := by
  obtain ⟨⟨s⟩, ⟨c⟩⟩ := ref
  unfold Reference.String
  split <;> simp [String.toList]

/-- C27: for every name with at most one dot `NewReference` succeeds, and the
`String()` of the reference it returns equals the name if and only if the name
does not begin with a dot; for every `Reference` whose `Source` and `Column`
contain no dot, `NewReference(ref.String())` succeeds and returns `ref`. -/
theorem NewReference_String_round_trip :
    (∀ name : String, name.toList.count '.' ≤ 1 →
      ∃ ref, NewReference name = .ok ref ∧
        (ref.String = name ↔ name.toList.head? ≠ some '.')) ∧
    (∀ ref : Reference, '.' ∉ ref.Source.toList → '.' ∉ ref.Column.toList →
      NewReference ref.String = .ok ref) := by
  constructor
  · intro name h
    obtain ⟨l⟩ := name
    simp only [String.toList] at h ⊢
    rcases Nat.lt_or_ge (l.count '.') 1 with h0 | h1
    · have hl : '.' ∉ l := List.count_eq_zero.1 (by omega)
      refine ⟨⟨"", String.mk l⟩, ?_, ?_⟩
      · simp only [NewReference, String.toList, Split_of_not_mem '.' l hl]
      · have e : (Reference.mk "" (String.mk l)).String = String.mk l := by
          simp [Reference.String]
        rw [e]
        refine ⟨fun _ hd => ?_, fun _ => rfl⟩
        cases l with
        | nil => simp at hd
        | cons c cs =>
          simp only [List.head?_cons, Option.some.injEq] at hd
          exact hl (by simp [hd])
    · obtain ⟨a, b, e, ha, hb, hs⟩ := Split_of_count_one '.' l (by omega)
      refine ⟨⟨String.mk a, String.mk b⟩, ?_, ?_⟩
      · simp only [NewReference, String.toList, hs]
      · cases a with
        | nil =>
          have e1 : (Reference.mk (String.mk []) (String.mk b)).String = String.mk b := by
            simp [Reference.String]
          rw [e1, e]
          simp only [List.nil_append, List.head?_cons, ne_eq, not_true_eq_false, iff_false]
          intro hb2
          have := congrArg (fun s : String => s.data.length) hb2
          simp at this
        | cons c cs =>
          have hc : c ≠ '.' := fun e2 => ha (by simp [e2])
          have e1 : (Reference.mk (String.mk (c :: cs)) (String.mk b)).String =
              String.mk (c :: cs ++ '.' :: b) := by
            apply String.ext
            simp [Reference.String, String.length]
          rw [e1, e]
          simp [hc]
  · intro ref hs hc
    have hl := Reference_String_toList ref
    obtain ⟨⟨s⟩, ⟨c⟩⟩ := ref
    simp only [String.toList] at hs hc hl
    unfold NewReference
    simp only [String.toList]
    rw [hl]
    by_cases h0 : (String.mk s).length > 0
    · rw [if_pos h0, Split_append_sep '.' s c hs hc]
    · rw [if_neg h0, Split_of_not_mem '.' c hc]
      have : s = [] := by
        simp only [String.length, gt_iff_lt, List.length_pos, ne_eq, not_not] at h0
        exact h0
      subst this
      rfl

/-- C27 (examples): "Portfolio.Name" and "Name" print as they were written; the
name ".col" parses to an empty `Source` and prints as "col"; the reference with
`Source` "t" and `Column` "c" prints as "t.c", which parses to it again. -/
theorem NewReference_String_examples :
    (NewReference "Portfolio.Name").map Reference.String = .ok "Portfolio.Name" ∧
      (NewReference "Name").map Reference.String = .ok "Name" ∧
      NewReference ".col" = .ok ⟨"", "col"⟩ ∧
      (Reference.mk "" "col").String = "col" ∧
      (Reference.mk "t" "c").String = "t.c" ∧
      NewReference "t.c" = .ok ⟨"t", "c"⟩ ∧
      (Reference.mk "t" "c").IsAbsolute = true ∧
      (Reference.mk "" "col").IsAbsolute = false ∧
      (∃ ref, NewReference ".col" = .ok ref ∧
        (ref.String = ".col" ↔ ".col".toList.head? ≠ some '.')) ∧
      NewReference (Reference.mk "t" "c").String = .ok ⟨"t", "c"⟩ :=
  ⟨by rfl, by rfl, by rfl, by decide, by decide, by rfl, by decide, by decide,
    NewReference_String_round_trip.1 ".col" (by decide),
    NewReference_String_round_trip.2 ⟨"t", "c"⟩ (by decide) (by decide)⟩

/-- A sum of integers lies between the length times a lower bound and the length
times an upper bound of its terms. -/
theorem sum_bounds (l : List Int) (lo hi : Int) (h1 : ∀ y ∈ l, lo ≤ y) (h2 : ∀ y ∈ l, y ≤ hi) :
    (l.length : Int) * lo ≤ l.sum ∧ l.sum ≤ (l.length : Int) * hi := by
  induction l with
  | nil => simp
  | cons x xs ih =>
    have hx1 := h1 x (List.mem_cons_self _ _)
    have hx2 := h2 x (List.mem_cons_self _ _)
    obtain ⟨i1, i2⟩ := ih (fun y hy => h1 y (List.mem_cons_of_mem _ hy))
      (fun y hy => h2 y (List.mem_cons_of_mem _ hy))
    simp only [List.length_cons, List.sum_cons, Nat.cast_add, Nat.cast_one]
    constructor <;> nlinarith

/-- Floor division by a positive number keeps a quotient between the bounds of
the average. -/
theorem ediv_bounds (s n lo hi : Int) (hn : 0 < n) (h1 : n * lo ≤ s) (h2 : s ≤ n * hi) :
    lo ≤ s / n ∧ s / n ≤ hi := by
  constructor
  · rw [Int.le_ediv_iff_mul_le hn]
    linarith [Int.mul_comm n lo]
  · apply Int.ediv_le_of_le_mul hn
    linarith [Int.mul_comm n hi]

/-- Go's integer division, which truncates toward zero, keeps the quotient
between the bounds of the average, also for a negative sum. -/
theorem tdiv_bounds (s n lo hi : Int) (hn : 0 < n) (h1 : n * lo ≤ s) (h2 : s ≤ n * hi) :
    lo ≤ Int.tdiv s n ∧ Int.tdiv s n ≤ hi := by
  rcases lt_or_le s 0 with hs | hs
  · have e : Int.tdiv s n = -((-s) / n) := by
      have := Int.neg_tdiv (-s) n
      rw [Int.neg_neg] at this
      rw [this, Int.tdiv_eq_ediv (by omega) (by omega)]
    obtain ⟨b1, b2⟩ := ediv_bounds (-s) n (-hi) (-lo) hn (by linarith) (by linarith)
    rw [e]
    constructor <;> linarith
  · rw [Int.tdiv_eq_ediv hs (by omega)]
    exact ediv_bounds s n lo hi hn h1 h2

/-- C25: on a row group whose non-null argument values are all `Int`, with at
least one of them, and whose sum is in the range of int64, `MIN`, `AVG` and
`MAX` each return an `Int`, `AVG` the sum divided by the number of values with
the quotient truncated toward zero, and `MIN <= AVG <= MAX`. -/
theorem builtInMin_le_builtInAvg_le_builtInMax {ρ : Type} (eval : ρ → Except Error Value)
    (rows : List ρ) (h : intGroup eval rows) (hne : intValues eval rows ≠ [])
    (hlo : -2 ^ 63 ≤ (intValues eval rows).sum) (hhi : (intValues eval rows).sum < 2 ^ 63) :
    ∃ lo av hi : Int,
      builtInMin eval rows = .ok (.IntValue lo) ∧
      builtInAvg eval rows = .ok (.IntValue av) ∧
      builtInMax eval rows = .ok (.IntValue hi) ∧
      av = Int.tdiv (intValues eval rows).sum ((intValues eval rows).length : Int) ∧
      lo ≤ av ∧ av ≤ hi := by
  obtain ⟨lo, elo, _, hlo2⟩ := builtInMin_intGroup eval rows h hne
  obtain ⟨hi, ehi, _, hhi2⟩ := builtInMax_intGroup eval rows h hne
  have hlen : (intValues eval rows).length ≠ 0 := fun e =>
    hne (List.eq_nil_of_length_eq_zero e)
  have hn : (0 : Int) < ((intValues eval rows).length : Int) := by omega
  obtain ⟨s1, s2⟩ := sum_bounds (intValues eval rows) lo hi hlo2 hhi2
  obtain ⟨b1, b2⟩ := tdiv_bounds _ _ lo hi hn s1 s2
  refine ⟨lo, _, hi, elo, ?_, ehi, rfl, b1, b2⟩
  rw [builtInAvg_of_intGroup eval rows h, if_neg hlen, wrapInt64_of_inRange hlo hhi]

/-- C25 (witness): over the values -3 and -4 the sum is -7, `AVG` is -3 (the
quotient -3.5 truncated toward zero), `MIN` is -4 and `MAX` is -3. -/
theorem builtInMin_le_builtInAvg_le_builtInMax_witness :
    intGroup evalYear [-3, -4] ∧ intValues evalYear [-3, -4] = [-3, -4] ∧
      builtInAvg evalYear [-3, -4] = .ok (.IntValue (-3)) ∧
      ∃ lo av hi : Int,
        builtInMin evalYear [-3, -4] = .ok (.IntValue lo) ∧
        builtInAvg evalYear [-3, -4] = .ok (.IntValue av) ∧
        builtInMax evalYear [-3, -4] = .ok (.IntValue hi) ∧
        av = Int.tdiv (intValues evalYear [-3, -4]).sum
          ((intValues evalYear [-3, -4]).length : Int) ∧
        lo ≤ av ∧ av ≤ hi := by
  have hg : intGroup evalYear [-3, -4] := fun r _ => Or.inr ⟨r, rfl⟩
  have hi : intValues evalYear [-3, -4] = [-3, -4] := by simp [intValues, evalYear]
  refine ⟨hg, hi, ?_, builtInMin_le_builtInAvg_le_builtInMax evalYear [-3, -4] hg
    (by rw [hi]; simp) (by rw [hi]; decide) (by rw [hi]; decide)⟩
  rw [builtInAvg_of_intGroup evalYear _ hg, hi]
  simp [wrapInt64]
  decide

/-! ## `openInput` on data URIs -/

theorem IndexByte_of_not_mem (s : GoString) (c : UInt8) (h : c ∉ s) : IndexByte s c = -1 := by
  induction s with
  | nil => rfl
  | cons b bs ih =>
    have hb : b ≠ c := fun e => h (by simp [e])
    have hbs : c ∉ bs := fun e => h (List.mem_cons_of_mem _ e)
    simp [IndexByte, hb, ih hbs]

theorem IndexByte_cons (b : UInt8) (bs : GoString) (c : UInt8) :
    IndexByte (b :: bs) c =
      if b = c then 0 else if IndexByte bs c < 0 then -1 else IndexByte bs c + 1 := rfl

theorem IndexByte_append (head tail : GoString) (c : UInt8) (h : c ∉ head) :
    IndexByte (head ++ c :: tail) c = (head.length : Int) := by
  induction head with
  | nil => simp [IndexByte]
  | cons b bs ih =>
    have hb : b ≠ c := fun e => h (by simp [e])
    have hbs : c ∉ bs := fun e => h (List.mem_cons_of_mem _ e)
    have hnn : ¬ ((bs.length : Int) < 0) := by omega
    rw [List.cons_append, IndexByte_cons, if_neg hb, ih hbs, if_neg hnn]
    simp

theorem slice_of_append (a b c : GoString) (lo hi : Int) (hlo : lo = (a.length : Int))
    (hhi : hi = (a.length : Int) + (b.length : Int)) : slice (a ++ b ++ c) lo hi = some b := by
  subst hlo hhi
  have e1 : ((a.length : Int) + (b.length : Int)).toNat = (a ++ b).length := by
    rw [List.length_append]
    omega
  have e2 : ((a.length : Int)).toNat = a.length := by omega
  unfold slice
  rw [if_pos (by simp only [List.length_append, Nat.cast_add]; omega), e1, e2,
    List.take_left' rfl, List.drop_left' rfl]

/-- The scheme that `getSchemeLoop` finds, when it is not empty, is the text
before a colon of the input. -/
theorem getSchemeLoop_spec (rawURL : GoString) (rest pre s : GoString) (i : Nat)
    (hraw : rawURL = pre ++ rest) (hi : pre.length = i)
    (h : getSchemeLoop rawURL rest i = .ok s) (hs : s ≠ []) :
    ∃ mid tail, rest = mid ++ 58 :: tail ∧ s = pre ++ mid := by
  induction rest generalizing pre i with
  | nil =>
    simp only [getSchemeLoop, Except.ok.injEq] at h
    exact absurd h.symm hs
  | cons c cs ih =>
    have step : getSchemeLoop rawURL cs (i + 1) = .ok s →
        ∃ mid tail, c :: cs = mid ++ 58 :: tail ∧ s = pre ++ mid := by
      intro h2
      obtain ⟨mid, tail, e1, e2⟩ := ih (pre ++ [c]) (i + 1) (by simp [hraw]) (by simp [hi]) h2
      exact ⟨c :: mid, tail, by simp [e1], by simp [e2]⟩
    simp only [getSchemeLoop] at h
    split_ifs at h with h1 h2 h3 h4 h5
    · exact step h
    · simp only [Except.ok.injEq] at h
      exact absurd h.symm hs
    · exact step h
    · simp only [Except.ok.injEq] at h
      refine ⟨[], cs, by simp [h4], ?_⟩
      rw [← h, hraw, List.take_left' hi]
      simp
    · simp only [Except.ok.injEq] at h
      exact absurd h.symm hs

theorem getScheme_spec (rawURL s : GoString) (h : getScheme rawURL = .ok s) (hs : s ≠ []) :
    ∃ tail, rawURL = s ++ 58 :: tail := by
  obtain ⟨mid, tail, e1, e2⟩ := getSchemeLoop_spec rawURL rawURL [] s 0 rfl rfl h hs
  exact ⟨tail, by rw [e1, e2]; rfl⟩

theorem ToLower_not_mem (s : GoString) (c : UInt8) (hc : ¬ (65 ≤ c ∧ c ≤ 90))
    (h : c ∉ ToLower s) : c ∉ s := by
  intro hm
  apply h
  unfold ToLower
  rw [List.mem_map]
  exact ⟨c, hm, by rw [if_neg hc]⟩

/-- An input whose URL has the scheme `data` starts with the four letters of the
scheme, in either case, and a colon; no comma stands in these five bytes. -/
theorem urlParse_data {Stream Resolver : Type} (env : OpenEnv Stream Resolver)
    (input : GoString) (u : URL) (hparse : urlParse env input = .ok u)
    (hscheme : u.Scheme = goString "data") :
    ∃ scheme rest, input = scheme ++ 58 :: rest ∧ ToLower scheme = goString "data" ∧
      scheme.length = 4 ∧ (44 : UInt8) ∉ scheme := by
  unfold urlParse at hparse
  cases hg : getScheme (cutFragment input) with
  | error e =>
    rw [hg] at hparse
    exact absurd hparse (by simp)
  | ok s =>
    rw [hg] at hparse
    cases hp : env.parsePath input with
    | error e =>
      rw [hp] at hparse
      exact absurd hparse (by simp)
    | ok path =>
      rw [hp] at hparse
      simp only [Except.ok.injEq] at hparse
      have hl : ToLower s = goString "data" := by
        rw [← hscheme, ← hparse]
      have hlen : s.length = 4 := by
        have := congrArg List.length hl
        simpa [ToLower] using this
      have hs : s ≠ [] := fun e => by simp [e] at hlen
      obtain ⟨tail, ht⟩ := getScheme_spec _ s hg hs
      obtain ⟨frag, hfrag⟩ : ∃ frag, input = cutFragment input ++ frag :=
        ⟨_, (List.takeWhile_append_dropWhile _ _).symm⟩
      refine ⟨s, tail ++ frag, ?_, hl, hlen, ?_⟩
      · rw [ht] at hfrag
        rw [hfrag]
        simp
      · apply ToLower_not_mem s 44 (by decide)
        rw [hl]
        decide

theorem slice_eq (s a b c : GoString) (lo hi : Int) (hs : s = a ++ b ++ c)
    (hlo : lo = (a.length : Int)) (hhi : hi = (a.length : Int) + (b.length : Int)) :
    slice s lo hi = some b := by
  rw [hs]
  exact slice_of_append a b c lo hi hlo hhi

/-- The data branch of `openInput` on an input made of five bytes, a part
without a comma, a comma and a payload. -/
theorem openData_spec {Stream Resolver : Type} (env : OpenEnv Stream Resolver)
    (resolver : Resolver) (pre part payload mediaType encoding : GoString)
    (hpre : pre.length = 5) (h44 : (44 : UInt8) ∉ pre ++ part)
    (hsplit : ((59 : UInt8) ∉ part ∧ mediaType = part ∧ encoding = []) ∨
      (part = mediaType ++ 59 :: encoding ∧ (59 : UInt8) ∉ mediaType)) :
    openData env resolver (pre ++ part ++ 44 :: payload) =
      if encoding = goString "base64" then
        match env.DecodeString payload with
        | .error e => .returned none 0 (some e)
        | .ok decoded =>
          .returned (some (.memory decoded))
            (env.Format (env.ResolveMediaType resolver mediaType)).1
            (env.Format (env.ResolveMediaType resolver mediaType)).2
      else if encoding = [] then
        .returned (some (.memory payload))
          (env.Format (env.ResolveMediaType resolver mediaType)).1
          (env.Format (env.ResolveMediaType resolver mediaType)).2
      else .returned none 0 (some (.errorf "unknown data URI encoding: %s" encoding)) := by
  have hidx : IndexByte (pre ++ part ++ 44 :: payload) 44 = ((pre ++ part).length : Int) :=
    IndexByte_append _ _ _ h44
  have hnn : ¬ (((pre ++ part).length : Int) < 0) := by omega
  have hdata : slice (pre ++ part ++ 44 :: payload) (((pre ++ part).length : Int) + 1)
      ((pre ++ part ++ 44 :: payload).length : Int) = some payload :=
    slice_eq _ (pre ++ part ++ [44]) payload [] _ _ (by simp)
      (by simp only [List.length_append, List.length_cons, List.length_nil, Nat.cast_add,
        Nat.cast_one, Nat.cast_zero]; omega)
      (by simp only [List.length_append, List.length_cons, List.length_nil, Nat.cast_add,
        Nat.cast_one, Nat.cast_zero]; omega)
  have hct : slice (pre ++ part ++ 44 :: payload) 5 ((pre ++ part).length : Int) = some part :=
    slice_eq _ pre part (44 :: payload) _ _ (by simp) (by simp [hpre])
      (by simp [hpre])
  unfold openData
  simp only [hidx, hnn, if_false, hdata, hct]
  rcases hsplit with ⟨h59, hm, he⟩ | ⟨hp, h59⟩
  · subst hm he
    have hi2 : IndexByte mediaType 59 = -1 := IndexByte_of_not_mem _ _ h59
    have hb : ¬ (([] : GoString) = goString "base64") := by decide
    simp [hi2, hb]
  · subst hp
    have hi2 : IndexByte (mediaType ++ 59 :: encoding) 59 = (mediaType.length : Int) :=
      IndexByte_append _ _ _ h59
    have hge : ((mediaType.length : Int) ≥ 0) := by omega
    have henc : slice (mediaType ++ 59 :: encoding) ((mediaType.length : Int) + 1)
        ((mediaType ++ 59 :: encoding).length : Int) = some encoding :=
      slice_eq _ (mediaType ++ [59]) encoding [] _ _ (by simp)
        (by simp only [List.length_append, List.length_cons, List.length_nil, Nat.cast_add,
          Nat.cast_one, Nat.cast_zero]; omega)
        (by simp only [List.length_append, List.length_cons, List.length_nil, Nat.cast_add,
          Nat.cast_one, Nat.cast_zero]; omega)
    have hmt : slice (mediaType ++ 59 :: encoding) 0 (mediaType.length : Int) =
        some mediaType :=
      slice_eq _ [] mediaType (59 :: encoding) _ _ (by simp) (by simp) (by simp)
    simp only [hi2, hge, if_true, henc, hmt]

/-- C23: for every input that `openInput` treats as a data URI (`url.Parse`
succeeds and the scheme is `data`): without a comma the open fails as malformed;
otherwise, with the payload the text after the first comma, the part before
that comma is the scheme, a colon and a part that is the media type, or the
media type, the first semicolon and the encoding; the open fails when the
encoding is neither empty nor "base64"; with the empty encoding the reader
returned holds exactly the payload bytes, and with "base64" what
`DecodeString` makes of the payload; the media type is what the resolver
receives. -/
theorem openInput_data_uri {Stream Resolver : Type} (env : OpenEnv Stream Resolver)
    (input : GoString) (u : URL) (hparse : urlParse env input = .ok u)
    (hscheme : u.Scheme = goString "data") :
    ((44 : UInt8) ∉ input →
      openInput env input =
        .returned none 0 (some (.errorf "malformed data URI: %s" input))) ∧
    (∀ head payload : GoString, input = head ++ 44 :: payload → (44 : UInt8) ∉ head →
      ∃ scheme part : GoString, head = scheme ++ 58 :: part ∧
        ToLower scheme = goString "data" ∧
        ∀ mediaType encoding : GoString,
          (((59 : UInt8) ∉ part ∧ mediaType = part ∧ encoding = []) ∨
            (part = mediaType ++ 59 :: encoding ∧ (59 : UInt8) ∉ mediaType)) →
          (encoding ≠ [] → encoding ≠ goString "base64" →
            openInput env input =
              .returned none 0 (some (.errorf "unknown data URI encoding: %s" encoding))) ∧
          (encoding = [] →
            openInput env input =
              .returned (some (.memory payload))
                (env.Format (env.ResolveMediaType
                  (env.ResolvePath env.resolver u.Path) mediaType)).1
                (env.Format (env.ResolveMediaType
                  (env.ResolvePath env.resolver u.Path) mediaType)).2) ∧
          (encoding = goString "base64" →
            openInput env input =
              match env.DecodeString payload with
              | .error e => .returned none 0 (some e)
              | .ok decoded =>
                .returned (some (.memory decoded))
                  (env.Format (env.ResolveMediaType
                    (env.ResolvePath env.resolver u.Path) mediaType)).1
                  (env.Format (env.ResolveMediaType
                    (env.ResolvePath env.resolver u.Path) mediaType)).2)) := by
  have h2 : ¬ (goString "data" = goString "http" ∨ goString "data" = goString "https") := by
    decide
  have hopen : openInput env input =
      openData env (env.ResolvePath env.resolver u.Path) input := by
    unfold openInput
    simp only [hparse, hscheme, h2, if_false, if_true]
  obtain ⟨scheme, rest, hin, hlow, hlen, hno⟩ := urlParse_data env input u hparse hscheme
  constructor
  · intro hc
    rw [hopen]
    unfold openData
    simp [IndexByte_of_not_mem input 44 hc]
  · intro head payload hhead hc
    have hpart : ∃ part, head = scheme ++ 58 :: part := by
      have e : (scheme ++ [58]) ++ rest = head ++ 44 :: payload := by
        rw [← hhead, hin]
        simp
      rcases List.append_eq_append_iff.1 e with ⟨a, ha, _⟩ | ⟨c, hc2, hc3⟩
      · exact ⟨a, by rw [ha]; simp⟩
      · cases c with
        | nil => exact ⟨[], by simp at hc2; simp [hc2]⟩
        | cons x xs =>
          exfalso
          simp only [List.cons_append, List.cons.injEq] at hc3
          have hx : (44 : UInt8) ∈ scheme ++ [58] := by
            rw [hc2, ← hc3.1]
            simp
          simp only [List.mem_append, List.mem_singleton] at hx
          rcases hx with hx | hx
          · exact hno hx
          · exact absurd hx (by decide)
    obtain ⟨part, hp⟩ := hpart
    refine ⟨scheme, part, hp, hlow, ?_⟩
    intro mediaType encoding hsplit
    have hspec := openData_spec env (env.ResolvePath env.resolver u.Path) (scheme ++ [58]) part
      payload mediaType encoding (by simp [hlen])
      (by
        have : scheme ++ [58] ++ part = head := by rw [hp]; simp
        rw [this]
        exact hc) hsplit
    have hin2 : input = scheme ++ [58] ++ part ++ 44 :: payload := by
      rw [hhead, hp]
      simp
    rw [hopen, hin2, hspec]
    refine ⟨fun he hb => ?_, fun he => ?_, fun hb => ?_⟩
    · rw [if_neg hb, if_neg he]
    · have hb : ¬ (encoding = goString "base64") := by
        rw [he]
        decide
      rw [if_neg hb, if_pos he]
    · rw [if_pos hb]

/-- C23 (witness): `data:text/csv,a,b` is opened as the three bytes `a,b`, the
text after the first comma, with the format of the media type `text/csv`;
`data:text/csv`, without a comma, is malformed. -/
theorem openInput_data_uri_witness :
    urlParse sampleEnv (goString "data:text/csv,a,b") = .ok ⟨goString "data", []⟩ ∧
      openInput sampleEnv (goString "data:text/csv,a,b") =
        .returned (some (.memory (goString "a,b"))) 1 none ∧
      urlParse sampleEnv (goString "data:text/csv") = .ok ⟨goString "data", []⟩ ∧
      openInput sampleEnv (goString "data:text/csv") =
        .returned none 0 (some (.errorf "malformed data URI: %s" (goString "data:text/csv"))) := by
  have p1 : urlParse sampleEnv (goString "data:text/csv,a,b") = .ok ⟨goString "data", []⟩ := by
    rfl
  have p2 : urlParse sampleEnv (goString "data:text/csv") = .ok ⟨goString "data", []⟩ := by
    rfl
  refine ⟨p1, ?_, p2, (openInput_data_uri sampleEnv _ _ p2 rfl).1 (by decide)⟩
  obtain ⟨scheme, part, hhead, hlow, hall⟩ :=
    (openInput_data_uri sampleEnv _ _ p1 rfl).2 (goString "data:text/csv") (goString "a,b")
      (by decide) (by decide)
  have hlen : scheme.length = 4 := by
    have := congrArg List.length hlow
    simpa [ToLower] using this
  have hsplit : goString "data:text/csv" = goString "data" ++ 58 :: goString "text/csv" := by
    decide
  rw [hsplit] at hhead
  obtain ⟨_, h2⟩ := List.append_inj hhead (by rw [hlen]; decide)
  simp only [List.cons.injEq, true_and] at h2
  subst h2
  rw [(hall (goString "text/csv") [] (Or.inl ⟨by decide, rfl, rfl⟩)).2.1 rfl]
  rfl

end Htmlq
